import Mathlib

/-!
# Masternode payments and governance blocks

A shallow embedding of the block-payment code of
`src/masternodes/governance-classes.cpp` and
`src/masternodes/masternode-payments.cpp`, followed by theorems about it.

Conventions of the embedding:

* `int` and `CAmount` (a 64-bit signed integer) are modelled by `Int`; the C++
  operator `%` truncates towards zero and is `Int.tmod`. Where an operand of an
  `int` operation arrives unchecked from a peer or from a governance object
  (the subtraction in `CheckAndRemove`, the sum in `IsExpired`), the result is
  the 32-bit value that the compiled code computes, `int32`; elsewhere the
  operands are chain heights and amounts far from the bounds and the exact
  result is used.
* `CScript`, `uint256` and signatures are byte strings; a script is a list of
  byte values and a digest is a natural number.
* `std::vector` is `List`; `std::map` is an association list in iteration
  (ascending key) order, whose operations (`find`, `emplace`, `operator[]`,
  `erase`) are the functions `mapFind`, `mapEmplace`, `mapSet`, `mapErase`.
* Code that lives outside these two files (the subsidy schedule, the
  masternode registry, signature checks, the chain index) enters as a field of
  a parameter record.
* Logging is omitted.
-/

namespace GenesisRoot

/-! ## Basic data -/

/-- A payee script: an opaque byte string compared byte by byte. -/
abbrev CScript := List Nat

/-- A 256-bit digest. -/
abbrev uint256 := Nat

/-- The value that a 32-bit `int` holds after an operation whose exact result is
`x`: the two's complement wrap-around of the compiled code. -/
def int32 (x : Int) : Int := (x + 2147483648) % 4294967296 - 2147483648

/-- A transaction output: `CTxOut(nValue, scriptPubKey)`. -/
structure CTxOut where
  nValue : Int
  scriptPubKey : CScript
deriving DecidableEq, Repr

/-- A transaction, reduced to its vector of outputs `vout`. -/
structure CTransaction where
  vout : List CTxOut
deriving DecidableEq, Repr

/-- Modelled from the spec: `CTransaction::GetValueOut` is declared outside these
sources; the spec reads it as `sum(tx.outputs.value)`. -/
def CTransaction.GetValueOut (tx : CTransaction) : Int :=
  (tx.vout.map CTxOut.nValue).sum

/-- A block, reduced to its transactions; `vtx[0]` is the coinbase. -/
structure CBlock where
  vtx : List CTransaction
deriving DecidableEq, Repr

/-- The consensus constants read through `Params().GetConsensus()`, together
with the block-subsidy schedule `GetBlockSubsidy(nHeight, params, fGovernance)`
of `validation.cpp` and the masternode share `GetMasternodePayment(nHeight,
blockReward)`. -/
structure ConsensusParams where
  nMasternodePaymentsStartBlock : Int
  megaBlockInterval : Int
  superBlockInterval : Int
  bonusBlockInterval : Int
  nGovernanceBlockOffset : Int
  GetBlockSubsidy : Int → Bool → Int
  GetMasternodePayment : Int → Int → Int

/-! ## std::map as an association list -/

/-- The value stored under key `k`, as found by `std::map::find`. -/
def mapFind {κ ν : Type} [DecidableEq κ] (k : κ) : List (κ × ν) → Option ν
  | [] => none
  | (k', v) :: rest => if k' = k then some v else mapFind k rest

/-- Put a new entry before the first larger key, which keeps a key-sorted list
sorted. -/
def mapInsert {κ ν : Type} [LT κ] [DecidableRel (fun a b : κ => a < b)]
    (k : κ) (v : ν) : List (κ × ν) → List (κ × ν)
  | [] => [(k, v)]
  | (k', v') :: rest =>
    if k < k' then (k, v) :: (k', v') :: rest else (k', v') :: mapInsert k v rest

/-- Overwrite the value of the entry that `mapFind` finds under `k`. -/
def mapReplace {κ ν : Type} [DecidableEq κ] (k : κ) (v : ν) : List (κ × ν) → List (κ × ν)
  | [] => []
  | (k', v') :: rest => if k' = k then (k, v) :: rest else (k', v') :: mapReplace k v rest

/-- Overwrite or create the entry of `k`: `m[k] = v`. -/
def mapSet {κ ν : Type} [DecidableEq κ] [LT κ] [DecidableRel (fun a b : κ => a < b)]
    (k : κ) (v : ν) (m : List (κ × ν)) : List (κ × ν) :=
  if (mapFind k m).isSome then mapReplace k v m else mapInsert k v m

/-- Insert `(k, v)` unless the key is present: `m.emplace(k, v)`. -/
def mapEmplace {κ ν : Type} [DecidableEq κ] [LT κ] [DecidableRel (fun a b : κ => a < b)]
    (k : κ) (v : ν) (m : List (κ × ν)) : List (κ × ν) :=
  if (mapFind k m).isSome then m else mapInsert k v m

/-- Remove every entry of key `k`: `m.erase(k)`. -/
def mapErase {κ ν : Type} [DecidableEq κ] (k : κ) (m : List (κ × ν)) : List (κ × ν) :=
  m.filter (fun e => decide (e.1 ≠ k))

/-! ## Governance payments and triggers (governance-classes.h) -/

/-- A governance payment: script and amount, with the validity flag set by the
constructor. -/
structure CGovernancePayment where
  fValid : Bool
  script : CScript
  nAmount : Int
deriving DecidableEq, Repr

/-- Status codes of a seen governance object; `SEEN_OBJECT_OTHER` stands for
every code that these sources do not name. -/
inductive SeenObject where
  | SEEN_OBJECT_IS_VALID
  | SEEN_OBJECT_ERROR_INVALID
  | SEEN_OBJECT_OTHER
  | SEEN_OBJECT_EXECUTED
  | SEEN_OBJECT_UNKNOWN
deriving DecidableEq, Repr

/-- A governance-block trigger: `CGovernanceBlock`. -/
structure CGovernanceBlock where
  nGovObjHash : uint256
  nBlockHeight : Int
  nStatus : SeenObject
  vecPayments : List CGovernancePayment
deriving DecidableEq, Repr

/-- `CGovernanceBlock::IsValidBlockHeight`. -/
def CGovernanceBlock.IsValidBlockHeight (P : ConsensusParams) (nBlockHeight : Int) : Bool :=
  decide (nBlockHeight ≥ P.nMasternodePaymentsStartBlock) &&
    decide (Int.tmod nBlockHeight P.megaBlockInterval = P.nGovernanceBlockOffset)

/-- `CGovernanceBlock::GetNearestGovernanceBlocksHeights`; the result is the pair
`(nLastGovernanceBlockRet, nNextGovernanceBlockRet)`. -/
def CGovernanceBlock.GetNearestGovernanceBlocksHeights (P : ConsensusParams)
    (nBlockHeight : Int) : Int × Int :=
  let nMasternodePaymentsStartBlock := P.nMasternodePaymentsStartBlock
  let nGovernanceBlockCycle := P.megaBlockInterval
  let nGovernanceBlockOffset := P.nGovernanceBlockOffset
  let nFirstGovernanceBlockOffset :=
    Int.tmod (nGovernanceBlockCycle - Int.tmod nMasternodePaymentsStartBlock nGovernanceBlockCycle)
      nGovernanceBlockCycle + nGovernanceBlockOffset
  let nFirstGovernanceBlock := nMasternodePaymentsStartBlock + nFirstGovernanceBlockOffset
  if nBlockHeight < nFirstGovernanceBlock then
    (0, nFirstGovernanceBlock)
  else
    let nLastGovernanceBlockRet :=
      (nBlockHeight - Int.tmod nBlockHeight nGovernanceBlockCycle) + nGovernanceBlockOffset
    (nLastGovernanceBlockRet, (nLastGovernanceBlockRet + nGovernanceBlockCycle) + nGovernanceBlockOffset)

/-- `CGovernanceBlock::GetPaymentsLimit`. -/
def CGovernanceBlock.GetPaymentsLimit (P : ConsensusParams) (nBlockHeight : Int) : Int :=
  if !CGovernanceBlock.IsValidBlockHeight P nBlockHeight then 0
  else P.GetBlockSubsidy nBlockHeight true

/-- `CGovernanceBlock::CountPayments`. -/
def CGovernanceBlock.CountPayments (g : CGovernanceBlock) : Nat :=
  g.vecPayments.length

/-- `CGovernanceBlock::GetPayment`: the payment at an index, or failure when the
index is out of range. -/
def CGovernanceBlock.GetPayment (g : CGovernanceBlock) (nPaymentIndex : Nat) :
    Option CGovernancePayment :=
  if nPaymentIndex ≥ g.vecPayments.length then none else g.vecPayments[nPaymentIndex]?

/-- `CGovernanceBlock::GetPaymentsTotalAmount`. -/
def CGovernanceBlock.GetPaymentsTotalAmount (g : CGovernanceBlock) : Int :=
  (g.vecPayments.map CGovernancePayment.nAmount).sum

/-- The inner loop of `CGovernanceBlock::IsValid`: scan the outputs from index
`j` on (here the list is the tail of `vout` that starts at `j`) and return the
index of the first output equal to the payment in script and amount. -/
def CGovernanceBlock.findPayment (payment : CGovernancePayment) : List CTxOut → Nat → Option Nat
  | [], _ => none
  | txout :: rest, j =>
    if payment.script = txout.scriptPubKey ∧ payment.nAmount = txout.nValue then some j
    else CGovernanceBlock.findPayment payment rest (j + 1)

/-- The outer loop of `CGovernanceBlock::IsValid`: `todo` iterations remain, the
loop variable is `i` and the scan of the outputs resumes at `nVoutIndex`. -/
def CGovernanceBlock.paymentsLoop (g : CGovernanceBlock) (vout : List CTxOut) :
    Nat → Nat → Nat → Bool
  | 0, _, _ => true
  | todo + 1, i, nVoutIndex =>
    match g.GetPayment i with
    | none => CGovernanceBlock.paymentsLoop g vout todo (i + 1) nVoutIndex
    | some payment =>
      match CGovernanceBlock.findPayment payment (vout.drop nVoutIndex) nVoutIndex with
      | some j => CGovernanceBlock.paymentsLoop g vout todo (i + 1) j
      | none => false

/-- `CGovernanceBlock::IsValid`: does the transaction match this governance
block? -/
def CGovernanceBlock.IsValid (P : ConsensusParams) (g : CGovernanceBlock) (txNew : CTransaction)
    (nBlockHeight : Int) (blockReward : Int) : Bool :=
  if !CGovernanceBlock.IsValidBlockHeight P nBlockHeight then false
  else
    let nOutputs : Int := txNew.vout.length
    let nPayments : Int := g.CountPayments
    let nMinerPayments := nOutputs - nPayments
    if nMinerPayments < 0 then false
    else
      let nPaymentsTotalAmount := g.GetPaymentsTotalAmount
      let nPaymentsLimit := CGovernanceBlock.GetPaymentsLimit P nBlockHeight
      if nPaymentsTotalAmount > nPaymentsLimit then false
      else
        let nBlockValue := txNew.GetValueOut
        if nBlockValue > blockReward + nPaymentsTotalAmount then false
        else CGovernanceBlock.paymentsLoop g txNew.vout g.CountPayments 0 0

/-! ## Governance objects and the trigger manager -/

/-- The part of a `CGovernanceObject` that the trigger code reads or writes.
`nAbsoluteYesCountFunding` is `GetAbsoluteYesCount(VOTE_SIGNAL_FUNDING)`. -/
structure CGovernanceObject where
  nObjectType : Int
  fCachedFunding : Bool
  fCachedDelete : Bool
  fExpired : Bool
  nDeletionTime : Int
  nAbsoluteYesCountFunding : Int
deriving DecidableEq, Repr

/-- The global `governance`: the object store, the cached chain height, and
`CGovernanceObject::UpdateSentinelVariables`, which recomputes the cached flags
of an object from its votes (declared outside these sources). -/
structure CGovernanceManager where
  mapObjects : List (uint256 × CGovernanceObject)
  nCachedBlockHeight : Int
  UpdateSentinelVariables : CGovernanceObject → CGovernanceObject

/-- `CGovernanceManager::FindGovernanceObject`. -/
def CGovernanceManager.FindGovernanceObject (governance : CGovernanceManager) (nHash : uint256) :
    Option CGovernanceObject :=
  mapFind nHash governance.mapObjects

/-- `CGovernanceBlock::GetGovernanceObject`. -/
def CGovernanceBlock.GetGovernanceObject (governance : CGovernanceManager) (g : CGovernanceBlock) :
    Option CGovernanceObject :=
  governance.FindGovernanceObject g.nGovObjHash

/-- The global `triggerman`; a shared pointer may be null, hence the `Option`. -/
structure CGovernanceTriggerManager where
  mapTrigger : List (uint256 × Option CGovernanceBlock)
deriving DecidableEq, Repr

/-- `CGovernanceTriggerManager::GetActiveTriggers`. -/
def CGovernanceTriggerManager.GetActiveTriggers (governance : CGovernanceManager)
    (triggerman : CGovernanceTriggerManager) : List (Option CGovernanceBlock) :=
  (triggerman.mapTrigger.filter
    (fun it => (governance.FindGovernanceObject it.1).isSome)).map Prod.snd

/-- The loop of `CGovernanceBlockManager::IsGovernanceBlockTriggered` over the
active triggers. -/
def CGovernanceBlockManager.triggeredLoop (governance : CGovernanceManager) (nBlockHeight : Int) :
    List (Option CGovernanceBlock) → Bool
  | [] => false
  | none :: rest => CGovernanceBlockManager.triggeredLoop governance nBlockHeight rest
  | some pGovernanceBlock :: rest =>
    match pGovernanceBlock.GetGovernanceObject governance with
    | none => CGovernanceBlockManager.triggeredLoop governance nBlockHeight rest
    | some pObj =>
      if nBlockHeight ≠ pGovernanceBlock.nBlockHeight then
        CGovernanceBlockManager.triggeredLoop governance nBlockHeight rest
      else if (governance.UpdateSentinelVariables pObj).fCachedFunding then true
      else CGovernanceBlockManager.triggeredLoop governance nBlockHeight rest

/-- `CGovernanceBlockManager::IsGovernanceBlockTriggered`. The flags refreshed by
`UpdateSentinelVariables` are read here only, right after the refresh. -/
def CGovernanceBlockManager.IsGovernanceBlockTriggered (P : ConsensusParams)
    (governance : CGovernanceManager) (triggerman : CGovernanceTriggerManager)
    (nBlockHeight : Int) : Bool :=
  if !CGovernanceBlock.IsValidBlockHeight P nBlockHeight then false
  else CGovernanceBlockManager.triggeredLoop governance nBlockHeight
    (triggerman.GetActiveTriggers governance)

/-- The loop of `CGovernanceBlockManager::GetBestGovernanceBlock`; the state is
`(nYesCount, pGovernanceBlockRet)`. -/
def CGovernanceBlockManager.bestLoop (governance : CGovernanceManager) (nBlockHeight : Int) :
    List (Option CGovernanceBlock) → Int × Option CGovernanceBlock → Int × Option CGovernanceBlock
  | [], acc => acc
  | none :: rest, acc => CGovernanceBlockManager.bestLoop governance nBlockHeight rest acc
  | some pGovernanceBlock :: rest, acc =>
    match pGovernanceBlock.GetGovernanceObject governance with
    | none => CGovernanceBlockManager.bestLoop governance nBlockHeight rest acc
    | some pObj =>
      if nBlockHeight ≠ pGovernanceBlock.nBlockHeight then
        CGovernanceBlockManager.bestLoop governance nBlockHeight rest acc
      else
        let nTempYesCount := pObj.nAbsoluteYesCountFunding
        if nTempYesCount > acc.1 then
          CGovernanceBlockManager.bestLoop governance nBlockHeight rest
            (nTempYesCount, some pGovernanceBlock)
        else CGovernanceBlockManager.bestLoop governance nBlockHeight rest acc

/-- `CGovernanceBlockManager::GetBestGovernanceBlock`: the returned flag and the
out-parameter `pGovernanceBlockRet`, which every caller passes in null. -/
def CGovernanceBlockManager.GetBestGovernanceBlock (P : ConsensusParams)
    (governance : CGovernanceManager) (triggerman : CGovernanceTriggerManager)
    (nBlockHeight : Int) : Bool × Option CGovernanceBlock :=
  if !CGovernanceBlock.IsValidBlockHeight P nBlockHeight then (false, none)
  else
    let r := CGovernanceBlockManager.bestLoop governance nBlockHeight
      (triggerman.GetActiveTriggers governance) (0, none)
    (decide (r.1 > 0), r.2)

/-- The loop of `CGovernanceBlockManager::CreateGovernanceBlock`: `todo`
iterations remain and the loop variable is `i`; the state is
`(txNewRet.vout, vtxoutGovernanceRet)`. -/
def CGovernanceBlockManager.createLoop (g : CGovernanceBlock) :
    Nat → Nat → List CTxOut × List CTxOut → List CTxOut × List CTxOut
  | 0, _, acc => acc
  | todo + 1, i, acc =>
    match g.GetPayment i with
    | some payment =>
      let txout : CTxOut := ⟨payment.nAmount, payment.script⟩
      CGovernanceBlockManager.createLoop g todo (i + 1) (acc.1 ++ [txout], acc.2 ++ [txout])
    | none => CGovernanceBlockManager.createLoop g todo (i + 1) acc

/-- `CGovernanceBlockManager::CreateGovernanceBlock`: the transaction and the
vector `vtxoutGovernanceRet` after the call. -/
def CGovernanceBlockManager.CreateGovernanceBlock (P : ConsensusParams)
    (governance : CGovernanceManager) (triggerman : CGovernanceTriggerManager)
    (txNewRet : CTransaction) (nBlockHeight : Int) (vtxoutGovernanceRet : List CTxOut) :
    CTransaction × List CTxOut :=
  match CGovernanceBlockManager.GetBestGovernanceBlock P governance triggerman nBlockHeight with
  | (true, some pGovernanceBlock) =>
    let r := CGovernanceBlockManager.createLoop pGovernanceBlock pGovernanceBlock.CountPayments 0
      (txNewRet.vout, [])
    (⟨r.1⟩, r.2)
  | _ => (txNewRet, vtxoutGovernanceRet)

/-- `CGovernanceBlockManager::IsValid`. -/
def CGovernanceBlockManager.IsValid (P : ConsensusParams) (governance : CGovernanceManager)
    (triggerman : CGovernanceTriggerManager) (txNew : CTransaction) (nBlockHeight : Int)
    (blockReward : Int) : Bool :=
  match CGovernanceBlockManager.GetBestGovernanceBlock P governance triggerman nBlockHeight with
  | (true, some pGovernanceBlock) => pGovernanceBlock.IsValid P txNew nBlockHeight blockReward
  | _ => false

/-! ## Payment votes and tallies (masternode-payments.h) -/

/-- Quorum of votes that makes a payee binding. -/
def MNPAYMENTS_SIGNATURES_REQUIRED : Int := 6

/-- Number of top-ranked masternodes that may vote. -/
def MNPAYMENTS_SIGNATURES_TOTAL : Int := 10

/-- Distance past the last checkpoint from which payments are enforced. -/
def MN_PAYMENTS_UPDATE_THRESHOLD : Int := 4000

/-- A collateral outpoint `(hash, n)`, the identity of a masternode. -/
structure COutPoint where
  hash : uint256
  n : Nat
deriving DecidableEq, Repr

/-- Order of outpoints: by hash, then by index. -/
instance COutPoint.instLT : LT COutPoint :=
  ⟨fun a b => a.hash < b.hash ∨ (a.hash = b.hash ∧ a.n < b.n)⟩

/-- The order of outpoints is decidable. -/
instance COutPoint.decLT : DecidableRel (fun a b : COutPoint => a < b) :=
  fun a b => inferInstanceAs (Decidable (a.hash < b.hash ∨ (a.hash = b.hash ∧ a.n < b.n)))

/-- A payee of one height with the hashes of the votes that name it. -/
structure CMasternodePayee where
  scriptPubKey : CScript
  vecVoteHashes : List uint256
deriving DecidableEq, Repr

/-- `CMasternodePayee::GetPayee`. -/
def CMasternodePayee.GetPayee (p : CMasternodePayee) : CScript := p.scriptPubKey

/-- `CMasternodePayee::AddVoteHash`. -/
def CMasternodePayee.AddVoteHash (p : CMasternodePayee) (hashIn : uint256) : CMasternodePayee :=
  { p with vecVoteHashes := p.vecVoteHashes ++ [hashIn] }

/-- `CMasternodePayee::GetVoteCount`. -/
def CMasternodePayee.GetVoteCount (p : CMasternodePayee) : Int := p.vecVoteHashes.length

/-- The tally of one height: `CMasternodeBlockPayees`. -/
structure CMasternodeBlockPayees where
  nBlockHeight : Int
  vecPayees : List CMasternodePayee
deriving DecidableEq, Repr

/-- A payment vote: `CMasternodePaymentVote`. -/
structure CMasternodePaymentVote where
  masternodeOutpoint : COutPoint
  nBlockHeight : Int
  payee : CScript
  activationBlockHeight : Int
  vchSig : List Nat
deriving DecidableEq, Repr

/-- `CMasternodePaymentVote::IsVerified`. -/
def CMasternodePaymentVote.IsVerified (vote : CMasternodePaymentVote) : Bool :=
  !vote.vchSig.isEmpty

/-- `CMasternodePaymentVote::MarkAsNotVerified`. -/
def CMasternodePaymentVote.MarkAsNotVerified (vote : CMasternodePaymentVote) :
    CMasternodePaymentVote :=
  { vote with vchSig := [] }

/-- The registry record of a masternode, as far as the payment code reads it. -/
structure masternode_info_t where
  nProtocolVersion : Int
  pubKeyMasternode : List Nat
  pubKeyCollateralAddress : List Nat
  outpoint : COutPoint
deriving DecidableEq, Repr

/-- What the payment code reads from the rest of the node: mode flags, the sync
state (`masternodeSync`), the active chain, the digest functions, the masternode
registry (`mnodeman`), the signature checks and the checkpoints.
`nStorageLimit` is the value of `CMasternodePayments::GetStorageLimit()`, which
is computed from the size of the registry. -/
structure NodeEnv where
  fLiteMode : Bool
  fMasternodeMode : Bool
  IsSynced : Bool
  IsMasternodeListSynced : Bool
  IsBlockchainSynced : Bool
  chainActiveHeight : Int
  nMasternodeSignHashThreshold : Int
  MIN_MASTERNODE_PAYMENT_PROTO_VERSION : Int
  nStorageLimit : Int
  HashWriter : CScript → Int → COutPoint → uint256
  SerializeHash : CMasternodePaymentVote → uint256
  GetMasternodeInfo : COutPoint → Option masternode_info_t
  GetMasternodeRank : COutPoint → Int → Int → Option Int
  VerifyHash : uint256 → List Nat → List Nat → Bool
  VerifyMessage : List Nat → List Nat → String → Bool
  ToStringShort : COutPoint → String
  ScriptToAsmStr : CScript → String
  GetBlockHash : Int → Option uint256
  GetLastCheckpoint : Option Int

/-- `CMasternodePaymentVote::GetHash`: the digest of payee, height and voter. -/
def CMasternodePaymentVote.GetHash (env : NodeEnv) (vote : CMasternodePaymentVote) : uint256 :=
  env.HashWriter vote.payee vote.nBlockHeight vote.masternodeOutpoint

/-- `CMasternodePaymentVote::GetSignatureHash`: the digest of the vote serialized
for hashing, which leaves the signature out. -/
def CMasternodePaymentVote.GetSignatureHash (env : NodeEnv) (vote : CMasternodePaymentVote) :
    uint256 :=
  env.SerializeHash vote.MarkAsNotVerified

/-- The legacy message that `Sign` and `CheckSignature` build. -/
def CMasternodePaymentVote.strMessage (env : NodeEnv) (vote : CMasternodePaymentVote) : String :=
  env.ToStringShort vote.masternodeOutpoint ++ toString vote.nBlockHeight ++
    env.ScriptToAsmStr vote.payee

/-- `CMasternodePaymentVote::CheckSignature`: the result and `nDos`. -/
def CMasternodePaymentVote.CheckSignature (env : NodeEnv) (vote : CMasternodePaymentVote)
    (pubKeyMasternode : List Nat) (nValidationHeight : Int) : Bool × Int :=
  if env.chainActiveHeight > env.nMasternodeSignHashThreshold then
    let hash := vote.GetSignatureHash env
    if !env.VerifyHash hash pubKeyMasternode vote.vchSig then
      if !env.VerifyMessage pubKeyMasternode vote.vchSig (vote.strMessage env) then
        if env.IsMasternodeListSynced && decide (vote.nBlockHeight > nValidationHeight) then
          (false, 20)
        else (false, 0)
      else (true, 0)
    else (true, 0)
  else
    if !env.VerifyMessage pubKeyMasternode vote.vchSig (vote.strMessage env) then
      if env.IsMasternodeListSynced && decide (vote.nBlockHeight > nValidationHeight) then
        (false, 20)
      else (false, 0)
    else (true, 0)

/-- `CMasternodePaymentVote::IsValid`: the result and the misbehaviour score
added to the sending peer. -/
def CMasternodePaymentVote.IsValid (env : NodeEnv) (vote : CMasternodePaymentVote)
    (nValidationHeight : Int) : Bool × Int :=
  match env.GetMasternodeInfo vote.masternodeOutpoint with
  | none => (false, 0)
  | some mnInfo =>
    let nMinRequiredProtocol := env.MIN_MASTERNODE_PAYMENT_PROTO_VERSION
    if mnInfo.nProtocolVersion < nMinRequiredProtocol then (false, 0)
    else if !env.fMasternodeMode && decide (vote.nBlockHeight < nValidationHeight) then (true, 0)
    else
      match env.GetMasternodeRank vote.masternodeOutpoint (vote.nBlockHeight - 101)
          nMinRequiredProtocol with
      | none => (false, 0)
      | some nRank =>
        if nRank > MNPAYMENTS_SIGNATURES_TOTAL then
          if nRank > MNPAYMENTS_SIGNATURES_TOTAL * 2 ∧ vote.nBlockHeight > nValidationHeight then
            (false, 20)
          else (false, 0)
        else (true, 0)

/-- The loop of `CMasternodeBlockPayees::AddPayee` over `vecPayees`, ending with
the `push_back` of a new payee. -/
def CMasternodeBlockPayees.addLoop (payeeIn : CScript) (nVoteHash : uint256) :
    List CMasternodePayee → List CMasternodePayee
  | [] => [⟨payeeIn, [nVoteHash]⟩]
  | payee :: rest =>
    if payee.GetPayee = payeeIn then payee.AddVoteHash nVoteHash :: rest
    else payee :: CMasternodeBlockPayees.addLoop payeeIn nVoteHash rest

/-- `CMasternodeBlockPayees::AddPayee`. -/
def CMasternodeBlockPayees.AddPayee (env : NodeEnv) (t : CMasternodeBlockPayees)
    (vote : CMasternodePaymentVote) : CMasternodeBlockPayees :=
  { t with vecPayees := CMasternodeBlockPayees.addLoop vote.payee (vote.GetHash env) t.vecPayees }

/-- The loop of `CMasternodeBlockPayees::GetBestPayee`; the state is
`(nVotes, payeeRet)`. -/
def CMasternodeBlockPayees.bestLoop :
    List CMasternodePayee → Int × Option CScript → Int × Option CScript
  | [], acc => acc
  | payee :: rest, acc =>
    if payee.GetVoteCount > acc.1 then
      CMasternodeBlockPayees.bestLoop rest (payee.GetVoteCount, some payee.GetPayee)
    else CMasternodeBlockPayees.bestLoop rest acc

/-- `CMasternodeBlockPayees::HasPayeeWithVotes`. -/
def CMasternodeBlockPayees.HasPayeeWithVotes (t : CMasternodeBlockPayees) (payeeIn : CScript)
    (nVotesReq : Int) : Bool :=
  t.vecPayees.any (fun payee => decide (payee.GetVoteCount ≥ nVotesReq ∧ payee.GetPayee = payeeIn))

/-- The first loop of `CMasternodeBlockPayees::IsTransactionValid`, which computes
`nMaxSignatures`. -/
def CMasternodeBlockPayees.maxLoop : List CMasternodePayee → Int → Int
  | [], nMaxSignatures => nMaxSignatures
  | payee :: rest, nMaxSignatures =>
    if payee.GetVoteCount ≥ nMaxSignatures then
      CMasternodeBlockPayees.maxLoop rest payee.GetVoteCount
    else CMasternodeBlockPayees.maxLoop rest nMaxSignatures

/-- The loop over the outputs in `CMasternodeBlockPayees::IsTransactionValid`. -/
def CMasternodeBlockPayees.voutLoop (payee : CMasternodePayee) (nMasternodePayment : Int) :
    List CTxOut → Bool
  | [] => false
  | txout :: rest =>
    if payee.GetPayee = txout.scriptPubKey ∧ txout.nValue ≥ nMasternodePayment ∧
        txout.nValue ≤ nMasternodePayment + 10000000 then true
    else CMasternodeBlockPayees.voutLoop payee nMasternodePayment rest

/-- The second loop of `CMasternodeBlockPayees::IsTransactionValid`, over the
payees. -/
def CMasternodeBlockPayees.payeesLoop (vout : List CTxOut) (nMasternodePayment : Int) :
    List CMasternodePayee → Bool
  | [] => false
  | payee :: rest =>
    if payee.GetVoteCount ≥ MNPAYMENTS_SIGNATURES_REQUIRED then
      if CMasternodeBlockPayees.voutLoop payee nMasternodePayment vout then true
      else CMasternodeBlockPayees.payeesLoop vout nMasternodePayment rest
    else CMasternodeBlockPayees.payeesLoop vout nMasternodePayment rest

/-- `CMasternodeBlockPayees::IsTransactionValid`. -/
def CMasternodeBlockPayees.IsTransactionValid (P : ConsensusParams) (t : CMasternodeBlockPayees)
    (txNew : CTransaction) (nBlockHeight : Int) (blockReward : Int) : Bool :=
  let nMasternodePayment := P.GetMasternodePayment nBlockHeight blockReward
  let nMaxSignatures := CMasternodeBlockPayees.maxLoop t.vecPayees 0
  if nMaxSignatures < MNPAYMENTS_SIGNATURES_REQUIRED then true
  else CMasternodeBlockPayees.payeesLoop txNew.vout nMasternodePayment t.vecPayees

/-! ## The payment engine (class CMasternodePayments) -/

/-- The global `mnpayments`: cached tip height, the vote store, the tallies per
height and the record of each voter's last vote height. -/
structure CMasternodePayments where
  nCachedBlockHeight : Int
  mapMasternodePaymentVotesPrimary : List (uint256 × CMasternodePaymentVote)
  mapMasternodeBlocksPrimary : List (Int × CMasternodeBlockPayees)
  mapMasternodesLastVote : List (COutPoint × Int)
  mapMasternodesDidNotVote : List (COutPoint × Int)
deriving DecidableEq, Repr

/-- The engine right after construction or `Clear`. -/
def CMasternodePayments.empty (nCachedBlockHeight : Int) : CMasternodePayments :=
  ⟨nCachedBlockHeight, [], [], [], []⟩

/-- `CMasternodePayments::GetStorageLimit`. -/
def CMasternodePayments.GetStorageLimit (env : NodeEnv) : Int := env.nStorageLimit

/-- `CMasternodePayments::UpdateLastVote`: the result and the engine after the
call. -/
def CMasternodePayments.UpdateLastVote (mnpayments : CMasternodePayments)
    (vote : CMasternodePaymentVote) : Bool × CMasternodePayments :=
  match mapFind vote.masternodeOutpoint mnpayments.mapMasternodesLastVote with
  | some second =>
    if second = vote.nBlockHeight then (false, mnpayments)
    else
      let last := mapSet vote.masternodeOutpoint vote.nBlockHeight
        mnpayments.mapMasternodesLastVote
      (true, { mnpayments with mapMasternodesLastVote := last })
  | none =>
    let last := mapEmplace vote.masternodeOutpoint vote.nBlockHeight
      mnpayments.mapMasternodesLastVote
    (true, { mnpayments with mapMasternodesLastVote := last })

/-- `CMasternodePayments::HasVerifiedPaymentVote`. -/
def CMasternodePayments.HasVerifiedPaymentVote (mnpayments : CMasternodePayments)
    (hashIn : uint256) : Bool :=
  match mapFind hashIn mnpayments.mapMasternodePaymentVotesPrimary with
  | some second => second.IsVerified
  | none => false

/-- `CMasternodePayments::AddOrUpdatePaymentVote`: the result and the engine
after the call. -/
def CMasternodePayments.AddOrUpdatePaymentVote (env : NodeEnv) (mnpayments : CMasternodePayments)
    (vote : CMasternodePaymentVote) : Bool × CMasternodePayments :=
  match env.GetBlockHash (vote.nBlockHeight - 101) with
  | none => (false, mnpayments)
  | some _ =>
    let nVoteHash := vote.GetHash env
    if mnpayments.HasVerifiedPaymentVote nVoteHash then (false, mnpayments)
    else
      let votes := mapSet nVoteHash vote mnpayments.mapMasternodePaymentVotesPrimary
      let blocks := mapEmplace vote.nBlockHeight (⟨vote.nBlockHeight, []⟩ : CMasternodeBlockPayees)
        mnpayments.mapMasternodeBlocksPrimary
      let blocks :=
        match mapFind vote.nBlockHeight blocks with
        | some second => mapSet vote.nBlockHeight (second.AddPayee env vote) blocks
        | none => blocks
      (true, { mnpayments with
        mapMasternodePaymentVotesPrimary := votes, mapMasternodeBlocksPrimary := blocks })

/-- `CMasternodePayments::IsTransactionValid`. -/
def CMasternodePayments.IsTransactionValid (P : ConsensusParams) (mnpayments : CMasternodePayments)
    (txNew : CTransaction) (nBlockHeight : Int) (blockReward : Int) : Bool :=
  match mapFind nBlockHeight mnpayments.mapMasternodeBlocksPrimary with
  | none => true
  | some second => second.IsTransactionValid P txNew nBlockHeight blockReward

/-- `CMasternodePayments::ProcessMessage` for the command
`MASTERNODEPAYMENTVOTEPRIMARY`, with the vote already read from the stream: the
engine after the call and the misbehaviour score given to the peer. Messages
sent to peers (reject, masternode request, relay) are left out.
`seen` is the entry under the hash before `emplace(nHash, vote)`, so
`res.second` is `seen.isNone` and `res.first->second` is `stored`; clearing the
signature of that entry in place is the `mapSet` that follows. -/
def CMasternodePayments.ProcessMessage (env : NodeEnv) (mnpayments : CMasternodePayments)
    (pfromVersion : Int) (vote : CMasternodePaymentVote) : CMasternodePayments × Int :=
  if env.fLiteMode then (mnpayments, 0)
  else if pfromVersion < env.MIN_MASTERNODE_PAYMENT_PROTO_VERSION then (mnpayments, 0)
  else
    let nHash := vote.GetHash env
    if !env.IsMasternodeListSynced then (mnpayments, 0)
    else
      let seen := mapFind nHash mnpayments.mapMasternodePaymentVotesPrimary
      let stored := seen.getD vote
      if seen.isSome && stored.IsVerified then (mnpayments, 0)
      else
        let votes := mapSet nHash stored.MarkAsNotVerified
          mnpayments.mapMasternodePaymentVotesPrimary
        let mnpayments := { mnpayments with mapMasternodePaymentVotesPrimary := votes }
        let nFirstBlock := mnpayments.nCachedBlockHeight - CMasternodePayments.GetStorageLimit env
        if vote.nBlockHeight < nFirstBlock ∨ vote.nBlockHeight > mnpayments.nCachedBlockHeight + 20
        then (mnpayments, 0)
        else
          let valid := vote.IsValid env mnpayments.nCachedBlockHeight
          if !valid.1 then (mnpayments, valid.2)
          else
            match env.GetMasternodeInfo vote.masternodeOutpoint with
            | none => (mnpayments, valid.2)
            | some mnInfo =>
              let sig := vote.CheckSignature env mnInfo.pubKeyMasternode
                mnpayments.nCachedBlockHeight
              if !sig.1 then (mnpayments, valid.2 + sig.2)
              else
                let last := mnpayments.UpdateLastVote vote
                if !last.1 then (last.2, valid.2 + sig.2)
                else ((CMasternodePayments.AddOrUpdatePaymentVote env last.2 vote).2,
                  valid.2 + sig.2)

/-! ## The block-payment gate -/

/-- `EnforceMasternodePayments`; `GetLastCheckpoint` is the height of the last
checkpoint, if there is one. -/
def EnforceMasternodePayments (env : NodeEnv) (nHeight : Int) : Bool :=
  match env.GetLastCheckpoint with
  | some pcheckpointHeight => decide (nHeight > pcheckpointHeight + MN_PAYMENTS_UPDATE_THRESHOLD)
  | none => false

/-- `IsBlockValueValid`: the result and `strErrorRet`. Indexing `block.vtx[0]`
needs a coinbase; without one there is no result. -/
def IsBlockValueValid (P : ConsensusParams) (env : NodeEnv) (governance : CGovernanceManager)
    (triggerman : CGovernanceTriggerManager) (block : CBlock) (nBlockHeight : Int)
    (blockReward : Int) : Option (Bool × String) :=
  match block.vtx with
  | [] => none
  | vtx0 :: _ =>
    let isBlockRewardValueMet := decide (vtx0.GetValueOut ≤ blockReward)
    let nGovernanceBlockMaxValue := blockReward + CGovernanceBlock.GetPaymentsLimit P nBlockHeight
    let isGovernanceBlockMaxValueMet := decide (vtx0.GetValueOut ≤ nGovernanceBlockMaxValue)
    if !env.IsSynced || env.fLiteMode then
      if CGovernanceBlock.IsValidBlockHeight P nBlockHeight then
        some (isGovernanceBlockMaxValueMet,
          if !isGovernanceBlockMaxValueMet then
            "coinbase pays too much at height " ++ toString nBlockHeight ++ " (actual=" ++
              toString vtx0.GetValueOut ++ " vs limit=" ++ toString nGovernanceBlockMaxValue ++
              "), exceeded governanceblock max value"
          else "")
      else
        some (isBlockRewardValueMet,
          if !isBlockRewardValueMet then
            "coinbase pays too much at height " ++ toString nBlockHeight ++ " (actual=" ++
              toString vtx0.GetValueOut ++ " vs limit=" ++ toString blockReward ++
              "), exceeded block reward, only regular blocks are allowed at this height"
          else "")
    else if CGovernanceBlockManager.IsGovernanceBlockTriggered P governance triggerman nBlockHeight
    then
      if CGovernanceBlockManager.IsValid P governance triggerman vtx0 nBlockHeight blockReward then
        some (true, "")
      else
        some (false, "invalid governanceblock detected at height " ++ toString nBlockHeight)
    else
      some (isBlockRewardValueMet,
        if !isBlockRewardValueMet then
          "coinbase pays too much at height " ++ toString nBlockHeight ++ " (actual=" ++
            toString vtx0.GetValueOut ++ " vs limit=" ++ toString blockReward ++
            "), exceeded block reward, no triggered governanceblock detected"
        else "")

/-- `IsBlockPayeeValid`. -/
def IsBlockPayeeValid (P : ConsensusParams) (env : NodeEnv) (governance : CGovernanceManager)
    (triggerman : CGovernanceTriggerManager) (mnpayments : CMasternodePayments)
    (txNew : CTransaction) (nBlockHeight : Int) (blockReward : Int) : Bool :=
  if !env.IsSynced || env.fLiteMode then true
  else if CGovernanceBlockManager.IsGovernanceBlockTriggered P governance triggerman nBlockHeight
  then
    if CGovernanceBlockManager.IsValid P governance triggerman txNew nBlockHeight blockReward then
      true
    else false
  else if mnpayments.IsTransactionValid P txNew nBlockHeight blockReward then true
  else if EnforceMasternodePayments env nBlockHeight then false
  else true

/-! ## Parsing a payment schedule (governance-classes.cpp)

A `std::string` is a list of characters here. -/

/-- The scan of `std::string::find`: the first position, counted from `i`, at
which `needle` starts in the rest of the string. -/
def stdFindFrom (needle : List Char) : List Char → Nat → Option Nat
  | [], i => if needle = [] then some i else none
  | c :: rest, i =>
    if (c :: rest).take needle.length = needle then some i
    else stdFindFrom needle rest (i + 1)

/-- `hay.find(needle, pos)` of `std::string`; `none` is `npos`. -/
def stdFind (hay needle : List Char) (pos : Nat) : Option Nat :=
  if pos > hay.length then none else stdFindFrom needle (hay.drop pos) pos

/-- `s.find_first_not_of(chars)` of `std::string`; `none` is `npos`. -/
def stdFindFirstNotOf (s chars : List Char) : Option Nat :=
  let i := s.findIdx (fun c => !chars.contains c)
  if i < s.length then some i else none

/-- `boost::split(vParts, str, boost::is_any_of(delims))` with token compression
off: the string is cut at every delimiter character, and empty tokens are
kept. -/
def boostSplit (delims : List Char) : List Char → List (List Char)
  | [] => [[]]
  | c :: rest =>
    match boostSplit delims rest with
    | [] => [[]]
    | tok :: toks => if delims.contains c then [] :: tok :: toks else (c :: tok) :: toks

/-- The loop of `SplitBy` that erases every part found inside the delimiter
string. -/
def SplitBy.eraseLoop (strDelimit : List Char) : List (List Char) → List (List Char)
  | [] => []
  | part :: rest =>
    if (stdFind strDelimit part 0).isSome then SplitBy.eraseLoop strDelimit rest
    else part :: SplitBy.eraseLoop strDelimit rest

/-- `SplitBy`. -/
def SplitBy (strCommand strDelimit : List Char) : List (List Char) :=
  SplitBy.eraseLoop strDelimit (boostSplit strDelimit strCommand)

/-- The number that a string of decimal digits denotes. -/
def decimalValue (digits : List Char) : Nat :=
  digits.foldl (fun acc c => 10 * acc + (c.toNat - 48)) 0

/-- Modelled from the spec: `ParseFixedPoint(val, decimals, &amount)` is declared
outside these sources. The spec asks an amount to match `^[0-9]+(\.[0-9]+)?$`
and to parse as fixed-point with at most `decimals` fractional digits; the
result is the decimal value multiplied by `10 ^ decimals`. -/
def ParseFixedPoint (val : List Char) (decimals : Nat) : Option Int :=
  let intPart := val.takeWhile Char.isDigit
  let rest := val.dropWhile Char.isDigit
  if intPart.isEmpty then none
  else
    match rest with
    | [] => some ((decimalValue intPart : Int) * 10 ^ decimals)
    | c :: frac =>
      if c = '.' ∧ frac ≠ [] ∧ frac.all Char.isDigit = true ∧ frac.length ≤ decimals then
        some ((decimalValue (intPart ++ frac) : Int) * 10 ^ (decimals - frac.length))
      else none

/-- Modelled from the spec: `MoneyRange` is declared outside these sources; the
spec speaks of the configured money range, here from 0 to `MAX_MONEY`. -/
def MoneyRange (MAX_MONEY : Int) (nValue : Int) : Bool :=
  decide (nValue ≥ 0 ∧ nValue ≤ MAX_MONEY)

/-- `ParsePaymentAmount`; a thrown `std::runtime_error` is an `Except.error` with
its message. -/
def ParsePaymentAmount (MAX_MONEY : Int) (strAmount : List Char) : Except String Int :=
  if strAmount.isEmpty then .error "ParsePaymentAmount: Amount is empty"
  else if strAmount.length > 20 then .error "ParsePaymentAmount: Amount string too long"
  else
    match stdFindFirstNotOf strAmount ['0', '1', '2', '3', '4', '5', '6', '7', '8', '9', '.'] with
    | some _ => .error "ParsePaymentAmount: Amount string contains invalid character"
    | none =>
      let pos := stdFind strAmount ['.'] 0
      if pos = some 0 then
        .error "ParsePaymentAmount: Invalid amount string, leading decimal point not allowed"
      else if pos.any (fun p => (stdFind strAmount ['.'] (p + 1)).isSome) then
        .error "ParsePaymentAmount: Invalid amount string, too many decimal points"
      else
        match ParseFixedPoint strAmount 8 with
        | none =>
          .error ("ParsePaymentAmount: ParseFixedPoint failed for string: " ++
            String.mk strAmount)
        | some nAmount =>
          if !MoneyRange MAX_MONEY nAmount then
            .error "ParsePaymentAmount: Invalid amount string, value outside of valid money range"
          else .ok nAmount

/-- The address layer used by the schedule parser, which lives outside these
sources: `IsValidDestinationString`, and the script
`GetScriptForDestination(DecodeDestination(addr))`, which is `none` when that
computation throws; `MAX_MONEY` bounds the money range. -/
structure AddressCodec where
  IsValidDestinationString : List Char → Bool
  GetScriptForDestination : List Char → Option CScript
  MAX_MONEY : Int

/-- The constructor `CGovernancePayment(addrIn, nAmountIn)`. -/
def CGovernancePayment.fromAddress (codec : AddressCodec) (addrIn : List Char) (nAmountIn : Int) :
    CGovernancePayment :=
  match codec.GetScriptForDestination addrIn with
  | some script => ⟨true, script, nAmountIn⟩
  | none => ⟨false, [], 0⟩

/-- The loop of `CGovernanceBlock::ParsePaymentSchedule` over the parsed
addresses and amounts, which are equally many; the accumulator is
`vecPayments`. -/
def CGovernanceBlock.scheduleLoop (codec : AddressCodec) :
    List (List Char) → List (List Char) → List CGovernancePayment →
      Except String (List CGovernancePayment)
  | addr :: addrs, amount :: amounts, vecPayments =>
    if !codec.IsValidDestinationString addr then
      .error ("CGovernanceBlock::ParsePaymentSchedule -- Invalid Genesis Masternode Address : " ++
        String.mk addr)
    else
      match ParsePaymentAmount codec.MAX_MONEY amount with
      | .error e => .error e
      | .ok nAmount =>
        let payment := CGovernancePayment.fromAddress codec addr nAmount
        if payment.fValid then
          CGovernanceBlock.scheduleLoop codec addrs amounts (vecPayments ++ [payment])
        else
          .error ("CGovernanceBlock::ParsePaymentSchedule -- Invalid payment found: address = " ++
            String.mk addr ++ ", amount = " ++ toString nAmount)
  | _, _, vecPayments => .ok vecPayments

/-- `CGovernanceBlock::ParsePaymentSchedule` on a trigger under construction,
whose `vecPayments` is empty: the payments, or the error thrown. -/
def CGovernanceBlock.ParsePaymentSchedule (codec : AddressCodec)
    (strPaymentAddresses strPaymentAmounts : List Char) :
    Except String (List CGovernancePayment) :=
  let vecParsed1 := SplitBy strPaymentAddresses ['|']
  let vecParsed2 := SplitBy strPaymentAmounts ['|']
  if vecParsed1.length ≠ vecParsed2.length then
    .error "CGovernanceBlock::ParsePaymentSchedule -- Mismatched payments and amounts"
  else if vecParsed1.length = 0 then
    .error "CGovernanceBlock::ParsePaymentSchedule -- Error no payments"
  else CGovernanceBlock.scheduleLoop codec vecParsed1 vecParsed2 []

/-! ## Pruning and call sequences of the payment engine -/

/-- The loop of `CMasternodePayments::CheckAndRemove` over the vote store; the
result is the store and the tallies after the loop. The difference of the two
`int` heights is the 32-bit one: the height of a stored vote is whatever a peer
has sent. -/
def CMasternodePayments.checkLoop (nCachedBlockHeight nLimit : Int) :
    List (uint256 × CMasternodePaymentVote) → List (Int × CMasternodeBlockPayees) →
      List (uint256 × CMasternodePaymentVote) × List (Int × CMasternodeBlockPayees)
  | [], blocks => ([], blocks)
  | (first, vote) :: rest, blocks =>
    if int32 (nCachedBlockHeight - vote.nBlockHeight) > nLimit then
      CMasternodePayments.checkLoop nCachedBlockHeight nLimit rest
        (mapErase vote.nBlockHeight blocks)
    else
      let r := CMasternodePayments.checkLoop nCachedBlockHeight nLimit rest blocks
      ((first, vote) :: r.1, r.2)

/-- `CMasternodePayments::CheckAndRemove`. -/
def CMasternodePayments.CheckAndRemove (env : NodeEnv) (mnpayments : CMasternodePayments) :
    CMasternodePayments :=
  if !env.IsBlockchainSynced then mnpayments
  else
    let nLimit := CMasternodePayments.GetStorageLimit env
    let r := CMasternodePayments.checkLoop mnpayments.nCachedBlockHeight nLimit
      mnpayments.mapMasternodePaymentVotesPrimary mnpayments.mapMasternodeBlocksPrimary
    { mnpayments with mapMasternodePaymentVotesPrimary := r.1, mapMasternodeBlocksPrimary := r.2 }

/-- The lookup `mnpayments.mapMasternodeBlocksPrimary[nHeight]` made by
`CMasternode::UpdateLastPaid`: `operator[]` creates a default tally when the
height has none. -/
def CMasternodePayments.lookupBlock (mnpayments : CMasternodePayments) (nHeight : Int) :
    CMasternodePayments :=
  let blocks := mapEmplace nHeight (⟨0, []⟩ : CMasternodeBlockPayees)
    mnpayments.mapMasternodeBlocksPrimary
  { mnpayments with mapMasternodeBlocksPrimary := blocks }

/-- A call on the payment engine: a vote added, a pruning pass, or the assignment
`nCachedBlockHeight = pindex->nHeight` with which `UpdatedBlockTip` starts. -/
inductive EngineCall where
  | AddOrUpdatePaymentVote (vote : CMasternodePaymentVote)
  | CheckAndRemove
  | setCachedBlockHeight (nHeight : Int)

/-- The engine after one call. -/
def EngineCall.apply (env : NodeEnv) (mnpayments : CMasternodePayments) :
    EngineCall → CMasternodePayments
  | .AddOrUpdatePaymentVote vote => (CMasternodePayments.AddOrUpdatePaymentVote env mnpayments vote).2
  | .CheckAndRemove => CMasternodePayments.CheckAndRemove env mnpayments
  | .setCachedBlockHeight nHeight => { mnpayments with nCachedBlockHeight := nHeight }

/-- The engine after a sequence of calls, the first call of the list first. -/
def EngineCall.run (env : NodeEnv) (mnpayments : CMasternodePayments) (calls : List EngineCall) :
    CMasternodePayments :=
  calls.foldl (EngineCall.apply env) mnpayments

/-! ## Serialization of a payment vote (masternode-payments.h) -/

/-- How a stream writes and reads the values of one type: `write x` is what
`s << x` appends to the stream, and `read` takes a value off the front of the
data, as `s >> x` does, and fails when the data hold none. -/
structure Codec (α : Type) where
  write : α → List Nat
  read : List Nat → Option (α × List Nat)

/-- The stream layer of `serialize.h`, which lives outside these sources: the
flag `SER_GETHASH`, the type `GetType()` of the stream, and how the member
types of a vote (`COutPoint`, `int`, `CScriptBase`, `std::vector<unsigned
char>`) are written and read. -/
structure CDataStream where
  SER_GETHASH : Nat
  nType : Nat
  outpoint : Codec COutPoint
  int32 : Codec Int
  scriptBase : Codec CScript
  bytes : Codec (List Nat)

/-- `Stream::GetType`. -/
def CDataStream.GetType (s : CDataStream) : Nat := s.nType

/-- `CMasternodePaymentVote::SerializationOp` with a writing action (`s << vote`):
the data appended to the stream. -/
def CMasternodePaymentVote.Serialize (s : CDataStream) (vote : CMasternodePaymentVote) :
    List Nat :=
  s.outpoint.write vote.masternodeOutpoint ++ s.int32.write vote.nBlockHeight ++
    s.int32.write vote.activationBlockHeight ++ s.scriptBase.write vote.payee ++
    (if s.GetType &&& s.SER_GETHASH = 0 then s.bytes.write vote.vchSig else [])

/-- `CMasternodePaymentVote::SerializationOp` with a reading action (`s >> vote`)
on the vote object `vote`: the vote after the call and the data left in the
stream, or a failure of one of the reads. -/
def CMasternodePaymentVote.Unserialize (s : CDataStream) (vote : CMasternodePaymentVote)
    (data : List Nat) : Option (CMasternodePaymentVote × List Nat) :=
  match s.outpoint.read data with
  | none => none
  | some (masternodeOutpoint, data) =>
    match s.int32.read data with
    | none => none
    | some (nBlockHeight, data) =>
      match s.int32.read data with
      | none => none
      | some (activationBlockHeight, data) =>
        match s.scriptBase.read data with
        | none => none
        | some (payee, data) =>
          if s.GetType &&& s.SER_GETHASH = 0 then
            match s.bytes.read data with
            | none => none
            | some (vchSig, data) =>
              some (⟨masternodeOutpoint, nBlockHeight, payee, activationBlockHeight, vchSig⟩, data)
          else
            some (⟨masternodeOutpoint, nBlockHeight, payee, activationBlockHeight, vote.vchSig⟩,
              data)

/-! ## Signing a vote and filling the masternode payment -/

/-- The global `activeMasternode` with the signers `CHashSigner::SignHash` and
`CMessageSigner::SignMessage`, which live outside these sources; a signer
returns the signature, or `none` when it fails. -/
structure CActiveMasternode where
  keyMasternode : List Nat
  pubKeyMasternode : List Nat
  SignHash : uint256 → List Nat → Option (List Nat)
  SignMessage : String → List Nat → Option (List Nat)

/-- `CMasternodePaymentVote::Sign`: the result and the vote after the call. When
a signer fails the signature of the vote is left as it was. -/
def CMasternodePaymentVote.Sign (env : NodeEnv) (activeMasternode : CActiveMasternode)
    (vote : CMasternodePaymentVote) : Bool × CMasternodePaymentVote :=
  if env.chainActiveHeight > env.nMasternodeSignHashThreshold then
    let hash := vote.GetSignatureHash env
    match activeMasternode.SignHash hash activeMasternode.keyMasternode with
    | none => (false, vote)
    | some vchSig =>
      let signed := { vote with vchSig := vchSig }
      if !env.VerifyHash hash activeMasternode.pubKeyMasternode vchSig then (false, signed)
      else (true, signed)
  else
    let strMessage := env.ToStringShort vote.masternodeOutpoint ++ toString vote.nBlockHeight ++
      env.ScriptToAsmStr vote.payee
    match activeMasternode.SignMessage strMessage activeMasternode.keyMasternode with
    | none => (false, vote)
    | some vchSig =>
      let signed := { vote with vchSig := vchSig }
      if !env.VerifyMessage activeMasternode.pubKeyMasternode vchSig strMessage then
        (false, signed)
      else (true, signed)

/-- The JSON payload of a trigger object as the constructor of `CGovernanceBlock`
reads it: `obj["event_block_height"].get_int()`,
`obj["payment_addresses"].get_str()` and `obj["payment_amounts"].get_str()`; a
field is `none` when its accessor throws. -/
structure TriggerJSON where
  event_block_height : Option Int
  payment_addresses : Option (List Char)
  payment_amounts : Option (List Char)

/-- The part of `governance.h` and of the clock that the trigger manager uses and
that lives outside these sources: the object type `GOVERNANCE_OBJECT_TRIGGER`,
`GetJSONObject()` of the object stored under a hash, and `GetAdjustedTime()`. -/
structure GovernanceLayer where
  GOVERNANCE_OBJECT_TRIGGER : Int
  GetJSONObject : uint256 → TriggerJSON
  GetAdjustedTime : Int

/-- The constructor `CGovernanceBlock(nHash)`: the trigger, or the exception
thrown. -/
def CGovernanceBlock.fromHash (layer : GovernanceLayer) (codec : AddressCodec)
    (governance : CGovernanceManager) (nHash : uint256) : Except String CGovernanceBlock :=
  match governance.FindGovernanceObject nHash with
  | none => .error "CGovernanceBlock: Failed to find Governance Object"
  | some pGovObj =>
    if pGovObj.nObjectType ≠ layer.GOVERNANCE_OBJECT_TRIGGER then
      .error "CGovernanceBlock: Governance Object not a trigger"
    else
      let obj := layer.GetJSONObject nHash
      match obj.event_block_height with
      | none => .error "event_block_height"
      | some nBlockHeight =>
        match obj.payment_addresses with
        | none => .error "payment_addresses"
        | some strAddresses =>
          match obj.payment_amounts with
          | none => .error "payment_amounts"
          | some strAmounts =>
            match CGovernanceBlock.ParsePaymentSchedule codec strAddresses strAmounts with
            | .error e => .error e
            | .ok vecPayments =>
              .ok ⟨nHash, nBlockHeight, SeenObject.SEEN_OBJECT_UNKNOWN, vecPayments⟩

/-- `CGovernanceTriggerManager::AddNewTrigger`: the result and the trigger set
after the call. -/
def CGovernanceTriggerManager.AddNewTrigger (layer : GovernanceLayer) (codec : AddressCodec)
    (governance : CGovernanceManager) (triggerman : CGovernanceTriggerManager)
    (nHash : uint256) : Bool × CGovernanceTriggerManager :=
  if (mapFind nHash triggerman.mapTrigger).isSome then (false, triggerman)
  else
    match CGovernanceBlock.fromHash layer codec governance nHash with
    | .error _ => (false, triggerman)
    | .ok pGovernanceBlock =>
      let pGovernanceBlock := { pGovernanceBlock with nStatus := SeenObject.SEEN_OBJECT_IS_VALID }
      (true, ⟨mapEmplace nHash (some pGovernanceBlock) triggerman.mapTrigger⟩)

/-- A write through the pointer that `FindGovernanceObject(nHash)` returned: the
object stored under the hash is replaced. -/
def CGovernanceManager.setObject (governance : CGovernanceManager) (nHash : uint256)
    (pObj : CGovernanceObject) : CGovernanceManager :=
  { governance with mapObjects := mapReplace nHash pObj governance.mapObjects }

/-- `CGovernanceBlock::IsExpired`: the result and the governance store after the
call. The sum `nBlockHeight + nExpirationBlocks` is the 32-bit one: the event
height is whatever the governance object holds. -/
def CGovernanceBlock.IsExpired (P : ConsensusParams) (layer : GovernanceLayer)
    (governance : CGovernanceManager) (g : CGovernanceBlock) : Bool × CGovernanceManager :=
  let nExpirationBlocks :=
    match g.nStatus with
    | SeenObject.SEEN_OBJECT_EXECUTED => P.megaBlockInterval
    | SeenObject.SEEN_OBJECT_IS_VALID => P.superBlockInterval
    | _ => P.bonusBlockInterval
  let nExpirationBlock := int32 (g.nBlockHeight + nExpirationBlocks)
  if governance.nCachedBlockHeight > nExpirationBlock then
    match g.GetGovernanceObject governance with
    | some pgovobj =>
      let expired := { pgovobj with fExpired := true, nDeletionTime := layer.GetAdjustedTime }
      (true, governance.setObject g.nGovObjHash expired)
    | none => (true, governance)
  else (false, governance)

/-- The body of the loop of `CGovernanceTriggerManager::CleanAndRemove` for a
trigger that is not null, up to the decision: the trigger with its status after
the check of the backing object, the flag `remove`, and the governance store
after `IsExpired`. -/
def CGovernanceTriggerManager.cleanStep (P : ConsensusParams) (layer : GovernanceLayer)
    (governance : CGovernanceManager) (first : uint256) (pGovernanceBlock : CGovernanceBlock) :
    CGovernanceBlock × Bool × CGovernanceManager :=
  let pObj := governance.FindGovernanceObject first
  let pGovernanceBlock :=
    if pObj.all (fun o => decide (o.nObjectType ≠ layer.GOVERNANCE_OBJECT_TRIGGER)) then
      { pGovernanceBlock with nStatus := SeenObject.SEEN_OBJECT_ERROR_INVALID }
    else pGovernanceBlock
  match pGovernanceBlock.nStatus with
  | SeenObject.SEEN_OBJECT_ERROR_INVALID => (pGovernanceBlock, true, governance)
  | SeenObject.SEEN_OBJECT_UNKNOWN => (pGovernanceBlock, true, governance)
  | SeenObject.SEEN_OBJECT_IS_VALID =>
    (pGovernanceBlock, pGovernanceBlock.IsExpired P layer governance)
  | SeenObject.SEEN_OBJECT_EXECUTED =>
    (pGovernanceBlock, pGovernanceBlock.IsExpired P layer governance)
  | SeenObject.SEEN_OBJECT_OTHER => (pGovernanceBlock, false, governance)

/-- The block of `CleanAndRemove` that marks the object behind `pObj` for
deletion. The pointer `pObj` was found under the key `first`; the object is read
again from the store, so that it shows what `IsExpired` wrote to it. -/
def CGovernanceTriggerManager.markDeleted (layer : GovernanceLayer)
    (governance : CGovernanceManager) (first : uint256) : CGovernanceManager :=
  match governance.FindGovernanceObject first with
  | some pObj =>
    let nDeletionTime :=
      if pObj.nDeletionTime = 0 then layer.GetAdjustedTime else pObj.nDeletionTime
    governance.setObject first { pObj with fCachedDelete := true, nDeletionTime := nDeletionTime }
  | none => governance

/-- The loop of `CGovernanceTriggerManager::CleanAndRemove` over `mapTrigger`: the
entries that stay and the governance store after the loop. A null trigger is
removed and no object is marked for it. -/
def CGovernanceTriggerManager.cleanLoop (P : ConsensusParams) (layer : GovernanceLayer) :
    List (uint256 × Option CGovernanceBlock) → CGovernanceManager →
      List (uint256 × Option CGovernanceBlock) × CGovernanceManager
  | [], governance => ([], governance)
  | (_, none) :: rest, governance => CGovernanceTriggerManager.cleanLoop P layer rest governance
  | (first, some pGovernanceBlock) :: rest, governance =>
    let step := CGovernanceTriggerManager.cleanStep P layer governance first pGovernanceBlock
    if step.2.1 then
      CGovernanceTriggerManager.cleanLoop P layer rest
        (CGovernanceTriggerManager.markDeleted layer step.2.2 first)
    else
      let kept := CGovernanceTriggerManager.cleanLoop P layer rest step.2.2
      ((first, some step.1) :: kept.1, kept.2)

/-- `CGovernanceTriggerManager::CleanAndRemove`: the trigger set and the
governance store after the call. -/
def CGovernanceTriggerManager.CleanAndRemove (P : ConsensusParams) (layer : GovernanceLayer)
    (governance : CGovernanceManager) (triggerman : CGovernanceTriggerManager) :
    CGovernanceTriggerManager × CGovernanceManager :=
  let r := CGovernanceTriggerManager.cleanLoop P layer triggerman.mapTrigger governance
  (⟨r.1⟩, r.2)

/-! ## Scenario data

Concrete constants and scripts on which the theorems below are evaluated. -/

/-- Consensus constants of the scenarios: payments start at height 0, governance
heights are the multiples of 10080, the governance subsidy is 35·10⁸ and a
masternode receives a fifth of the block reward. -/
def scenarioParams : ConsensusParams :=
  ⟨0, 10080, 1440, 144, 0, fun _ fGovernance => if fGovernance then 3500000000 else 500000000,
    fun _ blockReward => blockReward / 5⟩

/-- Consensus constants with a governance offset: cycle 10, offset 3. -/
def offsetParams : ConsensusParams :=
  ⟨0, 10, 5, 1, 3, fun _ fGovernance => if fGovernance then 3500000000 else 500000000,
    fun _ blockReward => blockReward / 5⟩

/-- Script of the miner. -/
def scriptMiner : CScript := [0]

/-- Script of the address A1. -/
def scriptA1 : CScript := [1]

/-- Script of the address A2. -/
def scriptA2 : CScript := [2]

/-- A trigger for height 10080 with the given payments. -/
def scenarioTrigger (vecPayments : List CGovernancePayment) : CGovernanceBlock :=
  ⟨7, 10080, SeenObject.SEEN_OBJECT_IS_VALID, vecPayments⟩

/-- The governance store of the scenarios: one funded trigger object under
hash 7 with 12 absolute yes votes. -/
def scenarioGovernance : CGovernanceManager :=
  ⟨[(7, ⟨2, true, false, false, 0, 12⟩)], 10080, fun pObj => pObj⟩

/-- The trigger set of the scenarios: the trigger of hash 7 for height 10080. -/
def scenarioTriggers (vecPayments : List CGovernancePayment) : CGovernanceTriggerManager :=
  ⟨[(7, some (scenarioTrigger vecPayments))]⟩

/-- A synced full node at tip 990 whose registry knows every masternode at rank
1, whose signature checks succeed and whose chain has every block hash; the
vote digest is the first byte of the payee plus ten times the height. -/
def scenarioEnv : NodeEnv where
  fLiteMode := false
  fMasternodeMode := false
  IsSynced := true
  IsMasternodeListSynced := true
  IsBlockchainSynced := true
  chainActiveHeight := 990
  nMasternodeSignHashThreshold := 0
  MIN_MASTERNODE_PAYMENT_PROTO_VERSION := 70000
  nStorageLimit := 6000
  HashWriter := fun payee nBlockHeight _ => payee.headD 0 + 10 * nBlockHeight.toNat
  SerializeHash := fun vote => vote.payee.headD 0 + 10 * vote.nBlockHeight.toNat
  GetMasternodeInfo := fun outpoint => some ⟨70000, [], [], outpoint⟩
  GetMasternodeRank := fun _ _ _ => some 1
  VerifyHash := fun _ _ _ => true
  VerifyMessage := fun _ _ _ => true
  ToStringShort := fun _ => ""
  ScriptToAsmStr := fun _ => ""
  GetBlockHash := fun _ => some 1
  GetLastCheckpoint := some 0

/-- The same node started in lite mode. -/
def liteEnv : NodeEnv := { scenarioEnv with fLiteMode := true }

/-- The collateral outpoint of the voter X. -/
def voterX : COutPoint := ⟨99, 0⟩

/-- A signed vote of X for height 1000 naming A1. -/
def voteFirst : CMasternodePaymentVote := ⟨voterX, 1000, scriptA1, 0, [1]⟩

/-- A signed vote of X for height 1001 naming A2. -/
def voteOther : CMasternodePaymentVote := ⟨voterX, 1001, scriptA2, 0, [1]⟩

/-- A signed vote of X for height 1000 naming a third payee. -/
def voteSecond : CMasternodePaymentVote := ⟨voterX, 1000, [3], 0, [1]⟩

/-- A signed vote of X naming A1 for height -2147483648, the least value of a
32-bit `int`. -/
def voteMin : CMasternodePaymentVote := ⟨voterX, -2147483648, scriptA1, 0, [1]⟩

/-- The vote of X naming A2 with the height -2147483000 in place of 1001. -/
def voteWrapped : CMasternodePaymentVote := { voteOther with nBlockHeight := -2147483000 }

/-- An address layer that takes every non-empty string for a valid address, with
the character codes as its script, and a money range of 21·10¹⁴. -/
def scenarioCodec : AddressCodec :=
  ⟨fun addr => !addr.isEmpty, fun addr => some (addr.map Char.toNat), 2100000000000000⟩

/-- A governance store whose trigger object under hash 7 has 12 absolute yes
votes and is not marked as funded. -/
def unfundedGovernance : CGovernanceManager :=
  ⟨[(7, ⟨2, false, false, false, 0, 12⟩)], 10080, fun pObj => pObj⟩

/-- The scenario node with a vote digest that encodes the height of the vote. -/
def heightHashEnv : NodeEnv :=
  { scenarioEnv with HashWriter := fun _ nBlockHeight _ => Encodable.encode nBlockHeight }

/-- A network stream (`SER_NETWORK` is 1, `SER_GETHASH` is 4) that writes an
outpoint as hash and index, an integer as its code, and a byte string as its
length followed by its bytes. -/
def scenarioStream : CDataStream where
  SER_GETHASH := 4
  nType := 1
  outpoint := ⟨fun x => [x.hash, x.n], fun data =>
    match data with
    | hash :: n :: rest => some (⟨hash, n⟩, rest)
    | _ => none⟩
  int32 := ⟨fun x => [Encodable.encode x], fun data =>
    match data with
    | code :: rest => (Encodable.decode code : Option Int).map (fun x => (x, rest))
    | [] => none⟩
  scriptBase := ⟨fun x => x.length :: x, fun data =>
    match data with
    | len :: rest => if len ≤ rest.length then some (rest.take len, rest.drop len) else none
    | [] => none⟩
  bytes := ⟨fun x => x.length :: x, fun data =>
    match data with
    | len :: rest => if len ≤ rest.length then some (rest.take len, rest.drop len) else none
    | [] => none⟩

/-- The scenario node with every masternode at rank 15. -/
def rank15Env : NodeEnv := { scenarioEnv with GetMasternodeRank := fun _ _ _ => some 15 }

/-- The scenario node whose chain has no block hash at any height. -/
def noBlockHashEnv : NodeEnv := { scenarioEnv with GetBlockHash := fun _ => none }

/-- The scenario node before the signature-hash threshold, with readable short
names: `X` for every outpoint and `A` for every script. -/
def legacyEnv : NodeEnv :=
  { scenarioEnv with
    nMasternodeSignHashThreshold := 100000, ToStringShort := fun _ => "X",
    ScriptToAsmStr := fun _ => "A" }

/-- A governance layer in which every trigger object asks for 10 coins to the
address `A1` at the event height 2147483647, the largest 32-bit `int`. -/
def farLayer : GovernanceLayer :=
  ⟨2, fun _ => ⟨some 2147483647, some ['A', '1'], some ['1', '0', '.', '0']⟩, 1540000000⟩

/-- An active masternode whose signers return the signed data as the signature:
the digest itself, or the character codes of the message. -/
def scenarioActive : CActiveMasternode :=
  ⟨[7], [8], fun hash _ => some [hash], fun strMessage _ => some (strMessage.toList.map Char.toNat)⟩

/-! ## Lemmas on the matching loops of CGovernanceBlock::IsValid -/

theorem findPayment_some (payment : CGovernancePayment) :
    ∀ (l : List CTxOut) (j k : Nat), CGovernanceBlock.findPayment payment l j = some k →
      j ≤ k ∧ ∃ o, l[k - j]? = some o ∧ payment.script = o.scriptPubKey ∧
        payment.nAmount = o.nValue := by
  intro l
  induction l with
  | nil => intro j k h; simp [CGovernanceBlock.findPayment] at h
  | cons txout rest ih =>
    intro j k h
    rw [CGovernanceBlock.findPayment] at h
    split at h
    · rename_i hm
      simp only [Option.some.injEq] at h
      subst h
      exact ⟨le_refl _, txout, by simp, hm.1, hm.2⟩
    · obtain ⟨hle, o, ho, hm⟩ := ih (j + 1) k h
      refine ⟨by omega, o, ?_, hm⟩
      have hk : k - j = (k - (j + 1)) + 1 := by omega
      rw [hk, List.getElem?_cons_succ]
      exact ho

theorem findPayment_first (payment : CGovernancePayment) :
    ∀ (l : List CTxOut) (j k : Nat) (o : CTxOut), j ≤ k → l[k - j]? = some o →
      payment.script = o.scriptPubKey → payment.nAmount = o.nValue →
      ∃ k', CGovernanceBlock.findPayment payment l j = some k' ∧ k' ≤ k := by
  intro l
  induction l with
  | nil => intro j k o _ h; simp at h
  | cons txout rest ih =>
    intro j k o hjk ho hs ha
    rw [CGovernanceBlock.findPayment]
    split
    · exact ⟨j, rfl, hjk⟩
    · rename_i hm
      have hne : k ≠ j := by
        intro heq
        subst heq
        simp only [Nat.sub_self, List.getElem?_cons_zero, Option.some.injEq] at ho
        subst ho
        exact hm ⟨hs, ha⟩
      have hk : k - j = (k - (j + 1)) + 1 := by omega
      rw [hk, List.getElem?_cons_succ] at ho
      exact ih (j + 1) k o (by omega) ho hs ha

theorem findPayment_drop_some (payment : CGovernancePayment) (vout : List CTxOut) (s k : Nat)
    (h : CGovernanceBlock.findPayment payment (vout.drop s) s = some k) :
    s ≤ k ∧ ∃ o, vout[k]? = some o ∧ payment.script = o.scriptPubKey ∧
      payment.nAmount = o.nValue := by
  obtain ⟨hle, o, ho, hm⟩ := findPayment_some payment _ _ _ h
  refine ⟨hle, o, ?_, hm⟩
  rw [List.getElem?_drop] at ho
  have : s + (k - s) = k := by omega
  rw [this] at ho
  exact ho

theorem findPayment_drop_first (payment : CGovernancePayment) (vout : List CTxOut) (s k : Nat)
    (o : CTxOut) (hsk : s ≤ k) (ho : vout[k]? = some o)
    (hs : payment.script = o.scriptPubKey) (ha : payment.nAmount = o.nValue) :
    ∃ k', CGovernanceBlock.findPayment payment (vout.drop s) s = some k' ∧ k' ≤ k := by
  apply findPayment_first payment _ s k o hsk _ hs ha
  rw [List.getElem?_drop]
  have : s + (k - s) = k := by omega
  rw [this]
  exact ho

theorem GetPayment_eq (g : CGovernanceBlock) (i : Nat) : g.GetPayment i = g.vecPayments[i]? := by
  unfold CGovernanceBlock.GetPayment
  split
  · rename_i h
    exact (List.getElem?_eq_none h).symm
  · rfl

/-- The outer loop accepts exactly when the payments still to be matched sit at
non-decreasing output positions, none before the resume point. -/
theorem paymentsLoop_iff (g : CGovernanceBlock) (vout : List CTxOut) :
    ∀ (todo i s : Nat), i + todo = g.vecPayments.length →
      (CGovernanceBlock.paymentsLoop g vout todo i s = true ↔
        ∃ j : Nat → Nat, (∀ a, i ≤ a → a < i + todo → s ≤ j a) ∧
          (∀ a b, i ≤ a → a ≤ b → b < i + todo → j a ≤ j b) ∧
          ∀ a, i ≤ a → a < i + todo → ∃ o p, vout[j a]? = some o ∧
            g.vecPayments[a]? = some p ∧ o.scriptPubKey = p.script ∧ o.nValue = p.nAmount) := by
  intro todo
  induction todo with
  | zero =>
    intro i s _
    simp only [CGovernanceBlock.paymentsLoop, true_iff]
    exact ⟨fun _ => s, by intro a h1 h2; omega, by intro a b h1 h2 h3; omega,
      by intro a h1 h2; omega⟩
  | succ todo ih =>
    intro i s hlen
    have hi : i < g.vecPayments.length := by omega
    rw [CGovernanceBlock.paymentsLoop, GetPayment_eq, List.getElem?_eq_getElem hi]
    simp only
    constructor
    · intro h
      split at h
      · rename_i k hk
        obtain ⟨hsk, o, ho, hms, hma⟩ := findPayment_drop_some _ _ _ _ hk
        obtain ⟨j, hj1, hj2, hj3⟩ := (ih (i + 1) k (by omega)).1 h
        refine ⟨fun a => if a = i then k else j a, ?_, ?_, ?_⟩
        · intro a h1 h2
          by_cases hai : a = i
          · simp [hai, hsk]
          · simp only [hai, if_false]
            exact le_trans hsk (hj1 a (by omega) (by omega))
        · intro a b h1 h2 h3
          by_cases hai : a = i
          · by_cases hbi : b = i
            · simp [hai, hbi]
            · simp only [hai, hbi, if_true, if_false]
              exact hj1 b (by omega) (by omega)
          · have hbi : b ≠ i := by omega
            simp only [hai, hbi, if_false]
            exact hj2 a b (by omega) h2 (by omega)
        · intro a h1 h2
          by_cases hai : a = i
          · subst hai
            refine ⟨o, g.vecPayments[a], ?_, List.getElem?_eq_getElem hi, hms.symm, hma.symm⟩
            simpa using ho
          · simp only [hai, if_false]
            exact hj3 a (by omega) (by omega)
      · simp at h
    · rintro ⟨j, hj1, hj2, hj3⟩
      obtain ⟨o, p, ho, hp, hms, hma⟩ := hj3 i (le_refl _) (by omega)
      rw [List.getElem?_eq_getElem hi, Option.some.injEq] at hp
      obtain ⟨k', hk', hle⟩ := findPayment_drop_first g.vecPayments[i] vout s (j i) o
        (hj1 i (le_refl _) (by omega)) ho (by rw [hp]; exact hms.symm) (by rw [hp]; exact hma.symm)
      rw [hk']
      simp only
      apply (ih (i + 1) k' (by omega)).2
      refine ⟨j, ?_, ?_, ?_⟩
      · intro a h1 h2
        exact le_trans hle (hj2 i a (le_refl _) (by omega) (by omega))
      · intro a b h1 h2 h3
        exact hj2 a b (by omega) h2 (by omega)
      · intro a h1 h2
        exact hj3 a (by omega) (by omega)

/-! ## Lemmas on the loops of CMasternodeBlockPayees::IsTransactionValid -/

theorem IsValid_eq_true_iff (P : ConsensusParams) (g : CGovernanceBlock)
    (txNew : CTransaction) (nBlockHeight blockReward : Int) :
    g.IsValid P txNew nBlockHeight blockReward = true ↔
      CGovernanceBlock.IsValidBlockHeight P nBlockHeight = true ∧
      g.vecPayments.length ≤ txNew.vout.length ∧
      (g.vecPayments.map CGovernancePayment.nAmount).sum ≤
        CGovernanceBlock.GetPaymentsLimit P nBlockHeight ∧
      (txNew.vout.map CTxOut.nValue).sum ≤
        blockReward + (g.vecPayments.map CGovernancePayment.nAmount).sum ∧
      CGovernanceBlock.paymentsLoop g txNew.vout g.vecPayments.length 0 0 = true := by
  unfold CGovernanceBlock.IsValid
  simp only [CGovernanceBlock.CountPayments, CGovernanceBlock.GetPaymentsTotalAmount,
    CTransaction.GetValueOut]
  by_cases h1 : CGovernanceBlock.IsValidBlockHeight P nBlockHeight = true
  swap
  · simp [h1]
  by_cases h2 : g.vecPayments.length ≤ txNew.vout.length
  swap
  · have : (txNew.vout.length : Int) - (g.vecPayments.length : Int) < 0 := by omega
    simp [h1, h2, this]
  have h2' : ¬ ((txNew.vout.length : Int) - (g.vecPayments.length : Int) < 0) := by omega
  by_cases h3 : (g.vecPayments.map CGovernancePayment.nAmount).sum ≤
      CGovernanceBlock.GetPaymentsLimit P nBlockHeight
  swap
  · have : (g.vecPayments.map CGovernancePayment.nAmount).sum >
        CGovernanceBlock.GetPaymentsLimit P nBlockHeight := by omega
    simp [h1, h2', h3, this]
  have h3' : ¬ ((g.vecPayments.map CGovernancePayment.nAmount).sum >
      CGovernanceBlock.GetPaymentsLimit P nBlockHeight) := by omega
  by_cases h4 : (txNew.vout.map CTxOut.nValue).sum ≤
      blockReward + (g.vecPayments.map CGovernancePayment.nAmount).sum
  swap
  · have : (txNew.vout.map CTxOut.nValue).sum >
        blockReward + (g.vecPayments.map CGovernancePayment.nAmount).sum := by omega
    simp [h1, h2', h3', h4, this]
  have h4' : ¬ ((txNew.vout.map CTxOut.nValue).sum >
      blockReward + (g.vecPayments.map CGovernancePayment.nAmount).sum) := by omega
  simp only [h1, h2', h3', h4', Bool.not_true, if_false, Bool.false_eq_true, true_and, h2, h3, h4]

theorem countP_le_one_unique {α : Type} (q : α → Bool) :
    ∀ (l : List α) (a b : Nat) (x y : α), l.countP q ≤ 1 → l[a]? = some x → l[b]? = some y →
      q x = true → q y = true → a = b := by
  intro l
  induction l with
  | nil => intro a b x y _ ha; simp at ha
  | cons z zs ih =>
    intro a b x y hc ha hb hx hy
    have hpos : ∀ (n : Nat) (w : α), zs[n]? = some w → q w = true → 0 < zs.countP q := by
      intro n w hn hw
      exact List.countP_pos_iff.2 ⟨w, List.getElem?_mem hn, hw⟩
    rw [List.countP_cons] at hc
    cases a with
    | zero =>
      cases b with
      | zero => rfl
      | succ b =>
        simp only [List.getElem?_cons_zero, Option.some.injEq] at ha
        rw [List.getElem?_cons_succ] at hb
        subst ha
        have := hpos b y hb hy
        simp only [hx, if_true] at hc
        omega
    | succ a =>
      cases b with
      | zero =>
        simp only [List.getElem?_cons_zero, Option.some.injEq] at hb
        rw [List.getElem?_cons_succ] at ha
        subst hb
        have := hpos a x ha hx
        simp only [hy, if_true] at hc
        omega
      | succ b =>
        rw [List.getElem?_cons_succ] at ha hb
        have := ih a b x y (by omega) ha hb hx hy
        omega

/-- When the loop accepts payments that are pairwise distinct and each paid by at
most one output, the payments are listed in the order of the outputs that pay
them. -/
theorem paymentsLoop_sorted (g : CGovernanceBlock) (vout : List CTxOut)
    (hloop : CGovernanceBlock.paymentsLoop g vout g.vecPayments.length 0 0 = true)
    (hdist : g.vecPayments.Pairwise (fun p q => ¬ (p.script = q.script ∧ p.nAmount = q.nAmount)))
    (honce : ∀ p ∈ g.vecPayments,
      vout.countP (fun o => decide (o.scriptPubKey = p.script ∧ o.nValue = p.nAmount)) ≤ 1) :
    g.vecPayments.Pairwise (fun p q =>
      vout.findIdx (fun o => decide (o.scriptPubKey = p.script ∧ o.nValue = p.nAmount)) <
        vout.findIdx (fun o => decide (o.scriptPubKey = q.script ∧ o.nValue = q.nAmount))) := by
  obtain ⟨j, _, hmono, hpay⟩ := (paymentsLoop_iff g vout g.vecPayments.length 0 0 (by simp)).1 hloop
  have hpos : ∀ (a : Nat) (ha : a < g.vecPayments.length),
      vout.findIdx (fun o => decide (o.scriptPubKey = (g.vecPayments[a]).script ∧
        o.nValue = (g.vecPayments[a]).nAmount)) = j a := by
    intro a ha
    obtain ⟨o, p, ho, hp, hs, hv⟩ := hpay a (Nat.zero_le _) (by omega)
    rw [List.getElem?_eq_getElem ha, Option.some.injEq] at hp
    subst hp
    have hex : ∃ x ∈ vout, (fun o : CTxOut => decide (o.scriptPubKey = (g.vecPayments[a]).script ∧
        o.nValue = (g.vecPayments[a]).nAmount)) x = true :=
      ⟨o, List.getElem?_mem ho, by simp [hs, hv]⟩
    have hlt := List.findIdx_lt_length_of_exists hex
    have hsat := List.findIdx_getElem (w := hlt)
    exact countP_le_one_unique _ vout _ _ _ o (honce _ (List.getElem_mem ha))
      (List.getElem?_eq_getElem hlt) ho hsat (by simp [hs, hv])
  rw [List.pairwise_iff_getElem]
  intro a b ha hb hab
  rw [hpos a ha, hpos b hb]
  have hle := hmono a b (Nat.zero_le _) (le_of_lt hab) (by omega)
  have hne : j a ≠ j b := by
    intro heq
    obtain ⟨oa, pa, hoa, hpa, hsa, hva⟩ := hpay a (Nat.zero_le _) (by omega)
    obtain ⟨ob, pb, hob, hpb, hsb, hvb⟩ := hpay b (Nat.zero_le _) (by omega)
    rw [List.getElem?_eq_getElem ha, Option.some.injEq] at hpa
    rw [List.getElem?_eq_getElem hb, Option.some.injEq] at hpb
    rw [heq, hob, Option.some.injEq] at hoa
    subst hoa hpa hpb
    exact (List.pairwise_iff_getElem.1 hdist a b ha hb hab) ⟨hsa.symm.trans hsb, hva.symm.trans hvb⟩
  omega

theorem createLoop_eq (g : CGovernanceBlock) :
    ∀ (todo i : Nat) (acc : List CTxOut × List CTxOut), i + todo = g.vecPayments.length →
      CGovernanceBlockManager.createLoop g todo i acc =
        (acc.1 ++ (g.vecPayments.drop i).map (fun p => (⟨p.nAmount, p.script⟩ : CTxOut)),
          acc.2 ++ (g.vecPayments.drop i).map (fun p => (⟨p.nAmount, p.script⟩ : CTxOut))) := by
  intro todo
  induction todo with
  | zero =>
    intro i acc h
    have : g.vecPayments.drop i = [] := List.drop_eq_nil_of_le (by omega)
    simp [CGovernanceBlockManager.createLoop, this]
  | succ todo ih =>
    intro i acc h
    have hi : i < g.vecPayments.length := by omega
    rw [CGovernanceBlockManager.createLoop, GetPayment_eq, List.getElem?_eq_getElem hi]
    simp only
    rw [ih (i + 1) _ (by omega), List.drop_eq_getElem_cons hi]
    simp only [List.map_cons, List.append_assoc, List.singleton_append]

/-! ## The governance-block validator -/

/-- C1: `CGovernanceBlock::IsValid` returns true if and only if the height is a
governance height, the coinbase has at least as many outputs as the trigger has
payments, the payment total is within `GetPaymentsLimit`, the coinbase total is
at most the block reward plus the payment total, and there are non-decreasing
output indices `j 0 ≤ j 1 ≤ ...` such that output `j i` equals payment `i` in
script and amount. -/
theorem CGovernanceBlock_IsValid_iff (P : ConsensusParams) (g : CGovernanceBlock)
    (txNew : CTransaction) (nBlockHeight blockReward : Int) :
    g.IsValid P txNew nBlockHeight blockReward = true ↔
      CGovernanceBlock.IsValidBlockHeight P nBlockHeight = true ∧
      g.vecPayments.length ≤ txNew.vout.length ∧
      (g.vecPayments.map CGovernancePayment.nAmount).sum ≤
        CGovernanceBlock.GetPaymentsLimit P nBlockHeight ∧
      (txNew.vout.map CTxOut.nValue).sum ≤
        blockReward + (g.vecPayments.map CGovernancePayment.nAmount).sum ∧
      ∃ j : Nat → Nat, (∀ a b, a ≤ b → b < g.vecPayments.length → j a ≤ j b) ∧
        ∀ i, i < g.vecPayments.length → ∃ o p, txNew.vout[j i]? = some o ∧
          g.vecPayments[i]? = some p ∧ o.scriptPubKey = p.script ∧ o.nValue = p.nAmount := by
  have hloop := paymentsLoop_iff g txNew.vout g.vecPayments.length 0 0 (by simp)
  rw [IsValid_eq_true_iff, hloop]
  refine and_congr_right (fun _ => and_congr_right (fun _ => and_congr_right (fun _ =>
    and_congr_right (fun _ => ?_))))
  constructor
  · rintro ⟨j, _, hj2, hj3⟩
    exact ⟨j, fun a b hab hb => hj2 a b (Nat.zero_le _) hab (by omega),
      fun i hi => hj3 i (Nat.zero_le _) (by omega)⟩
  · rintro ⟨j, hj2, hj3⟩
    exact ⟨j, fun a _ _ => Nat.zero_le _, fun a b _ hab hb => hj2 a b hab (by omega),
      fun i _ hi => hj3 i (by omega)⟩

/-- C2: evaluation of `CGovernanceBlock::IsValid` on a trigger that pays A1 the
amount 10·10⁸ twice and a coinbase that pays A1 once (miner 3·10⁸, A1 10·10⁸) at
governance height 10080 with reward 5·10⁸: the coinbase is accepted although no
two outputs at increasing positions match the two payments, because the scan for
the second payment resumes at the output that matched the first. -/
theorem CGovernanceBlock_IsValid_repeated_payment :
    (scenarioTrigger [⟨true, scriptA1, 1000000000⟩, ⟨true, scriptA1, 1000000000⟩]).IsValid
        scenarioParams ⟨[⟨300000000, scriptMiner⟩, ⟨1000000000, scriptA1⟩]⟩ 10080 500000000 = true ∧
      ¬ ∃ j0 j1 : Nat, j0 < j1 ∧
        ([⟨300000000, scriptMiner⟩, ⟨1000000000, scriptA1⟩] : List CTxOut)[j0]? =
          some ⟨1000000000, scriptA1⟩ ∧
        ([⟨300000000, scriptMiner⟩, ⟨1000000000, scriptA1⟩] : List CTxOut)[j1]? =
          some ⟨1000000000, scriptA1⟩ := by
  refine ⟨by decide, ?_⟩
  rintro ⟨j0, j1, hlt, h0, h1⟩
  have hj1 : j1 < 2 := by
    obtain ⟨h, _⟩ := List.getElem?_eq_some.1 h1
    simpa using h
  have hj0 : j0 = 0 := by omega
  subst hj0
  revert h0
  decide

/-- C7, the claim as stated fails: the coinbase (miner 3·10⁸, A1 1·10⁸, A2 20·10⁸,
A1 1·10⁸) at governance height 10080 with reward 5·10⁸ is accepted against the
distinct payments (A1 1·10⁸, A2 20·10⁸) and also against their swap
(A2 20·10⁸, A1 1·10⁸), because outputs other than the matched ones may stand
anywhere in the coinbase. -/
theorem CGovernanceBlock_IsValid_accepts_swapped_payments :
    (scenarioTrigger [⟨true, scriptA1, 100000000⟩, ⟨true, scriptA2, 2000000000⟩]).IsValid
        scenarioParams
        ⟨[⟨300000000, scriptMiner⟩, ⟨100000000, scriptA1⟩, ⟨2000000000, scriptA2⟩,
          ⟨100000000, scriptA1⟩]⟩ 10080 500000000 = true ∧
      ([⟨true, scriptA1, 100000000⟩, ⟨true, scriptA2, 2000000000⟩] :
        List CGovernancePayment).Pairwise
          (fun p q => ¬ (p.script = q.script ∧ p.nAmount = q.nAmount)) ∧
      List.Perm ([⟨true, scriptA2, 2000000000⟩, ⟨true, scriptA1, 100000000⟩] :
        List CGovernancePayment) [⟨true, scriptA1, 100000000⟩, ⟨true, scriptA2, 2000000000⟩] ∧
      ([⟨true, scriptA2, 2000000000⟩, ⟨true, scriptA1, 100000000⟩] : List CGovernancePayment) ≠
        [⟨true, scriptA1, 100000000⟩, ⟨true, scriptA2, 2000000000⟩] ∧
      (scenarioTrigger [⟨true, scriptA2, 2000000000⟩, ⟨true, scriptA1, 100000000⟩]).IsValid
        scenarioParams
        ⟨[⟨300000000, scriptMiner⟩, ⟨100000000, scriptA1⟩, ⟨2000000000, scriptA2⟩,
          ⟨100000000, scriptA1⟩]⟩ 10080 500000000 = true := by
  refine ⟨by decide, by decide, ?_, by decide, by decide⟩
  exact List.Perm.swap _ _ _

/-- C7, amended: when `CGovernanceBlock::IsValid` accepts a coinbase against
pairwise distinct required payments, and each required payment is paid by at
most one output of the coinbase, then the same coinbase at the same height and
reward is rejected against every non-identity permutation of the payment
list. -/
theorem CGovernanceBlock_IsValid_order_sensitive (P : ConsensusParams) (g g' : CGovernanceBlock)
    (txNew : CTransaction) (nBlockHeight blockReward : Int)
    (hacc : g.IsValid P txNew nBlockHeight blockReward = true)
    (hdist : g.vecPayments.Pairwise (fun p q => ¬ (p.script = q.script ∧ p.nAmount = q.nAmount)))
    (honce : ∀ p ∈ g.vecPayments,
      txNew.vout.countP (fun o => decide (o.scriptPubKey = p.script ∧ o.nValue = p.nAmount)) ≤ 1)
    (hperm : g'.vecPayments.Perm g.vecPayments) (hne : g'.vecPayments ≠ g.vecPayments) :
    g'.IsValid P txNew nBlockHeight blockReward = false := by
  cases hacc' : g'.IsValid P txNew nBlockHeight blockReward with
  | false => rfl
  | true =>
    exfalso
    apply hne
    have hs := paymentsLoop_sorted g txNew.vout ((IsValid_eq_true_iff _ _ _ _ _).1 hacc).2.2.2.2
      hdist honce
    have hdist' : g'.vecPayments.Pairwise
        (fun p q => ¬ (p.script = q.script ∧ p.nAmount = q.nAmount)) :=
      (List.Perm.pairwise_iff (fun {x y} h hxy => h ⟨hxy.1.symm, hxy.2.symm⟩) hperm).2 hdist
    have hs' := paymentsLoop_sorted g' txNew.vout
      ((IsValid_eq_true_iff _ _ _ _ _).1 hacc').2.2.2.2 hdist'
      (fun p hp => honce p (hperm.subset hp))
    haveI : IsAntisymm CGovernancePayment (fun p q =>
        txNew.vout.findIdx (fun o => decide (o.scriptPubKey = p.script ∧ o.nValue = p.nAmount)) <
          txNew.vout.findIdx
            (fun o => decide (o.scriptPubKey = q.script ∧ o.nValue = q.nAmount))) :=
      ⟨fun _ _ h1 h2 => absurd h1 (Nat.lt_asymm h2)⟩
    exact List.eq_of_perm_of_sorted hperm hs' hs

/-- Scenario S5 as an instance of the amended C7: the coinbase (miner, A1 10·10⁸,
A2 20·10⁸) is accepted against (A1, A2) and rejected against (A2, A1). -/
theorem CGovernanceBlock_IsValid_order_sensitive_witness :
    (scenarioTrigger [⟨true, scriptA1, 1000000000⟩, ⟨true, scriptA2, 2000000000⟩]).IsValid
        scenarioParams
        ⟨[⟨300000000, scriptMiner⟩, ⟨1000000000, scriptA1⟩, ⟨2000000000, scriptA2⟩]⟩
        10080 500000000 = true ∧
      (scenarioTrigger [⟨true, scriptA2, 2000000000⟩, ⟨true, scriptA1, 1000000000⟩]).IsValid
        scenarioParams
        ⟨[⟨300000000, scriptMiner⟩, ⟨1000000000, scriptA1⟩, ⟨2000000000, scriptA2⟩]⟩
        10080 500000000 = false :=
  ⟨by decide,
    CGovernanceBlock_IsValid_order_sensitive scenarioParams
      (scenarioTrigger [⟨true, scriptA1, 1000000000⟩, ⟨true, scriptA2, 2000000000⟩])
      (scenarioTrigger [⟨true, scriptA2, 2000000000⟩, ⟨true, scriptA1, 1000000000⟩])
      ⟨[⟨300000000, scriptMiner⟩, ⟨1000000000, scriptA1⟩, ⟨2000000000, scriptA2⟩]⟩
      10080 500000000 (by decide) (by decide) (by decide) (List.Perm.swap _ _ _) (by decide)⟩

/-- C8: at a height whose best trigger `g` has a payment total within
`GetPaymentsLimit`, for a coinbase whose output total is at most the block
reward, `CGovernanceBlockManager::CreateGovernanceBlock` returns the existing
outputs followed by one output per payment of `g`, in order, and
`CGovernanceBlockManager::IsValid` accepts that coinbase at the same height and
reward. -/
theorem CreateGovernanceBlock_IsValid (P : ConsensusParams) (governance : CGovernanceManager)
    (triggerman : CGovernanceTriggerManager) (txNew : CTransaction)
    (nBlockHeight blockReward : Int) (vtxoutGovernanceRet : List CTxOut) (g : CGovernanceBlock)
    (hbest : CGovernanceBlockManager.GetBestGovernanceBlock P governance triggerman nBlockHeight =
      (true, some g))
    (hlimit : g.GetPaymentsTotalAmount ≤ CGovernanceBlock.GetPaymentsLimit P nBlockHeight)
    (hreward : txNew.GetValueOut ≤ blockReward) :
    (CGovernanceBlockManager.CreateGovernanceBlock P governance triggerman txNew nBlockHeight
        vtxoutGovernanceRet).1 =
        ⟨txNew.vout ++ g.vecPayments.map (fun p => (⟨p.nAmount, p.script⟩ : CTxOut))⟩ ∧
      CGovernanceBlockManager.IsValid P governance triggerman
        (CGovernanceBlockManager.CreateGovernanceBlock P governance triggerman txNew nBlockHeight
          vtxoutGovernanceRet).1 nBlockHeight blockReward = true := by
  have hcreate : (CGovernanceBlockManager.CreateGovernanceBlock P governance triggerman txNew
      nBlockHeight vtxoutGovernanceRet).1 =
      ⟨txNew.vout ++ g.vecPayments.map (fun p => (⟨p.nAmount, p.script⟩ : CTxOut))⟩ := by
    unfold CGovernanceBlockManager.CreateGovernanceBlock
    rw [hbest]
    simp only [CGovernanceBlock.CountPayments]
    rw [createLoop_eq g _ 0 _ (by simp)]
    simp
  refine ⟨hcreate, ?_⟩
  rw [hcreate]
  unfold CGovernanceBlockManager.IsValid
  rw [hbest]
  simp only
  have hheight : CGovernanceBlock.IsValidBlockHeight P nBlockHeight = true := by
    unfold CGovernanceBlockManager.GetBestGovernanceBlock at hbest
    cases hh : CGovernanceBlock.IsValidBlockHeight P nBlockHeight with
    | true => rfl
    | false => simp [hh] at hbest
  rw [IsValid_eq_true_iff]
  refine ⟨hheight, by simp, hlimit, ?_, ?_⟩
  · simp only [CTransaction.GetValueOut, CGovernanceBlock.GetPaymentsTotalAmount] at hreward ⊢
    rw [List.map_append, List.sum_append, List.map_map]
    have : (CTxOut.nValue ∘ fun p : CGovernancePayment => (⟨p.nAmount, p.script⟩ : CTxOut)) =
        CGovernancePayment.nAmount := rfl
    rw [this]
    omega
  · rw [paymentsLoop_iff g _ g.vecPayments.length 0 0 (by simp)]
    refine ⟨fun a => txNew.vout.length + a, fun _ _ _ => Nat.zero_le _,
      fun a b _ hab _ => Nat.add_le_add_left hab _, ?_⟩
    intro a _ ha
    have ha' : a < g.vecPayments.length := by omega
    refine ⟨⟨g.vecPayments[a].nAmount, g.vecPayments[a].script⟩, g.vecPayments[a], ?_,
      List.getElem?_eq_getElem ha', rfl, rfl⟩
    show (txNew.vout ++ _)[txNew.vout.length + a]? = _
    rw [List.getElem?_append_right (Nat.le_add_right _ _)]
    simp [ha']

/-- Scenario S4 as an instance of C8: the builder turns the coinbase (miner 3·10⁸)
into (miner 3·10⁸, A1 10·10⁸, A2 20·10⁸), which is accepted at height 10080 with
reward 5·10⁸ and limit 35·10⁸. -/
theorem CreateGovernanceBlock_IsValid_witness :
    (CGovernanceBlockManager.CreateGovernanceBlock scenarioParams scenarioGovernance
        (scenarioTriggers [⟨true, scriptA1, 1000000000⟩, ⟨true, scriptA2, 2000000000⟩])
        ⟨[⟨300000000, scriptMiner⟩]⟩ 10080 []).1 =
        ⟨[⟨300000000, scriptMiner⟩] ++
          ([⟨true, scriptA1, 1000000000⟩, ⟨true, scriptA2, 2000000000⟩] :
            List CGovernancePayment).map (fun p => (⟨p.nAmount, p.script⟩ : CTxOut))⟩ ∧
      CGovernanceBlockManager.IsValid scenarioParams scenarioGovernance
        (scenarioTriggers [⟨true, scriptA1, 1000000000⟩, ⟨true, scriptA2, 2000000000⟩])
        (CGovernanceBlockManager.CreateGovernanceBlock scenarioParams scenarioGovernance
          (scenarioTriggers [⟨true, scriptA1, 1000000000⟩, ⟨true, scriptA2, 2000000000⟩])
          ⟨[⟨300000000, scriptMiner⟩]⟩ 10080 []).1 10080 500000000 = true :=
  CreateGovernanceBlock_IsValid scenarioParams scenarioGovernance
    (scenarioTriggers [⟨true, scriptA1, 1000000000⟩, ⟨true, scriptA2, 2000000000⟩])
    ⟨[⟨300000000, scriptMiner⟩]⟩ 10080 500000000 []
    (scenarioTrigger [⟨true, scriptA1, 1000000000⟩, ⟨true, scriptA2, 2000000000⟩])
    (by decide) (by decide) (by decide)

/-! ## The nearest governance heights -/

/-- C9: evaluation of `GetNearestGovernanceBlocksHeights` with cycle 10, offset 3
and start 0 at height 10: the returned previous height is 13, which is above the
height asked for. -/
theorem GetNearestGovernanceBlocksHeights_prev_above_height :
    CGovernanceBlock.GetNearestGovernanceBlocksHeights offsetParams 10 = (13, 26) ∧
      ¬ (CGovernanceBlock.GetNearestGovernanceBlocksHeights offsetParams 10).1 ≤ 10 := by
  decide

/-- C10: evaluation of `GetNearestGovernanceBlocksHeights` with cycle 10, offset 3
and start 0 at the governance height 13: the returned heights are 13 and 26,
which lie 13 apart and not one cycle of 10. -/
theorem GetNearestGovernanceBlocksHeights_distance_not_cycle :
    CGovernanceBlock.GetNearestGovernanceBlocksHeights offsetParams 13 = (13, 26) ∧
      (CGovernanceBlock.GetNearestGovernanceBlocksHeights offsetParams 13).2 -
        (CGovernanceBlock.GetNearestGovernanceBlocksHeights offsetParams 13).1 ≠
          offsetParams.megaBlockInterval := by
  decide

/-! ## The regular-block validator and the block-payment gate -/

/-- C4: the result of `IsBlockValueValid` on a block with coinbase `vtx0`, with `v`
the sum of the coinbase output values: when the node is not synced or runs in
lite mode, `v ≤ reward + GetPaymentsLimit` at a governance height and
`v ≤ reward` otherwise; when synced and a governance block is triggered, the
result of `CGovernanceBlockManager::IsValid` on the coinbase; in every other
case `v ≤ reward`. -/
theorem IsBlockValueValid_result (P : ConsensusParams) (env : NodeEnv)
    (governance : CGovernanceManager) (triggerman : CGovernanceTriggerManager)
    (vtx0 : CTransaction) (rest : List CTransaction) (nBlockHeight blockReward : Int) :
    Option.map Prod.fst
        (IsBlockValueValid P env governance triggerman ⟨vtx0 :: rest⟩ nBlockHeight blockReward) =
      some
        (if env.IsSynced = false ∨ env.fLiteMode = true then
          if CGovernanceBlock.IsValidBlockHeight P nBlockHeight = true then
            decide ((vtx0.vout.map CTxOut.nValue).sum ≤
              blockReward + CGovernanceBlock.GetPaymentsLimit P nBlockHeight)
          else decide ((vtx0.vout.map CTxOut.nValue).sum ≤ blockReward)
        else if CGovernanceBlockManager.IsGovernanceBlockTriggered P governance triggerman
            nBlockHeight = true then
          CGovernanceBlockManager.IsValid P governance triggerman vtx0 nBlockHeight blockReward
        else decide ((vtx0.vout.map CTxOut.nValue).sum ≤ blockReward)) := by
  unfold IsBlockValueValid
  simp only [CTransaction.GetValueOut]
  cases hs : env.IsSynced <;> cases hl : env.fLiteMode <;>
    cases hh : CGovernanceBlock.IsValidBlockHeight P nBlockHeight <;>
    cases ht : CGovernanceBlockManager.IsGovernanceBlockTriggered P governance triggerman
      nBlockHeight <;>
    cases hv : CGovernanceBlockManager.IsValid P governance triggerman vtx0 nBlockHeight
      blockReward <;>
    simp

/-- C5, the claim as stated fails in lite mode: on a synced node in lite mode, at
height 10080 with a triggered governance block that pays A1 and a coinbase that
pays only the miner, the governance validator rejects the coinbase and
`IsBlockPayeeValid` returns true all the same. -/
theorem IsBlockPayeeValid_lite_mode_skips_validator :
    liteEnv.IsSynced = true ∧
      CGovernanceBlockManager.IsGovernanceBlockTriggered scenarioParams scenarioGovernance
        (scenarioTriggers [⟨true, scriptA1, 1000000000⟩]) 10080 = true ∧
      CGovernanceBlockManager.IsValid scenarioParams scenarioGovernance
        (scenarioTriggers [⟨true, scriptA1, 1000000000⟩]) ⟨[⟨300000000, scriptMiner⟩]⟩ 10080
        500000000 = false ∧
      IsBlockPayeeValid scenarioParams liteEnv scenarioGovernance
        (scenarioTriggers [⟨true, scriptA1, 1000000000⟩]) (CMasternodePayments.empty 10079)
        ⟨[⟨300000000, scriptMiner⟩]⟩ 10080 500000000 = true := by
  decide

/-- C5, amended: `IsBlockPayeeValid` returns true whenever the node is not synced
or runs in lite mode; otherwise, if a governance block is triggered at the
height it returns exactly the result of `CGovernanceBlockManager::IsValid`;
otherwise it returns true iff the regular-block validator accepts or enforcement
is off, and enforcement is on iff a last checkpoint exists and the height
exceeds its height plus 4000. -/
theorem IsBlockPayeeValid_result (P : ConsensusParams) (env : NodeEnv)
    (governance : CGovernanceManager) (triggerman : CGovernanceTriggerManager)
    (mnpayments : CMasternodePayments) (txNew : CTransaction) (nBlockHeight blockReward : Int) :
    IsBlockPayeeValid P env governance triggerman mnpayments txNew nBlockHeight blockReward =
        (if env.IsSynced = false ∨ env.fLiteMode = true then true
        else if CGovernanceBlockManager.IsGovernanceBlockTriggered P governance triggerman
            nBlockHeight = true then
          CGovernanceBlockManager.IsValid P governance triggerman txNew nBlockHeight blockReward
        else mnpayments.IsTransactionValid P txNew nBlockHeight blockReward ||
          !EnforceMasternodePayments env nBlockHeight) ∧
      (EnforceMasternodePayments env nBlockHeight = true ↔
        ∃ pcheckpointHeight, env.GetLastCheckpoint = some pcheckpointHeight ∧
          nBlockHeight > pcheckpointHeight + 4000) := by
  constructor
  · unfold IsBlockPayeeValid
    cases hs : env.IsSynced <;> cases hl : env.fLiteMode <;>
      cases ht : CGovernanceBlockManager.IsGovernanceBlockTriggered P governance triggerman
        nBlockHeight <;>
      cases hv : CGovernanceBlockManager.IsValid P governance triggerman txNew nBlockHeight
        blockReward <;>
      cases hr : mnpayments.IsTransactionValid P txNew nBlockHeight blockReward <;>
      cases he : EnforceMasternodePayments env nBlockHeight <;>
      simp
  · unfold EnforceMasternodePayments
    cases hc : env.GetLastCheckpoint with
    | none => simp
    | some pcheckpointHeight => simp [MN_PAYMENTS_UPDATE_THRESHOLD]

/-! ## Lemmas on the association lists and the vote handler -/

theorem mapFind_mapInsert_self {κ ν : Type} [DecidableEq κ] [LT κ]
    [DecidableRel (fun a b : κ => a < b)] (k : κ) (v : ν) :
    ∀ (m : List (κ × ν)), mapFind k m = none → mapFind k (mapInsert k v m) = some v := by
  intro m
  induction m with
  | nil => intro _; simp [mapInsert, mapFind]
  | cons e rest ih =>
    obtain ⟨k', v'⟩ := e
    intro h
    rw [mapFind] at h
    by_cases hk : k' = k
    · simp [hk] at h
    · simp only [hk, if_false] at h
      rw [mapInsert]
      split
      · simp [mapFind]
      · simp [mapFind, hk, ih h]

theorem mapFind_mapInsert_ne {κ ν : Type} [DecidableEq κ] [LT κ]
    [DecidableRel (fun a b : κ => a < b)] (k k2 : κ) (v : ν) (hk : k ≠ k2) :
    ∀ (m : List (κ × ν)), mapFind k2 (mapInsert k v m) = mapFind k2 m := by
  intro m
  induction m with
  | nil => simp [mapInsert, mapFind, hk]
  | cons e rest ih =>
    obtain ⟨k', v'⟩ := e
    rw [mapInsert]
    split
    · simp [mapFind, hk]
    · by_cases h2 : k' = k2
      · simp [mapFind, h2]
      · simp [mapFind, h2, ih]

theorem mapFind_mapReplace_self {κ ν : Type} [DecidableEq κ] (k : κ) (v : ν) :
    ∀ (m : List (κ × ν)), (mapFind k m).isSome = true → mapFind k (mapReplace k v m) = some v := by
  intro m
  induction m with
  | nil => intro h; simp [mapFind] at h
  | cons e rest ih =>
    obtain ⟨k', v'⟩ := e
    intro h
    rw [mapFind] at h
    rw [mapReplace]
    by_cases hk : k' = k
    · simp [hk, mapFind]
    · simp only [hk, if_false] at h
      simp [hk, mapFind, ih h]

theorem mapFind_mapReplace_ne {κ ν : Type} [DecidableEq κ] (k k2 : κ) (v : ν) (hk : k ≠ k2) :
    ∀ (m : List (κ × ν)), mapFind k2 (mapReplace k v m) = mapFind k2 m := by
  intro m
  induction m with
  | nil => simp [mapReplace]
  | cons e rest ih =>
    obtain ⟨k', v'⟩ := e
    rw [mapReplace]
    by_cases h1 : k' = k
    · subst h1
      simp [mapFind, hk]
    · rw [if_neg h1]
      by_cases h2 : k' = k2
      · simp [mapFind, h2]
      · simp [mapFind, h2, ih]

theorem mapFind_mapSet_self {κ ν : Type} [DecidableEq κ] [LT κ]
    [DecidableRel (fun a b : κ => a < b)] (k : κ) (v : ν) :
    ∀ (m : List (κ × ν)), mapFind k (mapSet k v m) = some v := by
  intro m
  unfold mapSet
  split
  · rename_i h
    exact mapFind_mapReplace_self k v m h
  · rename_i h
    exact mapFind_mapInsert_self k v m (by simpa using h)

theorem mapFind_mapSet_ne {κ ν : Type} [DecidableEq κ] [LT κ]
    [DecidableRel (fun a b : κ => a < b)] (k k2 : κ) (v : ν) (hk : k ≠ k2) :
    ∀ (m : List (κ × ν)), mapFind k2 (mapSet k v m) = mapFind k2 m := by
  intro m
  unfold mapSet
  split
  · exact mapFind_mapReplace_ne k k2 v hk m
  · exact mapFind_mapInsert_ne k k2 v hk m

theorem mapFind_mapEmplace_self {κ ν : Type} [DecidableEq κ] [LT κ]
    [DecidableRel (fun a b : κ => a < b)] (k : κ) (v : ν) :
    ∀ (m : List (κ × ν)), mapFind k (mapEmplace k v m) = some ((mapFind k m).getD v) := by
  intro m
  unfold mapEmplace
  cases h : mapFind k m with
  | none => simpa using mapFind_mapInsert_self k v m h
  | some w => simp [h]

theorem mapFind_mapEmplace_ne {κ ν : Type} [DecidableEq κ] [LT κ]
    [DecidableRel (fun a b : κ => a < b)] (k k2 : κ) (v : ν) (hk : k ≠ k2) :
    ∀ (m : List (κ × ν)), mapFind k2 (mapEmplace k v m) = mapFind k2 m := by
  intro m
  unfold mapEmplace
  split
  · rfl
  · exact mapFind_mapInsert_ne k k2 v hk m

theorem UpdateLastVote_same (mnpayments : CMasternodePayments) (vote : CMasternodePaymentVote)
    (hlast : mapFind vote.masternodeOutpoint mnpayments.mapMasternodesLastVote =
      some vote.nBlockHeight) :
    mnpayments.UpdateLastVote vote = (false, mnpayments) := by
  unfold CMasternodePayments.UpdateLastVote
  rw [hlast]
  simp

/-- A vote for the height recorded as the voter's last leaves the engine as it
was, up to an unverified placeholder under the hash of the vote. -/
theorem ProcessMessage_last_cases (env : NodeEnv) (mnpayments : CMasternodePayments)
    (pfromVersion : Int) (vote : CMasternodePaymentVote)
    (hlast : mapFind vote.masternodeOutpoint mnpayments.mapMasternodesLastVote =
      some vote.nBlockHeight) :
    (CMasternodePayments.ProcessMessage env mnpayments pfromVersion vote).1 = mnpayments ∨
      ((∀ seen, mapFind (vote.GetHash env) mnpayments.mapMasternodePaymentVotesPrimary = some seen →
          seen.IsVerified = false) ∧
        ∃ votes, votes = mapSet (vote.GetHash env)
            ((mapFind (vote.GetHash env)
              mnpayments.mapMasternodePaymentVotesPrimary).getD vote).MarkAsNotVerified
            mnpayments.mapMasternodePaymentVotesPrimary ∧
          (CMasternodePayments.ProcessMessage env mnpayments pfromVersion vote).1 =
            { mnpayments with mapMasternodePaymentVotesPrimary := votes }) := by
  unfold CMasternodePayments.ProcessMessage
  by_cases h1 : env.fLiteMode = true
  · left; simp [h1]
  by_cases h2 : pfromVersion < env.MIN_MASTERNODE_PAYMENT_PROTO_VERSION
  · left; simp [h1, h2]
  by_cases h3 : env.IsMasternodeListSynced = true
  swap
  · left; simp [h1, h2, h3]
  by_cases h4 : ((mapFind (vote.GetHash env) mnpayments.mapMasternodePaymentVotesPrimary).isSome &&
      ((mapFind (vote.GetHash env)
        mnpayments.mapMasternodePaymentVotesPrimary).getD vote).IsVerified) = true
  · left; simp [h1, h2, h3, h4]
  right
  constructor
  · intro seen hseen
    rw [hseen] at h4
    simpa using h4
  · refine ⟨_, rfl, ?_⟩
    have hU : ∀ votes,
        ({ mnpayments with mapMasternodePaymentVotesPrimary := votes }).UpdateLastVote vote =
          (false, { mnpayments with mapMasternodePaymentVotesPrimary := votes }) :=
      fun votes => UpdateLastVote_same _ vote hlast
    simp only [h1, h2, h3, h4, Bool.false_eq_true, if_false, Bool.not_true, hU, Bool.not_false,
      if_true]
    split_ifs
    all_goals first
      | rfl
      | (split <;> first | rfl | (split_ifs <;> rfl))

/-! ## The double-vote guard of the primary vote handler -/

/-- C6, the claim as stated fails: starting from the empty engine, the handler
accepts a vote of X for height 1000 naming A1, then a vote of X for height 1001,
then a vote of X for height 1000 naming a third payee; the store then holds two
verified votes of X for height 1000 and the tally of height 1000 counts both,
because the guard remembers only the height of the last vote of each voter. -/
theorem ProcessMessage_two_votes_for_one_height :
    ((CMasternodePayments.ProcessMessage scenarioEnv
        (CMasternodePayments.ProcessMessage scenarioEnv
          (CMasternodePayments.ProcessMessage scenarioEnv (CMasternodePayments.empty 990)
            70000 voteFirst).1 70000 voteOther).1 70000 voteSecond).1).mapMasternodePaymentVotesPrimary
        = [(10001, voteFirst), (10003, voteSecond), (10012, voteOther)] ∧
      voteFirst.IsVerified = true ∧ voteSecond.IsVerified = true ∧
      voteFirst.masternodeOutpoint = voteSecond.masternodeOutpoint ∧
      voteFirst.nBlockHeight = voteSecond.nBlockHeight ∧
      voteFirst.payee ≠ voteSecond.payee ∧
      mapFind 1000 ((CMasternodePayments.ProcessMessage scenarioEnv
        (CMasternodePayments.ProcessMessage scenarioEnv
          (CMasternodePayments.ProcessMessage scenarioEnv (CMasternodePayments.empty 990)
            70000 voteFirst).1 70000 voteOther).1 70000 voteSecond).1).mapMasternodeBlocksPrimary
        = some ⟨1000, [⟨scriptA1, [10001]⟩, ⟨[3], [10003]⟩]⟩ := by
  decide

/-- C6, amended: when the primary vote handler receives a vote for the height that
`mapMasternodesLastVote` records as the last vote height of its voter, the vote
is dropped: the tallies and the last-vote record are unchanged and the store
holds the same verified votes as before. So a second vote that a voter sends
for the same height right after its first one is dropped and the tally reflects
only the first. -/
theorem ProcessMessage_drops_vote_for_last_height (env : NodeEnv)
    (mnpayments : CMasternodePayments) (pfromVersion : Int) (vote : CMasternodePaymentVote)
    (hlast : mapFind vote.masternodeOutpoint mnpayments.mapMasternodesLastVote =
      some vote.nBlockHeight) :
    (CMasternodePayments.ProcessMessage env mnpayments pfromVersion
        vote).1.mapMasternodeBlocksPrimary = mnpayments.mapMasternodeBlocksPrimary ∧
      (CMasternodePayments.ProcessMessage env mnpayments pfromVersion
        vote).1.mapMasternodesLastVote = mnpayments.mapMasternodesLastVote ∧
      ∀ (nHash : uint256) (v : CMasternodePaymentVote), v.IsVerified = true →
        (mapFind nHash (CMasternodePayments.ProcessMessage env mnpayments pfromVersion
            vote).1.mapMasternodePaymentVotesPrimary = some v ↔
          mapFind nHash mnpayments.mapMasternodePaymentVotesPrimary = some v) := by
  rcases ProcessMessage_last_cases env mnpayments pfromVersion vote hlast with
    h | ⟨hunv, votes, hvotes, hres⟩
  · rw [h]
    exact ⟨rfl, rfl, fun _ _ _ => Iff.rfl⟩
  · rw [hres]
    refine ⟨rfl, rfl, ?_⟩
    intro nHash v hv
    simp only
    rw [hvotes]
    by_cases hk : vote.GetHash env = nHash
    · subst hk
      rw [mapFind_mapSet_self]
      constructor
      · intro h
        rw [Option.some.injEq] at h
        subst h
        simp [CMasternodePaymentVote.IsVerified, CMasternodePaymentVote.MarkAsNotVerified] at hv
      · intro h
        rw [hunv v h] at hv
        exact absurd hv (by decide)
    · rw [mapFind_mapSet_ne _ _ _ hk]

/-- Scenario S6 as an instance of the amended C6: after the vote of X for height
1000 naming A1 was accepted, the vote of X for height 1000 naming another payee
leaves the tallies as they were. -/
theorem ProcessMessage_drops_vote_for_last_height_witness :
    mapFind voteSecond.masternodeOutpoint
        (CMasternodePayments.ProcessMessage scenarioEnv (CMasternodePayments.empty 990) 70000
          voteFirst).1.mapMasternodesLastVote = some voteSecond.nBlockHeight ∧
      (CMasternodePayments.ProcessMessage scenarioEnv
        (CMasternodePayments.ProcessMessage scenarioEnv (CMasternodePayments.empty 990) 70000
          voteFirst).1 70000 voteSecond).1.mapMasternodeBlocksPrimary =
        (CMasternodePayments.ProcessMessage scenarioEnv (CMasternodePayments.empty 990) 70000
          voteFirst).1.mapMasternodeBlocksPrimary :=
  ⟨by decide,
    (ProcessMessage_drops_vote_for_last_height scenarioEnv
      (CMasternodePayments.ProcessMessage scenarioEnv (CMasternodePayments.empty 990) 70000
        voteFirst).1 70000 voteSecond (by decide)).1⟩

/-! ## Lemmas on the loops that pick a best entry -/

/-- The loop of `GetBestGovernanceBlock` either leaves the accumulator alone, when
no trigger of the height has more yes votes than it, or ends on the first such
trigger with the largest yes count. -/
theorem governanceBestLoop_spec (governance : CGovernanceManager) (nBlockHeight : Int) :
    ∀ (l : List (Option CGovernanceBlock)) (acc : Int × Option CGovernanceBlock),
      (CGovernanceBlockManager.bestLoop governance nBlockHeight l acc = acc ∧
        ∀ (k : Nat) (t : CGovernanceBlock) (pObj : CGovernanceObject), l[k]? = some (some t) → t.GetGovernanceObject governance = some pObj →
          nBlockHeight = t.nBlockHeight → pObj.nAbsoluteYesCountFunding ≤ acc.1) ∨
      ∃ (i : Nat) (t : CGovernanceBlock) (pObj : CGovernanceObject), l[i]? = some (some t) ∧ t.GetGovernanceObject governance = some pObj ∧
        nBlockHeight = t.nBlockHeight ∧
        CGovernanceBlockManager.bestLoop governance nBlockHeight l acc =
          (pObj.nAbsoluteYesCountFunding, some t) ∧
        acc.1 < pObj.nAbsoluteYesCountFunding ∧
        ∀ (k : Nat) (t' : CGovernanceBlock) (pObj' : CGovernanceObject), l[k]? = some (some t') → t'.GetGovernanceObject governance = some pObj' →
          nBlockHeight = t'.nBlockHeight →
          pObj'.nAbsoluteYesCountFunding ≤ pObj.nAbsoluteYesCountFunding ∧
            (k < i → pObj'.nAbsoluteYesCountFunding < pObj.nAbsoluteYesCountFunding) := by
  intro l
  induction l with
  | nil => intro acc; left; simp [CGovernanceBlockManager.bestLoop]
  | cons x xs ih =>
    intro acc
    have hstep :
        (CGovernanceBlockManager.bestLoop governance nBlockHeight (x :: xs) acc =
            CGovernanceBlockManager.bestLoop governance nBlockHeight xs acc ∧
          ∀ (t : CGovernanceBlock) (pObj : CGovernanceObject), x = some t →
            t.GetGovernanceObject governance = some pObj → nBlockHeight = t.nBlockHeight →
            pObj.nAbsoluteYesCountFunding ≤ acc.1) ∨
        ∃ (g : CGovernanceBlock) (pObj : CGovernanceObject), x = some g ∧
          g.GetGovernanceObject governance = some pObj ∧ nBlockHeight = g.nBlockHeight ∧
          acc.1 < pObj.nAbsoluteYesCountFunding ∧
          CGovernanceBlockManager.bestLoop governance nBlockHeight (x :: xs) acc =
            CGovernanceBlockManager.bestLoop governance nBlockHeight xs
              (pObj.nAbsoluteYesCountFunding, some g) := by
      cases x with
      | none =>
        left
        exact ⟨by rw [CGovernanceBlockManager.bestLoop], fun t pObj h => by simp at h⟩
      | some g =>
        cases hobj : g.GetGovernanceObject governance with
        | none =>
          left
          refine ⟨by rw [CGovernanceBlockManager.bestLoop, hobj], fun t pObj h ho _ => ?_⟩
          rw [Option.some.injEq] at h
          subst h
          rw [hobj] at ho
          simp at ho
        | some pObj =>
          by_cases hh : nBlockHeight = g.nBlockHeight
          swap
          · left
            refine ⟨by rw [CGovernanceBlockManager.bestLoop, hobj]; simp [hh],
              fun t pObj' h _ hh' => ?_⟩
            rw [Option.some.injEq] at h
            subst h
            exact absurd hh' hh
          by_cases hx : pObj.nAbsoluteYesCountFunding > acc.1
          · right
            refine ⟨g, pObj, rfl, hobj, hh, hx, ?_⟩
            rw [CGovernanceBlockManager.bestLoop, hobj]
            simp [hh, hx]
          · left
            refine ⟨by rw [CGovernanceBlockManager.bestLoop, hobj]; simp [hh, hx],
              fun t pObj' h ho _ => ?_⟩
            rw [Option.some.injEq] at h
            subst h
            rw [hobj, Option.some.injEq] at ho
            subst ho
            omega
    rcases hstep with ⟨hs, hle⟩ | ⟨g, pObj, hg, hobj, hh, hx, hs⟩
    · rw [hs]
      rcases ih acc with ⟨heq, hall⟩ | ⟨i, t, pObj2, hi, hobj2, hh2, heq, hlt, hmax⟩
      · left
        refine ⟨heq, ?_⟩
        intro k t' pObj' hk hobj' hh'
        cases k with
        | zero =>
          simp only [List.getElem?_cons_zero, Option.some.injEq] at hk
          exact hle t' pObj' hk hobj' hh'
        | succ k =>
          rw [List.getElem?_cons_succ] at hk
          exact hall k t' pObj' hk hobj' hh'
      · right
        refine ⟨i + 1, t, pObj2, by rw [List.getElem?_cons_succ]; exact hi, hobj2, hh2, heq, hlt,
          ?_⟩
        intro k t' pObj' hk hobj' hh'
        cases k with
        | zero =>
          simp only [List.getElem?_cons_zero, Option.some.injEq] at hk
          have := hle t' pObj' hk hobj' hh'
          exact ⟨by omega, fun _ => by omega⟩
        | succ k =>
          rw [List.getElem?_cons_succ] at hk
          exact ⟨(hmax k t' pObj' hk hobj' hh').1,
            fun h => (hmax k t' pObj' hk hobj' hh').2 (by omega)⟩
    · rw [hs]
      have hcand : ∀ (t' : CGovernanceBlock) (pObj' : CGovernanceObject), x = some t' →
          t'.GetGovernanceObject governance = some pObj' → pObj' = pObj := by
        intro t' pObj' h ho
        rw [hg, Option.some.injEq] at h
        subst h
        rw [hobj, Option.some.injEq] at ho
        exact ho.symm
      right
      rcases ih (pObj.nAbsoluteYesCountFunding, some g) with
        ⟨heq, hall⟩ | ⟨i, t, pObj2, hi, hobj2, hh2, heq, hlt, hmax⟩
      · refine ⟨0, g, pObj, by simp [hg], hobj, hh, heq, hx, ?_⟩
        intro k t' pObj' hk hobj' hh'
        cases k with
        | zero =>
          simp only [List.getElem?_cons_zero, Option.some.injEq] at hk
          rw [hcand t' pObj' hk hobj']
          exact ⟨le_refl _, fun h => absurd h (Nat.lt_irrefl 0)⟩
        | succ k =>
          rw [List.getElem?_cons_succ] at hk
          exact ⟨hall k t' pObj' hk hobj' hh', fun h => absurd h (Nat.not_lt_zero _)⟩
      · refine ⟨i + 1, t, pObj2, by rw [List.getElem?_cons_succ]; exact hi, hobj2, hh2, heq,
          lt_trans hx hlt, ?_⟩
        intro k t' pObj' hk hobj' hh'
        cases k with
        | zero =>
          simp only [List.getElem?_cons_zero, Option.some.injEq] at hk
          rw [hcand t' pObj' hk hobj']
          exact ⟨le_of_lt hlt, fun _ => hlt⟩
        | succ k =>
          rw [List.getElem?_cons_succ] at hk
          exact ⟨(hmax k t' pObj' hk hobj' hh').1,
            fun h => (hmax k t' pObj' hk hobj' hh').2 (by omega)⟩

/-! ## Governance heights and the best trigger -/

/-- C11: evaluation of `GetNearestGovernanceBlocksHeights` with cycle 10, offset 3
and start 0 at height 13: the returned next height is 26, and
`IsValidBlockHeight` is false for it, since 26 mod 10 is 6 and not 3. -/
theorem GetNearestGovernanceBlocksHeights_next_not_governance_height :
    (CGovernanceBlock.GetNearestGovernanceBlocksHeights offsetParams 13).2 = 26 ∧
      CGovernanceBlock.IsValidBlockHeight offsetParams
        (CGovernanceBlock.GetNearestGovernanceBlocksHeights offsetParams 13).2 = false := by
  decide

/-- C14, the claim as stated fails: at height 10080 the only trigger has a backing
object that is not marked as funded (before and after the refresh of its
flags), so no governance block is triggered, and `GetBestGovernanceBlock`
returns that trigger all the same, because it looks at the yes count only. -/
theorem GetBestGovernanceBlock_ignores_funding_flag :
    (unfundedGovernance.FindGovernanceObject 7).map
        (fun pObj => (pObj.fCachedFunding,
          (unfundedGovernance.UpdateSentinelVariables pObj).fCachedFunding)) =
        some (false, false) ∧
      CGovernanceBlockManager.IsGovernanceBlockTriggered scenarioParams unfundedGovernance
        (scenarioTriggers [⟨true, scriptA1, 1000000000⟩]) 10080 = false ∧
      CGovernanceBlockManager.GetBestGovernanceBlock scenarioParams unfundedGovernance
        (scenarioTriggers [⟨true, scriptA1, 1000000000⟩]) 10080 =
        (true, some (scenarioTrigger [⟨true, scriptA1, 1000000000⟩])) := by
  decide

/-- C14, amended: `GetBestGovernanceBlock` returns a trigger `t` exactly when the
height is a governance height and `t` is, among the active triggers whose event
height equals the height (funded or not), the first in iteration order with the
highest absolute yes count, and that count is positive; it reports no trigger
exactly when the height is no governance height or no such trigger has a
positive yes count. -/
theorem GetBestGovernanceBlock_spec (P : ConsensusParams) (governance : CGovernanceManager)
    (triggerman : CGovernanceTriggerManager) (nBlockHeight : Int) :
    (∀ t : CGovernanceBlock,
      CGovernanceBlockManager.GetBestGovernanceBlock P governance triggerman nBlockHeight =
          (true, some t) ↔
        CGovernanceBlock.IsValidBlockHeight P nBlockHeight = true ∧
        ∃ (i : Nat) (pObj : CGovernanceObject),
          (triggerman.GetActiveTriggers governance)[i]? = some (some t) ∧
          t.GetGovernanceObject governance = some pObj ∧ nBlockHeight = t.nBlockHeight ∧
          0 < pObj.nAbsoluteYesCountFunding ∧
          ∀ (k : Nat) (t' : CGovernanceBlock) (pObj' : CGovernanceObject),
            (triggerman.GetActiveTriggers governance)[k]? = some (some t') →
            t'.GetGovernanceObject governance = some pObj' → nBlockHeight = t'.nBlockHeight →
            pObj'.nAbsoluteYesCountFunding ≤ pObj.nAbsoluteYesCountFunding ∧
              (k < i → pObj'.nAbsoluteYesCountFunding < pObj.nAbsoluteYesCountFunding)) ∧
      (CGovernanceBlockManager.GetBestGovernanceBlock P governance triggerman nBlockHeight =
          (false, none) ↔
        ¬ (CGovernanceBlock.IsValidBlockHeight P nBlockHeight = true ∧
          ∃ (k : Nat) (t' : CGovernanceBlock) (pObj' : CGovernanceObject),
            (triggerman.GetActiveTriggers governance)[k]? = some (some t') ∧
            t'.GetGovernanceObject governance = some pObj' ∧ nBlockHeight = t'.nBlockHeight ∧
            0 < pObj'.nAbsoluteYesCountFunding)) := by
  unfold CGovernanceBlockManager.GetBestGovernanceBlock
  cases hh : CGovernanceBlock.IsValidBlockHeight P nBlockHeight with
  | false => simp
  | true =>
    simp only [Bool.not_true, Bool.false_eq_true, if_false, true_and]
    rcases governanceBestLoop_spec governance nBlockHeight
        (triggerman.GetActiveTriggers governance) (0, none) with
      ⟨heq, hall⟩ | ⟨i, t, pObj, hi, hobj, hht, heq, hlt, hmax⟩
    · rw [heq]
      constructor
      · intro t'
        constructor
        · intro h
          simp at h
        · rintro ⟨i, pObj, hi, hobj, hht, hpos, _⟩
          have := hall i t' pObj hi hobj hht
          simp only at this
          omega
      · simp only [gt_iff_lt, lt_self_iff_false, decide_False, true_iff, not_exists, not_and,
          not_lt]
        intro k t' pObj' hk hobj' hh'
        exact hall k t' pObj' hk hobj' hh'
    · rw [heq]
      have hpos : (0 : Int) < pObj.nAbsoluteYesCountFunding := hlt
      constructor
      · intro t'
        constructor
        · intro h
          simp only [gt_iff_lt, hpos, decide_True, Prod.mk.injEq, true_and,
            Option.some.injEq] at h
          subst h
          exact ⟨i, pObj, hi, hobj, hht, hpos, hmax⟩
        · rintro ⟨i', pObj', hi', hobj', hht', _, hmax'⟩
          have h1 := hmax i' t' pObj' hi' hobj' hht'
          have h2 := hmax' i t pObj hi hobj hht
          have hii : i = i' := by
            rcases Nat.lt_trichotomy i i' with h | h | h
            · have := h2.2 h
              omega
            · exact h
            · have := h1.2 h
              omega
          subst hii
          rw [hi, Option.some.injEq, Option.some.injEq] at hi'
          subst hi'
          simp [hpos]
      · simp only [gt_iff_lt, hpos, decide_True, Prod.mk.injEq, Bool.true_eq_false, false_and,
          false_iff, not_not]
        exact ⟨i, t, pObj, hi, hobj, hht, hpos⟩

/-! ## The tally of one height -/

theorem addLoop_payees (payeeIn : CScript) (nVoteHash : uint256) :
    ∀ l : List CMasternodePayee,
      (CMasternodeBlockPayees.addLoop payeeIn nVoteHash l).map CMasternodePayee.GetPayee =
        if payeeIn ∈ l.map CMasternodePayee.GetPayee then l.map CMasternodePayee.GetPayee
        else l.map CMasternodePayee.GetPayee ++ [payeeIn] := by
  intro l
  induction l with
  | nil => simp [CMasternodeBlockPayees.addLoop, CMasternodePayee.GetPayee]
  | cons x xs ih =>
    rw [CMasternodeBlockPayees.addLoop]
    by_cases hx : x.GetPayee = payeeIn
    · have h1 : (x.AddVoteHash nVoteHash).GetPayee = payeeIn := hx
      have h2 : payeeIn ∈ (x :: xs).map CMasternodePayee.GetPayee := by
        rw [List.map_cons, hx]
        exact List.mem_cons_self _ _
      rw [if_pos hx, if_pos h2, List.map_cons, List.map_cons, h1, hx]
    · have hx' : ¬ payeeIn = x.GetPayee := fun h => hx h.symm
      simp only [hx, if_false, List.map_cons, ih, List.mem_cons, hx', false_or]
      split <;> simp

theorem addLoop_nodup (payeeIn : CScript) (nVoteHash : uint256) (l : List CMasternodePayee)
    (h : (l.map CMasternodePayee.GetPayee).Nodup) :
    ((CMasternodeBlockPayees.addLoop payeeIn nVoteHash l).map CMasternodePayee.GetPayee).Nodup := by
  rw [addLoop_payees]
  split
  · exact h
  · rename_i hnot
    rw [List.nodup_append]
    refine ⟨h, List.nodup_singleton _, ?_⟩
    intro a ha hb
    rw [List.mem_singleton] at hb
    subst hb
    exact hnot ha

theorem addLoop_count (payeeIn : CScript) (nVoteHash : uint256) (payee : CScript) :
    ∀ l : List CMasternodePayee,
      (((CMasternodeBlockPayees.addLoop payeeIn nVoteHash l).filter
          (fun e => decide (e.GetPayee = payee))).map (fun e => e.vecVoteHashes.length)).sum =
        ((l.filter (fun e => decide (e.GetPayee = payee))).map
          (fun e => e.vecVoteHashes.length)).sum + (if payee = payeeIn then 1 else 0) := by
  intro l
  induction l with
  | nil =>
    by_cases h : payee = payeeIn
    · simp [CMasternodeBlockPayees.addLoop, CMasternodePayee.GetPayee, h]
    · have h' : ¬ payeeIn = payee := fun e => h e.symm
      simp [CMasternodeBlockPayees.addLoop, CMasternodePayee.GetPayee, h, h']
  | cons x xs ih =>
    rw [CMasternodeBlockPayees.addLoop]
    by_cases hx : x.GetPayee = payeeIn
    · by_cases h : payee = payeeIn
      · subst h
        have hx2 : (x.AddVoteHash nVoteHash).GetPayee = payee := hx
        simp only [hx, if_true, List.filter_cons, hx2, decide_True, List.map_cons, List.sum_cons]
        simp only [CMasternodePayee.AddVoteHash, List.length_append, List.length_singleton]
        omega
      · have hx1 : ¬ x.GetPayee = payee := fun e => h (e.symm.trans hx)
        have hx2 : ¬ (x.AddVoteHash nVoteHash).GetPayee = payee := hx1
        rw [if_pos hx, List.filter_cons, List.filter_cons]
        simp only [hx1, hx2, decide_False, Bool.false_eq_true, if_false, h, add_zero]
    · simp only [hx, if_false, List.filter_cons]
      by_cases hx1 : x.GetPayee = payee
      · simp only [hx1, decide_True, if_true, List.map_cons, List.sum_cons, ih]
        omega
      · simp only [hx1, decide_False, Bool.false_eq_true, if_false, ih]

/-- C15, the claim as stated fails: adding the vote of X for height 1000 naming A1
twice to the empty tally of height 1000 lists its hash twice, so the tally
differs from the one after a single call and A1 has two votes instead of one. -/
theorem AddPayee_same_vote_twice :
    ((⟨1000, []⟩ : CMasternodeBlockPayees).AddPayee scenarioEnv voteFirst).AddPayee scenarioEnv
        voteFirst = ⟨1000, [⟨scriptA1, [10001, 10001]⟩]⟩ ∧
      (⟨1000, []⟩ : CMasternodeBlockPayees).AddPayee scenarioEnv voteFirst =
        ⟨1000, [⟨scriptA1, [10001]⟩]⟩ ∧
      ((⟨1000, []⟩ : CMasternodeBlockPayees).AddPayee scenarioEnv voteFirst).AddPayee scenarioEnv
        voteFirst ≠ (⟨1000, []⟩ : CMasternodeBlockPayees).AddPayee scenarioEnv voteFirst := by
  decide

/-- C15, amended: `CMasternodeBlockPayees::AddPayee` keeps payees unique and counts
every call: after any sequence of `AddPayee` calls on an empty tally the tally
holds at most one entry per distinct payee script, and each call raises the
number of vote hashes listed under `vote.payee` by exactly one, also when the
same vote is added again, and leaves the other payees as they were. -/
theorem AddPayee_unique_and_counts (env : NodeEnv) :
    (∀ (nBlockHeight : Int) (votes : List CMasternodePaymentVote),
      ((votes.foldl (fun t vote => CMasternodeBlockPayees.AddPayee env t vote)
        (⟨nBlockHeight, []⟩ : CMasternodeBlockPayees)).vecPayees.map
          CMasternodePayee.GetPayee).Nodup) ∧
      ∀ (t : CMasternodeBlockPayees) (vote : CMasternodePaymentVote) (payee : CScript),
        (((t.AddPayee env vote).vecPayees.filter (fun e => decide (e.GetPayee = payee))).map
            (fun e => e.vecVoteHashes.length)).sum =
          ((t.vecPayees.filter (fun e => decide (e.GetPayee = payee))).map
            (fun e => e.vecVoteHashes.length)).sum + (if payee = vote.payee then 1 else 0) := by
  constructor
  · intro nBlockHeight votes
    have hgen : ∀ (votes : List CMasternodePaymentVote) (t : CMasternodeBlockPayees),
        (t.vecPayees.map CMasternodePayee.GetPayee).Nodup →
        ((votes.foldl (fun t vote => CMasternodeBlockPayees.AddPayee env t vote)
          t).vecPayees.map CMasternodePayee.GetPayee).Nodup := by
      intro votes
      induction votes with
      | nil => intro t h; exact h
      | cons v vs ih =>
        intro t h
        rw [List.foldl_cons]
        exact ih _ (addLoop_nodup _ _ _ h)
    exact hgen votes _ (by simp)
  · intro t vote payee
    exact addLoop_count _ _ _ _

/-! ## Pruning -/

theorem int32_of_range (x : Int) (h1 : -2147483648 ≤ x) (h2 : x ≤ 2147483647) : int32 x = x := by
  unfold int32
  omega

theorem checkLoop_votes (nCachedBlockHeight nLimit : Int) :
    ∀ (votes : List (uint256 × CMasternodePaymentVote))
      (blocks : List (Int × CMasternodeBlockPayees)),
      (CMasternodePayments.checkLoop nCachedBlockHeight nLimit votes blocks).1 =
        votes.filter
          (fun e => decide (¬ int32 (nCachedBlockHeight - e.2.nBlockHeight) > nLimit)) := by
  intro votes
  induction votes with
  | nil => intro blocks; rfl
  | cons e rest ih =>
    intro blocks
    obtain ⟨first, vote⟩ := e
    rw [CMasternodePayments.checkLoop]
    by_cases h : int32 (nCachedBlockHeight - vote.nBlockHeight) > nLimit
    · rw [if_pos h, ih, List.filter_cons_of_neg (by simp only [decide_eq_true_eq, not_not]; exact h)]
    · rw [if_neg h]
      show (first, vote) :: (CMasternodePayments.checkLoop nCachedBlockHeight nLimit rest blocks).1 = _
      rw [ih, List.filter_cons_of_pos (by simp only [decide_eq_true_eq]; exact h)]

theorem mapFind_filter_keep {κ ν : Type} [DecidableEq κ] (keep : κ × ν → Bool) (k : κ) (v : ν) :
    ∀ m : List (κ × ν), mapFind k m = some v → keep (k, v) = true →
      mapFind k (m.filter keep) = some v := by
  intro m
  induction m with
  | nil => intro h; simp [mapFind] at h
  | cons e rest ih =>
    obtain ⟨k', v'⟩ := e
    intro h hkeep
    rw [mapFind] at h
    by_cases hk : k' = k
    · subst hk
      simp only [if_true, Option.some.injEq] at h
      subst h
      simp [List.filter_cons, hkeep, mapFind]
    · simp only [hk, if_false] at h
      rw [List.filter_cons]
      split
      · simp [mapFind, hk, ih h hkeep]
      · exact ih h hkeep

/-- C19: evaluation of `CheckAndRemove` on a synced node at cached tip 990 with
storage limit 6000, after the vote handler has received a vote for height
-2147483648, the least 32-bit `int`. The handler stores the vote as an
unverified placeholder before its range check; the 32-bit difference
990 - (-2147483648) wraps around to -2147482658, which is not above 6000; so
the vote is still in the store after the call, although its height is below
990 - 6000. -/
theorem CheckAndRemove_keeps_vote_below_window :
    (CMasternodePayments.ProcessMessage scenarioEnv (CMasternodePayments.empty 990) 70000
        voteMin).1.mapMasternodePaymentVotesPrimary = [(1, voteMin.MarkAsNotVerified)] ∧
      scenarioEnv.IsBlockchainSynced = true ∧
      int32 (990 - voteMin.nBlockHeight) = -2147482658 ∧
      ((CMasternodePayments.ProcessMessage scenarioEnv (CMasternodePayments.empty 990) 70000
        voteMin).1.CheckAndRemove scenarioEnv).mapMasternodePaymentVotesPrimary =
        [(1, voteMin.MarkAsNotVerified)] ∧
      voteMin.nBlockHeight < 990 - CMasternodePayments.GetStorageLimit scenarioEnv := by
  decide

/-- C20: evaluation of `CheckAndRemove` at cached tip 10000 with storage limit 6000
on an engine without votes whose tally map has an entry for height 5, as the
lookup `mapMasternodeBlocksPrimary[5]` creates it: the tally of height 5, which
is below 10000 - 6000, is still there after the call. -/
theorem CheckAndRemove_keeps_tally_without_votes :
    (((CMasternodePayments.empty 10000).lookupBlock 5).CheckAndRemove
        scenarioEnv).mapMasternodeBlocksPrimary = [(5, ⟨0, []⟩)] ∧
      (5 : Int) < 10000 - CMasternodePayments.GetStorageLimit scenarioEnv ∧
      scenarioEnv.IsBlockchainSynced = true := by
  decide

/-! ## The record of last votes -/

theorem UpdateLastVote_true (mnpayments : CMasternodePayments) (vote : CMasternodePaymentVote)
    (h : (mnpayments.UpdateLastVote vote).1 = true) :
    mapFind vote.masternodeOutpoint (mnpayments.UpdateLastVote vote).2.mapMasternodesLastVote =
      some vote.nBlockHeight := by
  unfold CMasternodePayments.UpdateLastVote at h ⊢
  cases hfind : mapFind vote.masternodeOutpoint mnpayments.mapMasternodesLastVote with
  | none =>
    simp only [hfind]
    rw [mapFind_mapEmplace_self, hfind]
    rfl
  | some second =>
    rw [hfind] at h
    by_cases hs : second = vote.nBlockHeight
    · simp [hs] at h
    · simp only [hfind, hs, if_false]
      exact mapFind_mapSet_self _ _ _

theorem UpdateLastVote_false (mnpayments : CMasternodePayments) (vote : CMasternodePaymentVote)
    (h : (mnpayments.UpdateLastVote vote).1 = false) :
    (mnpayments.UpdateLastVote vote).2 = mnpayments := by
  unfold CMasternodePayments.UpdateLastVote at h ⊢
  cases hfind : mapFind vote.masternodeOutpoint mnpayments.mapMasternodesLastVote with
  | none =>
    rw [hfind] at h
    simp at h
  | some second =>
    rw [hfind] at h
    by_cases hs : second = vote.nBlockHeight
    · simp [hs]
    · simp [hs] at h

theorem UpdateLastVote_votes (mnpayments : CMasternodePayments) (vote : CMasternodePaymentVote) :
    (mnpayments.UpdateLastVote vote).2.mapMasternodePaymentVotesPrimary =
      mnpayments.mapMasternodePaymentVotesPrimary := by
  unfold CMasternodePayments.UpdateLastVote
  split
  · split <;> rfl
  · rfl

theorem AddOrUpdatePaymentVote_last (env : NodeEnv) (mnpayments : CMasternodePayments)
    (vote : CMasternodePaymentVote) :
    (CMasternodePayments.AddOrUpdatePaymentVote env mnpayments vote).2.mapMasternodesLastVote =
      mnpayments.mapMasternodesLastVote := by
  unfold CMasternodePayments.AddOrUpdatePaymentVote
  split
  · rfl
  · simp only
    split <;> rfl

/-- The primary vote handler ends in one of three ways: the engine untouched, the
engine with an unverified placeholder under the hash of the vote, or the result
of `AddOrUpdatePaymentVote` after `UpdateLastVote` returned true. -/
theorem ProcessMessage_cases (env : NodeEnv) (mnpayments : CMasternodePayments)
    (pfromVersion : Int) (vote : CMasternodePaymentVote) :
    ∃ votes, votes = mapSet (vote.GetHash env)
        ((mapFind (vote.GetHash env)
          mnpayments.mapMasternodePaymentVotesPrimary).getD vote).MarkAsNotVerified
        mnpayments.mapMasternodePaymentVotesPrimary ∧
      ((CMasternodePayments.ProcessMessage env mnpayments pfromVersion vote).1 = mnpayments ∨
        (CMasternodePayments.ProcessMessage env mnpayments pfromVersion vote).1 =
          { mnpayments with mapMasternodePaymentVotesPrimary := votes } ∨
        (({ mnpayments with mapMasternodePaymentVotesPrimary := votes }).UpdateLastVote vote).1 =
            true ∧
          (CMasternodePayments.ProcessMessage env mnpayments pfromVersion vote).1 =
            (CMasternodePayments.AddOrUpdatePaymentVote env
              (({ mnpayments with mapMasternodePaymentVotesPrimary := votes }).UpdateLastVote
                vote).2 vote).2) := by
  obtain ⟨votes, hvotes⟩ : ∃ votes, votes = mapSet (vote.GetHash env)
      ((mapFind (vote.GetHash env)
        mnpayments.mapMasternodePaymentVotesPrimary).getD vote).MarkAsNotVerified
      mnpayments.mapMasternodePaymentVotesPrimary := ⟨_, rfl⟩
  refine ⟨votes, hvotes, ?_⟩
  unfold CMasternodePayments.ProcessMessage
  by_cases h1 : env.fLiteMode = true
  · left; simp [h1]
  by_cases h2 : pfromVersion < env.MIN_MASTERNODE_PAYMENT_PROTO_VERSION
  · left; simp [h1, h2]
  by_cases h3 : env.IsMasternodeListSynced = true
  swap
  · left; simp [h1, h2, h3]
  by_cases h4 : ((mapFind (vote.GetHash env) mnpayments.mapMasternodePaymentVotesPrimary).isSome &&
      ((mapFind (vote.GetHash env)
        mnpayments.mapMasternodePaymentVotesPrimary).getD vote).IsVerified) = true
  · left; simp [h1, h2, h3, h4]
  right
  simp only [h1, h2, h3, h4, Bool.false_eq_true, if_false, Bool.not_true]
  rw [← hvotes]
  by_cases c1 : vote.nBlockHeight <
      mnpayments.nCachedBlockHeight - CMasternodePayments.GetStorageLimit env ∨
      vote.nBlockHeight > mnpayments.nCachedBlockHeight + 20
  · left
    simp only [c1, if_true]
  simp only [c1, if_false]
  cases c2 : (vote.IsValid env mnpayments.nCachedBlockHeight).1 with
  | false =>
    left
    simp only [Bool.not_false, if_true]
  | true =>
    simp only [Bool.not_true, Bool.false_eq_true, if_false]
    cases hinfo : env.GetMasternodeInfo vote.masternodeOutpoint with
    | none => left; rfl
    | some mnInfo =>
      simp only
      cases c3 : (vote.CheckSignature env mnInfo.pubKeyMasternode
          mnpayments.nCachedBlockHeight).1 with
      | false =>
        left
        simp only [Bool.not_false, if_true]
      | true =>
        simp only [Bool.not_true, Bool.false_eq_true, if_false]
        cases c4 : (CMasternodePayments.UpdateLastVote
            { mnpayments with mapMasternodePaymentVotesPrimary := votes } vote).1 with
        | false =>
          left
          simp only [Bool.not_false, if_true]
          exact UpdateLastVote_false _ _ c4
        | true =>
          right
          simp only [Bool.not_true, Bool.false_eq_true, if_false, and_self]

theorem HasVerifiedPaymentVote_placeholder (mnpayments : CMasternodePayments) (nHash : uint256)
    (vote : CMasternodePaymentVote) (votes : List (uint256 × CMasternodePaymentVote))
    (hvotes : votes = mapSet nHash vote.MarkAsNotVerified
      mnpayments.mapMasternodePaymentVotesPrimary) :
    ({ mnpayments with mapMasternodePaymentVotesPrimary := votes }).HasVerifiedPaymentVote nHash =
      false := by
  unfold CMasternodePayments.HasVerifiedPaymentVote
  simp only [hvotes, mapFind_mapSet_self]
  rfl

/-- C18, the claim as stated fails: the handler accepts the vote of X for height
1001 and then the vote of X for height 1000; both are verified votes of the
store, and the last-vote record of X is 1000, which is below 1001. -/
theorem ProcessMessage_last_vote_below_stored_height :
    (CMasternodePayments.ProcessMessage scenarioEnv
        (CMasternodePayments.ProcessMessage scenarioEnv (CMasternodePayments.empty 990) 70000
          voteOther).1 70000 voteFirst).1.mapMasternodePaymentVotesPrimary =
        [(10001, voteFirst), (10012, voteOther)] ∧
      voteFirst.IsVerified = true ∧ voteOther.IsVerified = true ∧
      voteFirst.masternodeOutpoint = voterX ∧ voteOther.masternodeOutpoint = voterX ∧
      voteFirst.nBlockHeight = 1000 ∧ voteOther.nBlockHeight = 1001 ∧
      mapFind voterX (CMasternodePayments.ProcessMessage scenarioEnv
        (CMasternodePayments.ProcessMessage scenarioEnv (CMasternodePayments.empty 990) 70000
          voteOther).1 70000 voteFirst).1.mapMasternodesLastVote = some 1000 := by
  decide

/-- C18, amended: when the primary vote handler accepts a vote into the vote store
(the vote is verified in the store after the call and was not before), the
last-vote record of its voter equals the height of that vote right after the
call; the record follows the order of arrival and is not the largest height
voted for. -/
theorem ProcessMessage_records_last_vote (env : NodeEnv) (mnpayments : CMasternodePayments)
    (pfromVersion : Int) (vote : CMasternodePaymentVote)
    (hbefore : mnpayments.HasVerifiedPaymentVote (vote.GetHash env) = false)
    (hafter : (CMasternodePayments.ProcessMessage env mnpayments pfromVersion
      vote).1.HasVerifiedPaymentVote (vote.GetHash env) = true) :
    mapFind vote.masternodeOutpoint (CMasternodePayments.ProcessMessage env mnpayments
      pfromVersion vote).1.mapMasternodesLastVote = some vote.nBlockHeight := by
  obtain ⟨votes, hvotes, h | h | ⟨hlast, h⟩⟩ := ProcessMessage_cases env mnpayments pfromVersion vote
  · rw [h, hbefore] at hafter
    exact absurd hafter (by decide)
  · rw [h, HasVerifiedPaymentVote_placeholder mnpayments _ _ votes hvotes] at hafter
    exact absurd hafter (by decide)
  · rw [h, AddOrUpdatePaymentVote_last]
    exact UpdateLastVote_true _ vote hlast

/-- Instance of the amended C18: the handler accepts the vote of X for height 1000
on the empty engine and records 1000 as the last vote height of X. -/
theorem ProcessMessage_records_last_vote_witness :
    (CMasternodePayments.empty 990).HasVerifiedPaymentVote (voteFirst.GetHash scenarioEnv) =
        false ∧
      mapFind voteFirst.masternodeOutpoint (CMasternodePayments.ProcessMessage scenarioEnv
        (CMasternodePayments.empty 990) 70000 voteFirst).1.mapMasternodesLastVote =
        some voteFirst.nBlockHeight :=
  ⟨by decide, ProcessMessage_records_last_vote scenarioEnv (CMasternodePayments.empty 990) 70000
    voteFirst (by decide) (by decide)⟩

/-! ## Consistency of the vote store and the tallies -/

theorem mem_mapInsert {κ ν : Type} [LT κ] [DecidableRel (fun a b : κ => a < b)]
    (k : κ) (v : ν) (e : κ × ν) :
    ∀ m : List (κ × ν), e ∈ mapInsert k v m ↔ e = (k, v) ∨ e ∈ m := by
  intro m
  induction m with
  | nil => simp [mapInsert]
  | cons x rest ih =>
    obtain ⟨k', v'⟩ := x
    rw [mapInsert]
    split
    · simp
    · simp only [List.mem_cons, ih]
      tauto

theorem mem_mapReplace {κ ν : Type} [DecidableEq κ] (k : κ) (v : ν) (e : κ × ν) :
    ∀ m : List (κ × ν), e ∈ mapReplace k v m → e = (k, v) ∨ e ∈ m := by
  intro m
  induction m with
  | nil => simp [mapReplace]
  | cons x rest ih =>
    obtain ⟨k', v'⟩ := x
    rw [mapReplace]
    split
    · simp only [List.mem_cons]
      tauto
    · simp only [List.mem_cons]
      intro h
      rcases h with h | h
      · exact Or.inr (Or.inl h)
      · rcases ih h with h | h
        · exact Or.inl h
        · exact Or.inr (Or.inr h)

theorem mem_mapReplace_of_ne {κ ν : Type} [DecidableEq κ] (k : κ) (v : ν) (e : κ × ν)
    (hne : e.1 ≠ k) : ∀ m : List (κ × ν), e ∈ m → e ∈ mapReplace k v m := by
  intro m
  induction m with
  | nil => simp
  | cons x rest ih =>
    obtain ⟨k', v'⟩ := x
    rw [mapReplace]
    intro h
    rcases List.mem_cons.1 h with h | h
    · subst h
      have : ¬ k' = k := hne
      simp [this]
    · split
      · exact List.mem_cons_of_mem _ h
      · exact List.mem_cons_of_mem _ (ih h)

theorem mem_mapReplace_self {κ ν : Type} [DecidableEq κ] (k : κ) (v : ν) :
    ∀ m : List (κ × ν), (mapFind k m).isSome = true → (k, v) ∈ mapReplace k v m := by
  intro m
  induction m with
  | nil => intro h; simp [mapFind] at h
  | cons x rest ih =>
    obtain ⟨k', v'⟩ := x
    intro h
    rw [mapFind] at h
    rw [mapReplace]
    by_cases hk : k' = k
    · simp [hk]
    · simp only [hk, if_false] at h ⊢
      exact List.mem_cons_of_mem _ (ih h)

theorem mem_mapSet {κ ν : Type} [DecidableEq κ] [LT κ] [DecidableRel (fun a b : κ => a < b)]
    (k : κ) (v : ν) (e : κ × ν) (m : List (κ × ν)) (h : e ∈ mapSet k v m) :
    e = (k, v) ∨ e ∈ m := by
  unfold mapSet at h
  split at h
  · exact mem_mapReplace k v e m h
  · exact (mem_mapInsert k v e m).1 h

theorem mem_mapSet_self {κ ν : Type} [DecidableEq κ] [LT κ]
    [DecidableRel (fun a b : κ => a < b)] (k : κ) (v : ν) (m : List (κ × ν)) :
    (k, v) ∈ mapSet k v m := by
  unfold mapSet
  split
  · rename_i h
    exact mem_mapReplace_self k v m h
  · exact (mem_mapInsert k v _ m).2 (Or.inl rfl)

theorem mem_mapSet_of_ne {κ ν : Type} [DecidableEq κ] [LT κ]
    [DecidableRel (fun a b : κ => a < b)] (k : κ) (v : ν) (e : κ × ν) (m : List (κ × ν))
    (hne : e.1 ≠ k) (h : e ∈ m) : e ∈ mapSet k v m := by
  unfold mapSet
  split
  · exact mem_mapReplace_of_ne k v e hne m h
  · exact (mem_mapInsert k v e m).2 (Or.inr h)

theorem mem_mapEmplace {κ ν : Type} [DecidableEq κ] [LT κ]
    [DecidableRel (fun a b : κ => a < b)] (k : κ) (v : ν) (e : κ × ν) (m : List (κ × ν))
    (h : e ∈ mapEmplace k v m) : e = (k, v) ∨ e ∈ m := by
  unfold mapEmplace at h
  split at h
  · exact Or.inr h
  · exact (mem_mapInsert k v e m).1 h

theorem mapFind_mem {κ ν : Type} [DecidableEq κ] (k : κ) (v : ν) :
    ∀ m : List (κ × ν), mapFind k m = some v → (k, v) ∈ m := by
  intro m
  induction m with
  | nil => intro h; simp [mapFind] at h
  | cons x rest ih =>
    obtain ⟨k', v'⟩ := x
    intro h
    rw [mapFind] at h
    by_cases hk : k' = k
    · simp only [hk, if_true, Option.some.injEq] at h
      subst hk h
      exact List.mem_cons_self _ _
    · simp only [hk, if_false] at h
      exact List.mem_cons_of_mem _ (ih h)

theorem mapFind_isSome_of_mem {κ ν : Type} [DecidableEq κ] (k : κ) (v : ν) :
    ∀ m : List (κ × ν), (k, v) ∈ m → (mapFind k m).isSome = true := by
  intro m
  induction m with
  | nil => intro h; simp at h
  | cons x rest ih =>
    obtain ⟨k', v'⟩ := x
    intro h
    rw [mapFind]
    by_cases hk : k' = k
    · simp [hk]
    · simp only [hk, if_false]
      rcases List.mem_cons.1 h with h | h
      · rw [Prod.mk.injEq] at h
        exact absurd h.1.symm hk
      · exact ih h

theorem mapFind_filter_all {κ ν : Type} [DecidableEq κ] (keep : κ × ν → Bool) (k : κ) :
    ∀ m : List (κ × ν), (∀ e ∈ m, e.1 = k → keep e = true) →
      mapFind k (m.filter keep) = mapFind k m := by
  intro m
  induction m with
  | nil => intro _; rfl
  | cons x rest ih =>
    obtain ⟨k', v'⟩ := x
    intro h
    have hrest := ih (fun e he => h e (List.mem_cons_of_mem _ he))
    by_cases hk : k' = k
    · have := h (k', v') (List.mem_cons_self _ _) hk
      rw [List.filter_cons_of_pos this]
      simp [mapFind, hk]
    · rw [List.filter_cons]
      split
      · simp [mapFind, hk, hrest]
      · simp [mapFind, hk, hrest]

theorem checkLoop_blocks (nCachedBlockHeight nLimit : Int) :
    ∀ (votes : List (uint256 × CMasternodePaymentVote))
      (blocks : List (Int × CMasternodeBlockPayees)),
      (CMasternodePayments.checkLoop nCachedBlockHeight nLimit votes blocks).2 =
        blocks.filter (fun b => !votes.any (fun e =>
          decide (int32 (nCachedBlockHeight - e.2.nBlockHeight) > nLimit) &&
            decide (e.2.nBlockHeight = b.1))) := by
  intro votes
  induction votes with
  | nil => intro blocks; simp [CMasternodePayments.checkLoop]
  | cons e rest ih =>
    intro blocks
    obtain ⟨first, vote⟩ := e
    rw [CMasternodePayments.checkLoop]
    by_cases h : int32 (nCachedBlockHeight - vote.nBlockHeight) > nLimit
    · rw [if_pos h, ih, mapErase, List.filter_filter]
      apply List.filter_congr
      intro b _
      by_cases hb : vote.nBlockHeight = b.1
      · have hb' : ¬ b.1 ≠ vote.nBlockHeight := fun hne => hne hb.symm
        rw [← hb] at hb' ⊢
        simp [h]
      · have hb' : b.1 ≠ vote.nBlockHeight := fun heq => hb heq.symm
        simp [h, hb, hb']
    · rw [if_neg h]
      show (CMasternodePayments.checkLoop nCachedBlockHeight nLimit rest blocks).2 = _
      rw [ih]
      apply List.filter_congr
      intro b _
      simp [h]

theorem addLoop_mem_new (payeeIn : CScript) (nVoteHash : uint256) :
    ∀ l : List CMasternodePayee, ∃ e ∈ CMasternodeBlockPayees.addLoop payeeIn nVoteHash l,
      e.GetPayee = payeeIn ∧ nVoteHash ∈ e.vecVoteHashes := by
  intro l
  induction l with
  | nil => exact ⟨⟨payeeIn, [nVoteHash]⟩, by simp [CMasternodeBlockPayees.addLoop], rfl, by simp⟩
  | cons x xs ih =>
    rw [CMasternodeBlockPayees.addLoop]
    by_cases hx : x.GetPayee = payeeIn
    · rw [if_pos hx]
      exact ⟨x.AddVoteHash nVoteHash, List.mem_cons_self _ _, hx,
        by simp [CMasternodePayee.AddVoteHash]⟩
    · rw [if_neg hx]
      obtain ⟨e, he, h1, h2⟩ := ih
      exact ⟨e, List.mem_cons_of_mem _ he, h1, h2⟩

theorem addLoop_mem_old (payeeIn : CScript) (nVoteHash : uint256) (e : CMasternodePayee)
    (x : uint256) (hx : x ∈ e.vecVoteHashes) :
    ∀ l : List CMasternodePayee, e ∈ l →
      ∃ e' ∈ CMasternodeBlockPayees.addLoop payeeIn nVoteHash l,
        e'.GetPayee = e.GetPayee ∧ x ∈ e'.vecVoteHashes := by
  intro l
  induction l with
  | nil => intro h; simp at h
  | cons y ys ih =>
    intro h
    rw [CMasternodeBlockPayees.addLoop]
    by_cases hy : y.GetPayee = payeeIn
    · rw [if_pos hy]
      rcases List.mem_cons.1 h with h | h
      · subst h
        exact ⟨e.AddVoteHash nVoteHash, List.mem_cons_self _ _, rfl,
          by simp [CMasternodePayee.AddVoteHash, hx]⟩
      · exact ⟨e, List.mem_cons_of_mem _ h, rfl, hx⟩
    · rw [if_neg hy]
      rcases List.mem_cons.1 h with h | h
      · subst h
        exact ⟨e, List.mem_cons_self _ _, rfl, hx⟩
      · obtain ⟨e', he', h1, h2⟩ := ih h
        exact ⟨e', List.mem_cons_of_mem _ he', h1, h2⟩

theorem addLoop_hashes (payeeIn : CScript) (nVoteHash : uint256) (x : uint256) :
    ∀ (l : List CMasternodePayee) (e' : CMasternodePayee),
      e' ∈ CMasternodeBlockPayees.addLoop payeeIn nVoteHash l → x ∈ e'.vecVoteHashes →
      x = nVoteHash ∨ ∃ e ∈ l, x ∈ e.vecVoteHashes := by
  intro l
  induction l with
  | nil =>
    intro e' he' hx
    simp only [CMasternodeBlockPayees.addLoop, List.mem_singleton] at he'
    subst he'
    simp only [List.mem_singleton] at hx
    exact Or.inl hx
  | cons y ys ih =>
    intro e' he' hx
    rw [CMasternodeBlockPayees.addLoop] at he'
    by_cases hy : y.GetPayee = payeeIn
    · rw [if_pos hy] at he'
      rcases List.mem_cons.1 he' with h | h
      · subst h
        simp only [CMasternodePayee.AddVoteHash, List.mem_append, List.mem_singleton] at hx
        rcases hx with hx | hx
        · exact Or.inr ⟨y, List.mem_cons_self _ _, hx⟩
        · exact Or.inl hx
      · exact Or.inr ⟨e', List.mem_cons_of_mem _ h, hx⟩
    · rw [if_neg hy] at he'
      rcases List.mem_cons.1 he' with h | h
      · subst h
        exact Or.inr ⟨e', List.mem_cons_self _ _, hx⟩
      · rcases ih e' h hx with h' | ⟨e, he, h'⟩
        · exact Or.inl h'
        · exact Or.inr ⟨e, List.mem_cons_of_mem _ he, h'⟩

theorem AddOrUpdatePaymentVote_eq (env : NodeEnv) (mnpayments : CMasternodePayments)
    (vote : CMasternodePaymentVote) :
    (CMasternodePayments.AddOrUpdatePaymentVote env mnpayments vote).2 = mnpayments ∨
      ((CMasternodePayments.AddOrUpdatePaymentVote env mnpayments
          vote).2.mapMasternodePaymentVotesPrimary =
          mapSet (vote.GetHash env) vote mnpayments.mapMasternodePaymentVotesPrimary ∧
        (CMasternodePayments.AddOrUpdatePaymentVote env mnpayments
          vote).2.mapMasternodeBlocksPrimary =
          mapSet vote.nBlockHeight
            (((mapFind vote.nBlockHeight mnpayments.mapMasternodeBlocksPrimary).getD
              ⟨vote.nBlockHeight, []⟩).AddPayee env vote)
            (mapEmplace vote.nBlockHeight (⟨vote.nBlockHeight, []⟩ : CMasternodeBlockPayees)
              mnpayments.mapMasternodeBlocksPrimary)) := by
  unfold CMasternodePayments.AddOrUpdatePaymentVote
  split
  · left; rfl
  · simp only
    split
    · left; rfl
    · right
      simp only [mapFind_mapEmplace_self, and_self]

/-- A call of `AddOrUpdatePaymentVote` keeps the store and the tallies consistent:
every stored vote sits under its own hash, is listed in the tally of its height
under its payee, and every listed hash belongs to a stored vote of that
height. -/
theorem AddOrUpdatePaymentVote_consistent (env : NodeEnv)
    (hhash : ∀ (p : CScript) (h : Int) (o : COutPoint) (p' : CScript) (h' : Int) (o' : COutPoint),
      env.HashWriter p h o = env.HashWriter p' h' o' → h = h')
    (mnpayments : CMasternodePayments) (vote : CMasternodePaymentVote)
    (h1 : ∀ e ∈ mnpayments.mapMasternodePaymentVotesPrimary, e.2.GetHash env = e.1)
    (h2 : ∀ e ∈ mnpayments.mapMasternodePaymentVotesPrimary,
      ∃ t, mapFind e.2.nBlockHeight mnpayments.mapMasternodeBlocksPrimary = some t ∧
        ∃ p ∈ t.vecPayees, p.GetPayee = e.2.payee ∧ e.1 ∈ p.vecVoteHashes)
    (h3 : ∀ b ∈ mnpayments.mapMasternodeBlocksPrimary, ∀ p ∈ b.2.vecPayees,
      ∀ x ∈ p.vecVoteHashes,
        ∃ v, (x, v) ∈ mnpayments.mapMasternodePaymentVotesPrimary ∧ v.nBlockHeight = b.1) :
    (∀ e ∈ (CMasternodePayments.AddOrUpdatePaymentVote env mnpayments
        vote).2.mapMasternodePaymentVotesPrimary, e.2.GetHash env = e.1) ∧
      (∀ e ∈ (CMasternodePayments.AddOrUpdatePaymentVote env mnpayments
        vote).2.mapMasternodePaymentVotesPrimary,
        ∃ t, mapFind e.2.nBlockHeight (CMasternodePayments.AddOrUpdatePaymentVote env mnpayments
            vote).2.mapMasternodeBlocksPrimary = some t ∧
          ∃ p ∈ t.vecPayees, p.GetPayee = e.2.payee ∧ e.1 ∈ p.vecVoteHashes) ∧
      ∀ b ∈ (CMasternodePayments.AddOrUpdatePaymentVote env mnpayments
        vote).2.mapMasternodeBlocksPrimary, ∀ p ∈ b.2.vecPayees, ∀ x ∈ p.vecVoteHashes,
        ∃ v, (x, v) ∈ (CMasternodePayments.AddOrUpdatePaymentVote env mnpayments
          vote).2.mapMasternodePaymentVotesPrimary ∧ v.nBlockHeight = b.1 := by
  rcases AddOrUpdatePaymentVote_eq env mnpayments vote with heq | ⟨hv, hb⟩
  · rw [heq]
    exact ⟨h1, h2, h3⟩
  rw [hv, hb]
  have transfer : ∀ (x : uint256) (v : CMasternodePaymentVote) (hb0 : Int),
      (x, v) ∈ mnpayments.mapMasternodePaymentVotesPrimary → v.nBlockHeight = hb0 →
      ∃ v2, (x, v2) ∈ mapSet (vote.GetHash env) vote mnpayments.mapMasternodePaymentVotesPrimary ∧
        v2.nBlockHeight = hb0 := by
    intro x v hb0 hmem hh
    by_cases hx : x = vote.GetHash env
    · refine ⟨vote, by rw [hx]; exact mem_mapSet_self _ _ _, ?_⟩
      have hkey : v.GetHash env = vote.GetHash env := by
        rw [← hx]
        exact h1 (x, v) hmem
      rw [← hh]
      exact (hhash _ _ _ _ _ _ hkey).symm
    · exact ⟨v, mem_mapSet_of_ne _ _ (x, v) _ hx hmem, hh⟩
  refine ⟨?_, ?_, ?_⟩
  · intro e he
    rcases mem_mapSet _ _ e _ he with h | h
    · rw [h]
    · exact h1 e h
  · intro e he
    rcases mem_mapSet _ _ e _ he with h | h
    · rw [h]
      refine ⟨_, mapFind_mapSet_self _ _ _, ?_⟩
      exact addLoop_mem_new vote.payee (vote.GetHash env) _
    · obtain ⟨t, ht, p, hp, hpayee, hx⟩ := h2 e h
      by_cases hh : e.2.nBlockHeight = vote.nBlockHeight
      · rw [hh] at ht ⊢
        refine ⟨_, mapFind_mapSet_self _ _ _, ?_⟩
        rw [ht]
        obtain ⟨p', hp', h1', h2'⟩ := addLoop_mem_old vote.payee (vote.GetHash env) p e.1 hx
          t.vecPayees hp
        exact ⟨p', hp', h1'.trans hpayee, h2'⟩
      · refine ⟨t, ?_, p, hp, hpayee, hx⟩
        rw [mapFind_mapSet_ne _ _ _ (fun heq => hh heq.symm),
          mapFind_mapEmplace_ne _ _ _ (fun heq => hh heq.symm)]
        exact ht
  · intro b hbmem p hp x hx
    have hold : ∀ b0 ∈ mnpayments.mapMasternodeBlocksPrimary, ∀ p0 ∈ b0.2.vecPayees,
        x ∈ p0.vecVoteHashes →
        ∃ v, (x, v) ∈ mapSet (vote.GetHash env) vote mnpayments.mapMasternodePaymentVotesPrimary ∧
          v.nBlockHeight = b0.1 := by
      intro b0 hb0 p0 hp0 hx0
      obtain ⟨v, hv1, hv2⟩ := h3 b0 hb0 p0 hp0 x hx0
      exact transfer x v b0.1 hv1 hv2
    rcases mem_mapSet _ _ b _ hbmem with h | h
    · rw [h] at hp ⊢
      rcases addLoop_hashes vote.payee (vote.GetHash env) x _ p hp hx with h' | ⟨p0, hp0, hx0⟩
      · exact ⟨vote, by rw [h']; exact mem_mapSet_self _ _ _, rfl⟩
      · cases hfind : mapFind vote.nBlockHeight mnpayments.mapMasternodeBlocksPrimary with
        | none =>
          rw [hfind] at hp0
          simp at hp0
        | some t =>
          rw [hfind] at hp0
          exact hold (vote.nBlockHeight, t) (mapFind_mem _ _ _ hfind) p0 hp0 hx0
    · rcases mem_mapEmplace _ _ b _ h with h' | h'
      · rw [h'] at hp
        simp at hp
      · exact hold b h' p hp hx

/-- A call of `CheckAndRemove` keeps the store and the tallies consistent. -/
theorem CheckAndRemove_consistent (env : NodeEnv) (mnpayments : CMasternodePayments)
    (h1 : ∀ e ∈ mnpayments.mapMasternodePaymentVotesPrimary, e.2.GetHash env = e.1)
    (h2 : ∀ e ∈ mnpayments.mapMasternodePaymentVotesPrimary,
      ∃ t, mapFind e.2.nBlockHeight mnpayments.mapMasternodeBlocksPrimary = some t ∧
        ∃ p ∈ t.vecPayees, p.GetPayee = e.2.payee ∧ e.1 ∈ p.vecVoteHashes)
    (h3 : ∀ b ∈ mnpayments.mapMasternodeBlocksPrimary, ∀ p ∈ b.2.vecPayees,
      ∀ x ∈ p.vecVoteHashes,
        ∃ v, (x, v) ∈ mnpayments.mapMasternodePaymentVotesPrimary ∧ v.nBlockHeight = b.1) :
    (∀ e ∈ (mnpayments.CheckAndRemove env).mapMasternodePaymentVotesPrimary,
        e.2.GetHash env = e.1) ∧
      (∀ e ∈ (mnpayments.CheckAndRemove env).mapMasternodePaymentVotesPrimary,
        ∃ t, mapFind e.2.nBlockHeight (mnpayments.CheckAndRemove env).mapMasternodeBlocksPrimary =
            some t ∧
          ∃ p ∈ t.vecPayees, p.GetPayee = e.2.payee ∧ e.1 ∈ p.vecVoteHashes) ∧
      ∀ b ∈ (mnpayments.CheckAndRemove env).mapMasternodeBlocksPrimary, ∀ p ∈ b.2.vecPayees,
        ∀ x ∈ p.vecVoteHashes,
        ∃ v, (x, v) ∈ (mnpayments.CheckAndRemove env).mapMasternodePaymentVotesPrimary ∧
          v.nBlockHeight = b.1 := by
  unfold CMasternodePayments.CheckAndRemove
  cases hs : env.IsBlockchainSynced with
  | false => exact ⟨h1, h2, h3⟩
  | true =>
    simp only [Bool.not_true, Bool.false_eq_true, if_false, checkLoop_votes, checkLoop_blocks]
    refine ⟨?_, ?_, ?_⟩
    · intro e he
      exact h1 e (List.mem_filter.1 he).1
    · intro e he
      obtain ⟨hmem, hkeep⟩ := List.mem_filter.1 he
      simp only [gt_iff_lt, not_lt, decide_eq_true_eq] at hkeep
      obtain ⟨t, ht, hp⟩ := h2 e hmem
      refine ⟨t, ?_, hp⟩
      rw [mapFind_filter_all _ _ _ ?_]
      · exact ht
      · intro b _ hb
        simp only [Bool.not_eq_true', List.any_eq_false, Bool.and_eq_true, decide_eq_true_eq,
          not_and]
        intro e' _ hold heq
        have hsame : e'.2.nBlockHeight = e.2.nBlockHeight := by omega
        rw [hsame] at hold
        omega
    · intro b hb p hp x hx
      obtain ⟨hmem, hkeep⟩ := List.mem_filter.1 hb
      obtain ⟨v, hv1, hv2⟩ := h3 b hmem p hp x hx
      refine ⟨v, List.mem_filter.2 ⟨hv1, ?_⟩, hv2⟩
      simp only [Bool.not_eq_true', List.any_eq_false, Bool.and_eq_true, decide_eq_true_eq,
        not_and] at hkeep
      have hk : int32 (mnpayments.nCachedBlockHeight - v.nBlockHeight) >
          CMasternodePayments.GetStorageLimit env → v.nBlockHeight = b.1 → False :=
        hkeep (x, v) hv1
      simp only [gt_iff_lt, not_lt, decide_eq_true_eq]
      by_contra hcon
      exact hk (by omega) hv2

/-- C17: on a node whose vote digest determines the height of the vote (no two
votes for different heights share a hash), starting from the empty engine,
after any sequence of `AddOrUpdatePaymentVote` and `CheckAndRemove` calls (and
changes of the cached tip), every vote of the store has its hash listed in the
entry for its payee in the tally of its height, and every hash listed in a
tally entry is a key of the vote store. -/
theorem votes_and_tallies_consistent (env : NodeEnv)
    (hhash : ∀ (p : CScript) (h : Int) (o : COutPoint) (p' : CScript) (h' : Int) (o' : COutPoint),
      env.HashWriter p h o = env.HashWriter p' h' o' → h = h')
    (nCachedBlockHeight : Int) (calls : List EngineCall) :
    (∀ (nHash : uint256) (vote : CMasternodePaymentVote),
      mapFind nHash (EngineCall.run env (CMasternodePayments.empty nCachedBlockHeight)
        calls).mapMasternodePaymentVotesPrimary = some vote →
      ∃ t, mapFind vote.nBlockHeight (EngineCall.run env
          (CMasternodePayments.empty nCachedBlockHeight) calls).mapMasternodeBlocksPrimary =
          some t ∧
        ∃ payee ∈ t.vecPayees, payee.GetPayee = vote.payee ∧
          vote.GetHash env ∈ payee.vecVoteHashes) ∧
      ∀ (nHeight : Int) (t : CMasternodeBlockPayees) (payee : CMasternodePayee) (nHash : uint256),
        mapFind nHeight (EngineCall.run env (CMasternodePayments.empty nCachedBlockHeight)
          calls).mapMasternodeBlocksPrimary = some t →
        payee ∈ t.vecPayees → nHash ∈ payee.vecVoteHashes →
        (mapFind nHash (EngineCall.run env (CMasternodePayments.empty nCachedBlockHeight)
          calls).mapMasternodePaymentVotesPrimary).isSome = true := by
  have hgen : ∀ (calls : List EngineCall) (mnpayments : CMasternodePayments),
      ((∀ e ∈ mnpayments.mapMasternodePaymentVotesPrimary, e.2.GetHash env = e.1) ∧
        (∀ e ∈ mnpayments.mapMasternodePaymentVotesPrimary,
          ∃ t, mapFind e.2.nBlockHeight mnpayments.mapMasternodeBlocksPrimary = some t ∧
            ∃ p ∈ t.vecPayees, p.GetPayee = e.2.payee ∧ e.1 ∈ p.vecVoteHashes) ∧
        ∀ b ∈ mnpayments.mapMasternodeBlocksPrimary, ∀ p ∈ b.2.vecPayees,
          ∀ x ∈ p.vecVoteHashes,
            ∃ v, (x, v) ∈ mnpayments.mapMasternodePaymentVotesPrimary ∧ v.nBlockHeight = b.1) →
      ((∀ e ∈ (EngineCall.run env mnpayments calls).mapMasternodePaymentVotesPrimary,
          e.2.GetHash env = e.1) ∧
        (∀ e ∈ (EngineCall.run env mnpayments calls).mapMasternodePaymentVotesPrimary,
          ∃ t, mapFind e.2.nBlockHeight
              (EngineCall.run env mnpayments calls).mapMasternodeBlocksPrimary = some t ∧
            ∃ p ∈ t.vecPayees, p.GetPayee = e.2.payee ∧ e.1 ∈ p.vecVoteHashes) ∧
        ∀ b ∈ (EngineCall.run env mnpayments calls).mapMasternodeBlocksPrimary,
          ∀ p ∈ b.2.vecPayees, ∀ x ∈ p.vecVoteHashes,
            ∃ v, (x, v) ∈ (EngineCall.run env mnpayments calls).mapMasternodePaymentVotesPrimary ∧
              v.nBlockHeight = b.1) := by
    intro calls
    induction calls with
    | nil => intro mnpayments h; exact h
    | cons call rest ih =>
      intro mnpayments h
      have hstep : EngineCall.run env mnpayments (call :: rest) =
          EngineCall.run env (EngineCall.apply env mnpayments call) rest := rfl
      rw [hstep]
      apply ih
      cases call with
      | AddOrUpdatePaymentVote vote =>
        exact AddOrUpdatePaymentVote_consistent env hhash mnpayments vote h.1 h.2.1 h.2.2
      | CheckAndRemove => exact CheckAndRemove_consistent env mnpayments h.1 h.2.1 h.2.2
      | setCachedBlockHeight nHeight => exact h
  obtain ⟨g1, g2, g3⟩ := hgen calls (CMasternodePayments.empty nCachedBlockHeight)
    ⟨by simp [CMasternodePayments.empty], by simp [CMasternodePayments.empty],
      by simp [CMasternodePayments.empty]⟩
  constructor
  · intro nHash vote hfind
    have hmem := mapFind_mem _ _ _ hfind
    obtain ⟨t, ht, p, hp, hpayee, hx⟩ := g2 (nHash, vote) hmem
    have hkey := g1 (nHash, vote) hmem
    exact ⟨t, ht, p, hp, hpayee, by rw [hkey]; exact hx⟩
  · intro nHeight t payee nHash hfind hp hx
    obtain ⟨v, hv, _⟩ := g3 (nHeight, t) (mapFind_mem _ _ _ hfind) payee hp nHash hx
    exact mapFind_isSome_of_mem _ _ _ hv

/-- Instance of C17 for a vote digest that encodes the height: the engine after
the vote of X for height 1000 was added, the cached tip moved to 9000 and a
pruning pass ran. -/
theorem votes_and_tallies_consistent_witness :
    (∀ (p : CScript) (h : Int) (o : COutPoint) (p' : CScript) (h' : Int) (o' : COutPoint),
      heightHashEnv.HashWriter p h o = heightHashEnv.HashWriter p' h' o' → h = h') ∧
      ∀ (nHeight : Int) (t : CMasternodeBlockPayees) (payee : CMasternodePayee) (nHash : uint256),
        mapFind nHeight (EngineCall.run heightHashEnv (CMasternodePayments.empty 990)
          [EngineCall.AddOrUpdatePaymentVote voteFirst, EngineCall.setCachedBlockHeight 9000,
            EngineCall.CheckAndRemove]).mapMasternodeBlocksPrimary = some t →
        payee ∈ t.vecPayees → nHash ∈ payee.vecVoteHashes →
        (mapFind nHash (EngineCall.run heightHashEnv (CMasternodePayments.empty 990)
          [EngineCall.AddOrUpdatePaymentVote voteFirst, EngineCall.setCachedBlockHeight 9000,
            EngineCall.CheckAndRemove]).mapMasternodePaymentVotesPrimary).isSome = true :=
  ⟨fun _ _ _ _ _ _ heq => Encodable.encode_injective heq,
    (votes_and_tallies_consistent heightHashEnv
      (fun _ _ _ _ _ _ heq => Encodable.encode_injective heq) 990
      [EngineCall.AddOrUpdatePaymentVote voteFirst, EngineCall.setCachedBlockHeight 9000,
        EngineCall.CheckAndRemove]).2⟩

/-! ## Parsing amounts and schedules -/

theorem isDigit_bounds (c : Char) (h : c.isDigit = true) : 48 ≤ c.toNat ∧ c.toNat ≤ 57 := by
  simp only [Char.isDigit, Bool.and_eq_true, decide_eq_true_eq] at h
  obtain ⟨h1, h2⟩ := h
  have h1' : (48 : UInt32).toNat ≤ c.val.toNat := h1
  have h2' : c.val.toNat ≤ (57 : UInt32).toNat := h2
  exact ⟨h1', h2'⟩

theorem isDigit_mem (c : Char) (h : c.isDigit = true) :
    c ∈ ['0', '1', '2', '3', '4', '5', '6', '7', '8', '9', '.'] := by
  obtain ⟨h1, h2⟩ := isDigit_bounds c h
  have hc : c = Char.ofNat c.toNat := (Char.ofNat_toNat c).symm
  rw [hc]
  generalize c.toNat = n at h1 h2
  interval_cases n <;> decide

theorem isDigit_ne_dot (c : Char) (h : c.isDigit = true) : c ≠ '.' := by
  intro hc
  subst hc
  exact absurd h (by decide)

theorem stdFindFirstNotOf_none (s chars : List Char) (h : ∀ c ∈ s, c ∈ chars) :
    stdFindFirstNotOf s chars = none := by
  unfold stdFindFirstNotOf
  have hidx : s.findIdx (fun c => !chars.contains c) = s.length := by
    rw [List.findIdx_eq_length]
    intro c hc
    simpa using h c hc
  simp only [hidx, lt_self_iff_false, if_false]

theorem stdFindFrom_dot_none :
    ∀ (l : List Char) (i : Nat), (∀ c ∈ l, c ≠ '.') → stdFindFrom ['.'] l i = none := by
  intro l
  induction l with
  | nil => intro i _; simp [stdFindFrom]
  | cons c rest ih =>
    intro i h
    rw [stdFindFrom]
    have hc : c ≠ '.' := h c (List.mem_cons_self _ _)
    simp only [List.length_singleton, List.take_succ_cons, List.take_zero, List.cons.injEq,
      hc, and_true, if_false]
    exact ih (i + 1) (fun d hd => h d (List.mem_cons_of_mem _ hd))

theorem stdFindFrom_dot_some (post : List Char) :
    ∀ (pre : List Char) (i : Nat), (∀ c ∈ pre, c ≠ '.') →
      stdFindFrom ['.'] (pre ++ '.' :: post) i = some (i + pre.length) := by
  intro pre
  induction pre with
  | nil => intro i _; simp [stdFindFrom]
  | cons c rest ih =>
    intro i h
    rw [List.cons_append, stdFindFrom]
    have hc : c ≠ '.' := h c (List.mem_cons_self _ _)
    simp only [List.length_singleton, List.take_succ_cons, List.take_zero, List.cons.injEq,
      hc, and_true, if_false]
    rw [ih (i + 1) (fun d hd => h d (List.mem_cons_of_mem _ hd)), List.length_cons]
    congr 1
    omega

theorem takeWhile_dropWhile_append (p : Char → Bool) :
    ∀ (pre rest : List Char), (∀ c ∈ pre, p c = true) →
      (∀ a t, rest = a :: t → p a = false) →
      (pre ++ rest).takeWhile p = pre ∧ (pre ++ rest).dropWhile p = rest := by
  intro pre
  induction pre with
  | nil =>
    intro rest _ hr
    cases rest with
    | nil => simp
    | cons a t => simp [List.takeWhile, List.dropWhile, hr a t rfl]
  | cons c cs ih =>
    intro rest h hr
    have hc := h c (List.mem_cons_self _ _)
    obtain ⟨h1, h2⟩ := ih rest (fun d hd => h d (List.mem_cons_of_mem _ hd)) hr
    simp [List.takeWhile, List.dropWhile, hc, h1, h2]

/-- What a successful `ParseFixedPoint` says about its input. -/
theorem ParseFixedPoint_some (val : List Char) (decimals : Nat) (n : Int)
    (h : ParseFixedPoint val decimals = some n) :
    ∃ ip fp : List Char, ip ≠ [] ∧ (∀ c ∈ ip, c.isDigit = true) ∧ (∀ c ∈ fp, c.isDigit = true) ∧
      (val = ip ∧ fp = [] ∨ val = ip ++ '.' :: fp ∧ fp ≠ []) ∧ fp.length ≤ decimals ∧
      n = (decimalValue (ip ++ fp) : Int) * 10 ^ (decimals - fp.length) := by
  unfold ParseFixedPoint at h
  have hsplit := List.takeWhile_append_dropWhile Char.isDigit val
  have hdig : ∀ c ∈ val.takeWhile Char.isDigit, c.isDigit = true :=
    fun c hc => List.mem_takeWhile_imp hc
  simp only at h
  split_ifs at h with hempty
  have hne : val.takeWhile Char.isDigit ≠ [] := by
    intro he
    rw [he] at hempty
    simp at hempty
  split at h
  · rename_i hrest
    rw [Option.some.injEq] at h
    refine ⟨val.takeWhile Char.isDigit, [], hne, hdig, by simp, Or.inl ⟨?_, rfl⟩, by simp, ?_⟩
    · rw [hrest, List.append_nil] at hsplit
      exact hsplit.symm
    · simp [← h]
  · rename_i c frac hrest
    split_ifs at h with hcond
    obtain ⟨hc, hfrac, hall, hlen⟩ := hcond
    rw [Option.some.injEq] at h
    refine ⟨val.takeWhile Char.isDigit, frac, hne, hdig, ?_, Or.inr ⟨?_, hfrac⟩, hlen, h.symm⟩
    · intro d hd
      exact List.all_eq_true.1 hall d hd
    · rw [hrest, hc] at hsplit
      exact hsplit.symm

/-- `ParseFixedPoint` succeeds on every decimal string with at most `decimals`
fractional digits. -/
theorem ParseFixedPoint_of (decimals : Nat) (ip fp : List Char) (hip : ip ≠ [])
    (hdi : ∀ c ∈ ip, c.isDigit = true) (hdf : ∀ c ∈ fp, c.isDigit = true)
    (hlen : fp.length ≤ decimals) :
    ParseFixedPoint ip decimals = some ((decimalValue ip : Int) * 10 ^ decimals) ∧
      (fp ≠ [] → ParseFixedPoint (ip ++ '.' :: fp) decimals =
        some ((decimalValue (ip ++ fp) : Int) * 10 ^ (decimals - fp.length))) := by
  have hnotempty : ip.isEmpty = false := by
    cases ip with
    | nil => exact absurd rfl hip
    | cons a t => rfl
  constructor
  · obtain ⟨h1, h2⟩ := takeWhile_dropWhile_append Char.isDigit ip [] hdi (by simp)
    rw [List.append_nil] at h1 h2
    unfold ParseFixedPoint
    simp only [h1, h2, hnotempty, Bool.false_eq_true, if_false]
  · intro hfp
    obtain ⟨h1, h2⟩ := takeWhile_dropWhile_append Char.isDigit ip ('.' :: fp) hdi (by
      intro a t h
      rw [List.cons.injEq] at h
      rw [← h.1]
      decide)
    unfold ParseFixedPoint
    have hall : fp.all Char.isDigit = true := List.all_eq_true.2 hdf
    simp only [h1, h2, hnotempty, Bool.false_eq_true, if_false, true_and, hfp, ne_eq,
      not_false_eq_true, hall, hlen, and_self, if_true]

/-- C12: `ParsePaymentAmount` succeeds with result `n` on a string if and only if
the string matches `^[0-9]+(\.[0-9]+)?$` (an integer part `ip` and, after a
point, a fractional part `fp`), has length at most 20, has at most 8 fractional
digits and denotes a value within the money range, and `n` is that value
multiplied by `10 ^ 8`; so `"10.0"` yields 1000000000. In every other case the
result is an error. -/
theorem ParsePaymentAmount_ok_iff (MAX_MONEY : Int) (strAmount : List Char) (n : Int) :
    (ParsePaymentAmount MAX_MONEY strAmount = .ok n ↔
      ∃ ip fp : List Char, ip ≠ [] ∧ (∀ c ∈ ip, c.isDigit = true) ∧
        (∀ c ∈ fp, c.isDigit = true) ∧
        (strAmount = ip ∧ fp = [] ∨ strAmount = ip ++ '.' :: fp ∧ fp ≠ []) ∧
        strAmount.length ≤ 20 ∧ fp.length ≤ 8 ∧
        n = (decimalValue (ip ++ fp) : Int) * 10 ^ (8 - fp.length) ∧ 0 ≤ n ∧ n ≤ MAX_MONEY) ∧
      ((∃ msg, ParsePaymentAmount MAX_MONEY strAmount = .error msg) ↔
        ¬ ∃ m, ParsePaymentAmount MAX_MONEY strAmount = .ok m) ∧
      ParsePaymentAmount 2100000000000000 ['1', '0', '.', '0'] = .ok 1000000000 := by
  refine ⟨⟨?_, ?_⟩, ?_, by rfl⟩
  · intro h
    unfold ParsePaymentAmount at h
    split_ifs at h with c1 c2
    split at h
    · exact absurd h (by simp)
    · simp only at h
      split_ifs at h with c3 c4
      split at h
      · exact absurd h (by simp)
      · rename_i nAmount hparse
        split_ifs at h with c5
        rw [Except.ok.injEq] at h
        subst h
        obtain ⟨ip, fp, hip, hdi, hdf, hform, hlen, hval⟩ := ParseFixedPoint_some _ _ _ hparse
        have hrange : nAmount ≥ 0 ∧ nAmount ≤ MAX_MONEY := by
          simpa [MoneyRange] using c5
        exact ⟨ip, fp, hip, hdi, hdf, hform, by omega, hlen, hval, hrange.1, hrange.2⟩
  · rintro ⟨ip, fp, hip, hdi, hdf, hform, hlen20, hlen8, hval, h0, hmax⟩
    have hparse := ParseFixedPoint_of 8 ip fp hip hdi hdf hlen8
    have hmoney : MoneyRange MAX_MONEY n = true := by
      simp [MoneyRange, h0, hmax]
    have hnotdot : ∀ l : List Char, (∀ c ∈ l, c.isDigit = true) → ∀ c ∈ l, c ≠ '.' :=
      fun l hl c hc => isDigit_ne_dot c (hl c hc)
    have hnotempty : strAmount.isEmpty = false := by
      rcases hform with ⟨h, _⟩ | ⟨h, _⟩
      · rw [h]
        cases ip with
        | nil => exact absurd rfl hip
        | cons a t => rfl
      · rw [h]
        cases ip with
        | nil => exact absurd rfl hip
        | cons a t => rfl
    have hchars : stdFindFirstNotOf strAmount
        ['0', '1', '2', '3', '4', '5', '6', '7', '8', '9', '.'] = none := by
      apply stdFindFirstNotOf_none
      intro c hc
      rcases hform with ⟨h, _⟩ | ⟨h, _⟩
      · rw [h] at hc
        exact isDigit_mem c (hdi c hc)
      · rw [h, List.mem_append, List.mem_cons] at hc
        rcases hc with hc | hc | hc
        · exact isDigit_mem c (hdi c hc)
        · rw [hc]
          decide
        · exact isDigit_mem c (hdf c hc)
    have hlen : ¬ strAmount.length > 20 := by omega
    unfold ParsePaymentAmount
    simp only [hnotempty, Bool.false_eq_true, if_false, hlen, hchars]
    rcases hform with ⟨h, hfp⟩ | ⟨h, hfp⟩
    · have hpos : stdFind strAmount ['.'] 0 = none := by
        unfold stdFind
        simp only [Nat.not_lt_zero, gt_iff_lt, if_false, List.drop_zero]
        rw [h]
        exact stdFindFrom_dot_none ip 0 (hnotdot ip hdi)
      subst hfp
      rw [List.append_nil, List.length_nil, Nat.sub_zero] at hval
      rw [hpos, h, hparse.1]
      simp only [reduceCtorEq, if_false, Option.any_none, Bool.false_eq_true]
      rw [← hval, hmoney]
      rfl
    · have hpos : stdFind strAmount ['.'] 0 = some ip.length := by
        unfold stdFind
        simp only [Nat.not_lt_zero, gt_iff_lt, if_false, List.drop_zero]
        rw [h, stdFindFrom_dot_some fp ip 0 (hnotdot ip hdi), Nat.zero_add]
      have hpos2 : stdFind strAmount ['.'] (ip.length + 1) = none := by
        unfold stdFind
        have hl : ¬ ip.length + 1 > strAmount.length := by
          rw [h]
          simp
        have hdrop : strAmount.drop (ip.length + 1) = fp := by
          rw [h, List.drop_append_eq_append_drop]
          simp
        rw [if_neg hl, hdrop]
        exact stdFindFrom_dot_none fp _ (hnotdot fp hdf)
      have hipl : ip.length ≠ 0 := fun h0 => hip (List.length_eq_zero.1 h0)
      rw [hpos]
      simp only [Option.some.injEq, hipl, if_false, Option.any_some, hpos2, Option.isSome_none,
        Bool.false_eq_true]
      rw [h, hparse.2 hfp]
      simp only
      rw [← hval, hmoney]
      rfl
  · constructor
    · rintro ⟨msg, hmsg⟩ ⟨m, hm⟩
      rw [hmsg] at hm
      exact absurd hm (by simp)
    · intro hno
      cases hres : ParsePaymentAmount MAX_MONEY strAmount with
      | error msg => exact ⟨msg, rfl⟩
      | ok m => exact absurd ⟨m, hres⟩ hno

/-- C13, the claim as stated fails: the address string `A1||A2`, which has an
empty segment between its two bars, and the amount string `10.0|20.0` parse
into the payments to A1 and A2 without an error, because `SplitBy` erases the
empty part. -/
theorem ParsePaymentSchedule_accepts_empty_segment :
    boostSplit ['|'] ['A', '1', '|', '|', 'A', '2'] = [['A', '1'], [], ['A', '2']] ∧
      SplitBy ['A', '1', '|', '|', 'A', '2'] ['|'] = [['A', '1'], ['A', '2']] ∧
      (CGovernanceBlock.ParsePaymentSchedule scenarioCodec ['A', '1', '|', '|', 'A', '2']
        ['1', '0', '.', '0', '|', '2', '0', '.', '0']).toOption =
        some [⟨true, [65, 49], 1000000000⟩, ⟨true, [65, 50], 2000000000⟩] := by
  decide

theorem boostSplit_no_delimiter (delims : List Char) :
    ∀ (s : List Char) (part : List Char), part ∈ boostSplit delims s →
      ∀ c ∈ part, delims.contains c = false := by
  intro s
  induction s with
  | nil =>
    intro part hp c hc
    simp only [boostSplit, List.mem_singleton] at hp
    subst hp
    simp at hc
  | cons a rest ih =>
    intro part hp c hc
    rw [boostSplit] at hp
    cases hsplit : boostSplit delims rest with
    | nil =>
      rw [hsplit] at hp
      simp only [List.mem_singleton] at hp
      subst hp
      simp at hc
    | cons tok toks =>
      rw [hsplit] at hp ih
      simp only at hp
      by_cases ha : delims.contains a = true
      · rw [if_pos ha] at hp
        rcases List.mem_cons.1 hp with h | h
        · subst h
          simp at hc
        · exact ih part h c hc
      · rw [if_neg ha] at hp
        rcases List.mem_cons.1 hp with h | h
        · subst h
          rcases List.mem_cons.1 hc with h' | h'
          · subst h'
            simpa using ha
          · exact ih tok (List.mem_cons_self _ _) c h'
        · exact ih part (List.mem_cons_of_mem _ h) c hc

theorem stdFind_bar (part : List Char) (hpart : ∀ c ∈ part, c ≠ '|') :
    (stdFind ['|'] part 0).isSome = part.isEmpty := by
  cases part with
  | nil => simp [stdFind, stdFindFrom]
  | cons a t =>
    have ha : a ≠ '|' := hpart a (List.mem_cons_self _ _)
    have ha' : ¬ '|' = a := fun h => ha h.symm
    cases t with
    | nil => simp [stdFind, stdFindFrom, ha']
    | cons b u => simp [stdFind, stdFindFrom]

theorem eraseLoop_bar :
    ∀ parts : List (List Char), (∀ part ∈ parts, ∀ c ∈ part, c ≠ '|') →
      SplitBy.eraseLoop ['|'] parts = parts.filter (fun part => !part.isEmpty) := by
  intro parts
  induction parts with
  | nil => intro _; rfl
  | cons part rest ih =>
    intro h
    rw [SplitBy.eraseLoop, stdFind_bar part (h part (List.mem_cons_self _ _)),
      ih (fun q hq => h q (List.mem_cons_of_mem _ hq)), List.filter_cons]
    cases part.isEmpty <;> simp

/-- C13, amended: `CGovernanceBlock::ParsePaymentSchedule` drops empty segments
instead of rejecting them: `SplitBy` returns exactly the non-empty
`|`-delimited segments of a string, in order, and the schedule is parsed from
the non-empty segments of the two strings; an error is raised when their
numbers differ or when there is none. -/
theorem ParsePaymentSchedule_drops_empty_segments (codec : AddressCodec)
    (strPaymentAddresses strPaymentAmounts : List Char) :
    SplitBy strPaymentAddresses ['|'] =
        (boostSplit ['|'] strPaymentAddresses).filter (fun part => !part.isEmpty) ∧
      SplitBy strPaymentAmounts ['|'] =
        (boostSplit ['|'] strPaymentAmounts).filter (fun part => !part.isEmpty) ∧
      CGovernanceBlock.ParsePaymentSchedule codec strPaymentAddresses strPaymentAmounts =
        (if ((boostSplit ['|'] strPaymentAddresses).filter (fun part => !part.isEmpty)).length ≠
            ((boostSplit ['|'] strPaymentAmounts).filter (fun part => !part.isEmpty)).length then
          .error "CGovernanceBlock::ParsePaymentSchedule -- Mismatched payments and amounts"
        else if
            ((boostSplit ['|'] strPaymentAddresses).filter (fun part => !part.isEmpty)).length =
              0 then
          .error "CGovernanceBlock::ParsePaymentSchedule -- Error no payments"
        else CGovernanceBlock.scheduleLoop codec
          ((boostSplit ['|'] strPaymentAddresses).filter (fun part => !part.isEmpty))
          ((boostSplit ['|'] strPaymentAmounts).filter (fun part => !part.isEmpty)) []) := by
  have hsplit : ∀ s : List Char,
      SplitBy s ['|'] = (boostSplit ['|'] s).filter (fun part => !part.isEmpty) := by
    intro s
    unfold SplitBy
    apply eraseLoop_bar
    intro part hp c hc hbar
    have := boostSplit_no_delimiter ['|'] s part hp c hc
    rw [hbar] at this
    exact absurd this (by decide)
  refine ⟨hsplit _, hsplit _, ?_⟩
  unfold CGovernanceBlock.ParsePaymentSchedule
  simp only [hsplit]

/-! ## Serialization, signing and block filling -/

/-- C21: on a network stream (the flag `SER_GETHASH` is not set) whose reads invert
its writes for the member types, reading a vote from the serialization of a
vote `vote` yields `vote` itself in every field, signature included, and leaves
the rest of the stream; the vote read has the hash of `vote`; and `GetHash`
depends only on payee, height and voter, so two votes that differ only in
signature (or activation height) have the same hash. -/
theorem CMasternodePaymentVote_serialization_roundtrip (env : NodeEnv) (s : CDataStream)
    (hnet : s.GetType &&& s.SER_GETHASH = 0)
    (houtpoint : ∀ x rest, s.outpoint.read (s.outpoint.write x ++ rest) = some (x, rest))
    (hint : ∀ x rest, s.int32.read (s.int32.write x ++ rest) = some (x, rest))
    (hscript : ∀ x rest, s.scriptBase.read (s.scriptBase.write x ++ rest) = some (x, rest))
    (hbytes : ∀ x rest, s.bytes.read (s.bytes.write x ++ rest) = some (x, rest))
    (vote target : CMasternodePaymentVote) (rest : List Nat) :
    CMasternodePaymentVote.Unserialize s target (vote.Serialize s ++ rest) = some (vote, rest) ∧
      (∀ read, CMasternodePaymentVote.Unserialize s target (vote.Serialize s ++ rest) =
          some (read, rest) →
        read.masternodeOutpoint = vote.masternodeOutpoint ∧
          read.nBlockHeight = vote.nBlockHeight ∧
          read.activationBlockHeight = vote.activationBlockHeight ∧
          read.payee = vote.payee ∧ read.vchSig = vote.vchSig ∧
          read.GetHash env = vote.GetHash env) ∧
      ∀ a b : CMasternodePaymentVote, a.payee = b.payee → a.nBlockHeight = b.nBlockHeight →
        a.masternodeOutpoint = b.masternodeOutpoint → a.GetHash env = b.GetHash env := by
  have hround : CMasternodePaymentVote.Unserialize s target (vote.Serialize s ++ rest) =
      some (vote, rest) := by
    unfold CMasternodePaymentVote.Unserialize CMasternodePaymentVote.Serialize
    simp only [hnet, if_true, List.append_assoc, houtpoint, hint, hscript, hbytes]
  refine ⟨hround, ?_, ?_⟩
  · intro read hread
    rw [hround] at hread
    simp only [Option.some.injEq, Prod.mk.injEq, and_true] at hread
    subst hread
    exact ⟨rfl, rfl, rfl, rfl, rfl, rfl⟩
  · intro a b h1 h2 h3
    unfold CMasternodePaymentVote.GetHash
    rw [h1, h2, h3]

theorem scenarioStream_int32 (x : Int) (rest : List Nat) :
    scenarioStream.int32.read (scenarioStream.int32.write x ++ rest) = some (x, rest) := by
  simp [scenarioStream]

theorem scenarioStream_bytes (x rest : List Nat) :
    scenarioStream.bytes.read (scenarioStream.bytes.write x ++ rest) = some (x, rest) ∧
      scenarioStream.scriptBase.read (scenarioStream.scriptBase.write x ++ rest) =
        some (x, rest) := by
  simp [scenarioStream]

/-- Instance of C21 on the scenario stream: the vote of X for height 1000 is read
back from its serialization. -/
theorem CMasternodePaymentVote_serialization_roundtrip_witness :
    scenarioStream.GetType &&& scenarioStream.SER_GETHASH = 0 ∧
      CMasternodePaymentVote.Unserialize scenarioStream voteOther
        (voteFirst.Serialize scenarioStream ++ []) = some (voteFirst, []) :=
  ⟨by decide,
    (CMasternodePaymentVote_serialization_roundtrip scenarioEnv scenarioStream (by decide)
      (fun _ _ => rfl) scenarioStream_int32 (fun x rest => (scenarioStream_bytes x rest).2)
      (fun x rest => (scenarioStream_bytes x rest).1) voteFirst voteOther []).1⟩

/-- C26, the claim as stated fails: before the signature-hash threshold, with the
short outpoint name `X` and the script text `A`, the message that `Sign` signs
and `CheckSignature` verifies for a vote for height 1000 is `X1000A`, without
separators, and not `X|1000|A`. -/
theorem CMasternodePaymentVote_strMessage_has_no_separators :
    voteFirst.strMessage legacyEnv = "X1000A" ∧
      voteFirst.strMessage legacyEnv ≠ "X|1000|A" ∧
      (voteFirst.Sign legacyEnv scenarioActive).2.vchSig =
        [88, 49, 48, 48, 48, 65] ∧
      (voteFirst.CheckSignature legacyEnv [] 990).1 =
        legacyEnv.VerifyMessage [] voteFirst.vchSig "X1000A" := by
  decide

/-- C26, amended: before the signature-hash threshold, `Sign` succeeds exactly when
the message signer signs, and the message check accepts, the string made of the
short outpoint name, the decimal height and the script text joined without any
separator, and `CheckSignature` accepts a vote exactly when the message check
accepts its signature for that same string. -/
theorem CMasternodePaymentVote_legacy_message (env : NodeEnv)
    (activeMasternode : CActiveMasternode) (vote : CMasternodePaymentVote)
    (pubKeyMasternode : List Nat) (nValidationHeight : Int)
    (hlegacy : ¬ env.chainActiveHeight > env.nMasternodeSignHashThreshold) :
    vote.strMessage env = env.ToStringShort vote.masternodeOutpoint ++
        toString vote.nBlockHeight ++ env.ScriptToAsmStr vote.payee ∧
      ((vote.Sign env activeMasternode).1 = true ↔
        ∃ vchSig, activeMasternode.SignMessage (env.ToStringShort vote.masternodeOutpoint ++
            toString vote.nBlockHeight ++ env.ScriptToAsmStr vote.payee)
            activeMasternode.keyMasternode = some vchSig ∧
          (vote.Sign env activeMasternode).2.vchSig = vchSig ∧
          env.VerifyMessage activeMasternode.pubKeyMasternode vchSig
            (env.ToStringShort vote.masternodeOutpoint ++ toString vote.nBlockHeight ++
              env.ScriptToAsmStr vote.payee) = true) ∧
      (vote.CheckSignature env pubKeyMasternode nValidationHeight).1 =
        env.VerifyMessage pubKeyMasternode vote.vchSig
          (env.ToStringShort vote.masternodeOutpoint ++ toString vote.nBlockHeight ++
            env.ScriptToAsmStr vote.payee) := by
  refine ⟨rfl, ?_, ?_⟩
  · unfold CMasternodePaymentVote.Sign
    rw [if_neg hlegacy]
    simp only
    cases hsign : activeMasternode.SignMessage (env.ToStringShort vote.masternodeOutpoint ++
        toString vote.nBlockHeight ++ env.ScriptToAsmStr vote.payee)
        activeMasternode.keyMasternode with
    | none => simp
    | some vchSig =>
      simp only [Option.some.injEq]
      cases hver : env.VerifyMessage activeMasternode.pubKeyMasternode vchSig
          (env.ToStringShort vote.masternodeOutpoint ++ toString vote.nBlockHeight ++
            env.ScriptToAsmStr vote.payee) with
      | false =>
        simp only [Bool.not_false, if_true, Bool.false_eq_true, false_iff, not_exists, not_and]
        intro x hx _
        rw [← hx, hver]
        simp
      | true =>
        simp only [Bool.not_true, Bool.false_eq_true, if_false, true_iff]
        exact ⟨vchSig, rfl, rfl, hver⟩
  · unfold CMasternodePaymentVote.CheckSignature
    rw [if_neg hlegacy]
    unfold CMasternodePaymentVote.strMessage
    cases hver : env.VerifyMessage pubKeyMasternode vote.vchSig
        (env.ToStringShort vote.masternodeOutpoint ++ toString vote.nBlockHeight ++
          env.ScriptToAsmStr vote.payee) with
    | false =>
      simp only [Bool.not_false, if_true]
      split <;> rfl
    | true => simp

/-- Instance of the amended C26 on the node before the threshold: the vote of X
for height 1000 is checked against the message `X1000A`. -/
theorem CMasternodePaymentVote_legacy_message_witness :
    ¬ legacyEnv.chainActiveHeight > legacyEnv.nMasternodeSignHashThreshold ∧
      (voteFirst.CheckSignature legacyEnv [] 990).1 =
        legacyEnv.VerifyMessage [] voteFirst.vchSig
          (legacyEnv.ToStringShort voteFirst.masternodeOutpoint ++
            toString voteFirst.nBlockHeight ++ legacyEnv.ScriptToAsmStr voteFirst.payee) :=
  ⟨by decide,
    (CMasternodePaymentVote_legacy_message legacyEnv scenarioActive voteFirst [] 990
      (by decide)).2.2⟩

/-! ## Rank of the voter -/

/-- C25, the claim as stated fails: with the voter at rank 15, a vote for the
future height 1000 seen at height 990 is rejected without any misbehaviour
score, and on a node that is not a masternode a vote for the historic height
1000 seen at height 1010 is accepted. -/
theorem CMasternodePaymentVote_IsValid_rank_15 :
    rank15Env.GetMasternodeRank voteFirst.masternodeOutpoint (voteFirst.nBlockHeight - 101)
        rank15Env.MIN_MASTERNODE_PAYMENT_PROTO_VERSION = some 15 ∧
      voteFirst.IsValid rank15Env 990 = (false, 0) ∧
      voteFirst.IsValid rank15Env 1010 = (true, 0) := by
  decide

/-- C25, amended: for a vote of a known masternode with a recent enough protocol
whose rank, seeded at vote height - 101, is above 10: a vote for a future
height (above the validation height) is rejected, and the sending peer receives
20 misbehaviour points exactly when the rank is above 20; a vote for a historic
height (below the validation height) is rejected without a score on a node in
masternode mode, and accepted without a rank check on any other node. -/
theorem CMasternodePaymentVote_IsValid_out_of_rank (env : NodeEnv)
    (vote : CMasternodePaymentVote) (nValidationHeight : Int) (mnInfo : masternode_info_t)
    (nRank : Int)
    (hinfo : env.GetMasternodeInfo vote.masternodeOutpoint = some mnInfo)
    (hproto : ¬ mnInfo.nProtocolVersion < env.MIN_MASTERNODE_PAYMENT_PROTO_VERSION)
    (hrank : env.GetMasternodeRank vote.masternodeOutpoint (vote.nBlockHeight - 101)
      env.MIN_MASTERNODE_PAYMENT_PROTO_VERSION = some nRank)
    (hout : nRank > MNPAYMENTS_SIGNATURES_TOTAL) :
    (vote.nBlockHeight > nValidationHeight →
      vote.IsValid env nValidationHeight = (false, if nRank > 20 then 20 else 0)) ∧
      (vote.nBlockHeight < nValidationHeight →
        vote.IsValid env nValidationHeight =
          if env.fMasternodeMode = true then (false, 0) else (true, 0)) := by
  unfold CMasternodePaymentVote.IsValid
  simp only [hinfo, hproto, if_false, hrank, hout, if_true]
  constructor
  · intro hfuture
    have hnot : ¬ vote.nBlockHeight < nValidationHeight := by omega
    simp only [hnot, decide_False, Bool.and_false, Bool.false_eq_true, if_false, hfuture,
      and_true, MNPAYMENTS_SIGNATURES_TOTAL]
    norm_num
    split <;> rfl
  · intro hpast
    have hnot : ¬ vote.nBlockHeight > nValidationHeight := by omega
    cases hmode : env.fMasternodeMode <;> simp [hpast, hnot]

/-- Instance of the amended C25: rank 15, vote for height 1000 seen at 990. -/
theorem CMasternodePaymentVote_IsValid_out_of_rank_witness :
    voteFirst.nBlockHeight > 990 ∧
      voteFirst.IsValid rank15Env 990 = (false, if (15 : Int) > 20 then 20 else 0) :=
  ⟨by decide,
    (CMasternodePaymentVote_IsValid_out_of_rank rank15Env voteFirst 990 ⟨70000, [], [], voterX⟩ 15
      (by decide) (by decide) (by decide) (by decide)).1 (by decide)⟩

/-! ## Payment limit and reward ceiling -/

/-- C27: at every height that is not a governance height (below the start of
masternode payments, or with a remainder modulo the mega interval other than
the governance offset), `CGovernanceBlock::GetPaymentsLimit` is 0. -/
theorem GetPaymentsLimit_zero_off_governance_height (P : ConsensusParams) (nBlockHeight : Int)
    (h : nBlockHeight < P.nMasternodePaymentsStartBlock ∨
      Int.tmod nBlockHeight P.megaBlockInterval ≠ P.nGovernanceBlockOffset) :
    CGovernanceBlock.IsValidBlockHeight P nBlockHeight = false ∧
      CGovernanceBlock.GetPaymentsLimit P nBlockHeight = 0 := by
  have hv : CGovernanceBlock.IsValidBlockHeight P nBlockHeight = false := by
    unfold CGovernanceBlock.IsValidBlockHeight
    rcases h with h | h
    · have : ¬ nBlockHeight ≥ P.nMasternodePaymentsStartBlock := by omega
      simp [this]
    · simp [h]
  exact ⟨hv, by simp [CGovernanceBlock.GetPaymentsLimit, hv]⟩

/-- Instance of C27: height 10081 with cycle 10080 and offset 0. -/
theorem GetPaymentsLimit_zero_off_governance_height_witness :
    Int.tmod 10081 scenarioParams.megaBlockInterval ≠ scenarioParams.nGovernanceBlockOffset ∧
      CGovernanceBlock.GetPaymentsLimit scenarioParams 10081 = 0 :=
  ⟨by decide, (GetPaymentsLimit_zero_off_governance_height scenarioParams 10081
    (Or.inr (by decide))).2⟩

theorem String_append_eq_empty (s t : String) : s ++ t = "" ↔ s = "" ∧ t = "" := by
  constructor
  · intro h
    have h' := congrArg String.data h
    rw [String.data_append] at h'
    have h2 : s.data = [] ∧ t.data = [] := List.append_eq_nil.1 h'
    exact ⟨String.ext h2.1, String.ext h2.2⟩
  · rintro ⟨rfl, rfl⟩
    rfl

theorem IsGovernanceBlockTriggered_height (P : ConsensusParams) (governance : CGovernanceManager)
    (triggerman : CGovernanceTriggerManager) (nBlockHeight : Int)
    (h : CGovernanceBlockManager.IsGovernanceBlockTriggered P governance triggerman
      nBlockHeight = true) :
    CGovernanceBlock.IsValidBlockHeight P nBlockHeight = true := by
  unfold CGovernanceBlockManager.IsGovernanceBlockTriggered at h
  cases hv : CGovernanceBlock.IsValidBlockHeight P nBlockHeight with
  | true => rfl
  | false => simp [hv] at h

theorem CGovernanceBlockManager_IsValid_ceiling (P : ConsensusParams)
    (governance : CGovernanceManager) (triggerman : CGovernanceTriggerManager)
    (txNew : CTransaction) (nBlockHeight blockReward : Int)
    (h : CGovernanceBlockManager.IsValid P governance triggerman txNew nBlockHeight
      blockReward = true) :
    txNew.GetValueOut ≤ blockReward + CGovernanceBlock.GetPaymentsLimit P nBlockHeight := by
  unfold CGovernanceBlockManager.IsValid at h
  split at h
  · rename_i pGovernanceBlock _
    obtain ⟨_, _, h3, h4, _⟩ := (IsValid_eq_true_iff P pGovernanceBlock txNew nBlockHeight
      blockReward).1 h
    unfold CTransaction.GetValueOut
    omega
  · exact absurd h (by decide)

/-- C28: with a non-negative governance subsidy, whenever `IsBlockValueValid`
returns true (in any sync state, with any trigger set) the total `v` of the
coinbase outputs satisfies `v ≤ reward + GetPaymentsLimit(H)`, and `v ≤ reward`
at every height that is not a governance height; and the error string returned
is empty if and only if the result is true. -/
theorem IsBlockValueValid_reward_ceiling (P : ConsensusParams) (env : NodeEnv)
    (governance : CGovernanceManager) (triggerman : CGovernanceTriggerManager)
    (vtx0 : CTransaction) (rest : List CTransaction) (nBlockHeight blockReward : Int)
    (hsubsidy : ∀ nHeight, 0 ≤ P.GetBlockSubsidy nHeight true) :
    (∀ strErrorRet,
      IsBlockValueValid P env governance triggerman ⟨vtx0 :: rest⟩ nBlockHeight blockReward =
          some (true, strErrorRet) →
        vtx0.GetValueOut ≤ blockReward + CGovernanceBlock.GetPaymentsLimit P nBlockHeight ∧
          (CGovernanceBlock.IsValidBlockHeight P nBlockHeight = false →
            vtx0.GetValueOut ≤ blockReward)) ∧
      ∀ result strErrorRet,
        IsBlockValueValid P env governance triggerman ⟨vtx0 :: rest⟩ nBlockHeight blockReward =
            some (result, strErrorRet) →
          (strErrorRet = "" ↔ result = true) := by
  have hlimit : 0 ≤ CGovernanceBlock.GetPaymentsLimit P nBlockHeight := by
    unfold CGovernanceBlock.GetPaymentsLimit
    split
    · exact le_refl 0
    · exact hsubsidy nBlockHeight
  have hzero : CGovernanceBlock.IsValidBlockHeight P nBlockHeight = false →
      CGovernanceBlock.GetPaymentsLimit P nBlockHeight = 0 := by
    intro hv
    simp [CGovernanceBlock.GetPaymentsLimit, hv]
  unfold IsBlockValueValid
  simp only
  by_cases hmode : (!env.IsSynced || env.fLiteMode) = true
  · simp only [hmode, if_true]
    by_cases hv : CGovernanceBlock.IsValidBlockHeight P nBlockHeight = true
    · simp only [hv, if_true]
      constructor
      · intro e h
        have h1 := of_decide_eq_true (Prod.mk.inj (Option.some.inj h)).1
        exact ⟨h1, fun hf => absurd hf (by decide)⟩
      · intro b e h
        obtain ⟨h1, h2⟩ := Prod.mk.inj (Option.some.inj h)
        subst h1 h2
        by_cases hle : vtx0.GetValueOut ≤
            blockReward + CGovernanceBlock.GetPaymentsLimit P nBlockHeight
        · simp [hle]
        · simp [hle, String_append_eq_empty]
    · have hv' : CGovernanceBlock.IsValidBlockHeight P nBlockHeight = false := by
        simpa using hv
      simp only [hv', Bool.false_eq_true, if_false]
      constructor
      · intro e h
        have h1 := of_decide_eq_true (Prod.mk.inj (Option.some.inj h)).1
        rw [hzero hv']
        exact ⟨by omega, fun _ => h1⟩
      · intro b e h
        obtain ⟨h1, h2⟩ := Prod.mk.inj (Option.some.inj h)
        subst h1 h2
        by_cases hle : vtx0.GetValueOut ≤ blockReward
        · simp [hle]
        · simp [hle, String_append_eq_empty]
  · simp only [hmode, if_false]
    by_cases ht : CGovernanceBlockManager.IsGovernanceBlockTriggered P governance triggerman
        nBlockHeight = true
    · have hv := IsGovernanceBlockTriggered_height P governance triggerman nBlockHeight ht
      simp only [ht, if_true]
      by_cases hvalid : CGovernanceBlockManager.IsValid P governance triggerman vtx0 nBlockHeight
          blockReward = true
      · simp only [hvalid, if_true]
        constructor
        · intro e _
          exact ⟨CGovernanceBlockManager_IsValid_ceiling P governance triggerman vtx0
            nBlockHeight blockReward hvalid,
            fun hf => by rw [hv] at hf; exact absurd hf (by decide)⟩
        · intro b e h
          obtain ⟨h1, h2⟩ := Prod.mk.inj (Option.some.inj h)
          subst h1 h2
          simp
      · simp only [hvalid, if_false]
        constructor
        · intro e h
          exact absurd (Prod.mk.inj (Option.some.inj h)).1 (by decide)
        · intro b e h
          obtain ⟨h1, h2⟩ := Prod.mk.inj (Option.some.inj h)
          subst h1 h2
          simp [String_append_eq_empty]
    · simp only [ht, if_false]
      constructor
      · intro e h
        have h1 := of_decide_eq_true (Prod.mk.inj (Option.some.inj h)).1
        exact ⟨by omega, fun _ => h1⟩
      · intro b e h
        obtain ⟨h1, h2⟩ := Prod.mk.inj (Option.some.inj h)
        subst h1 h2
        by_cases hle : vtx0.GetValueOut ≤ blockReward
        · simp [hle]
        · simp [hle, String_append_eq_empty]

/-- Instance of C28 on the scenario constants: a coinbase that pays 300000000 at
height 10081 with reward 500000000 is accepted, and 300000000 ≤ 500000000 + 0. -/
theorem IsBlockValueValid_reward_ceiling_witness :
    (∀ nHeight, 0 ≤ scenarioParams.GetBlockSubsidy nHeight true) ∧
      (⟨[⟨300000000, scriptMiner⟩]⟩ : CTransaction).GetValueOut ≤
        500000000 + CGovernanceBlock.GetPaymentsLimit scenarioParams 10081 :=
  ⟨fun _ => by simp [scenarioParams],
    ((IsBlockValueValid_reward_ceiling scenarioParams scenarioEnv scenarioGovernance
      (scenarioTriggers []) ⟨[⟨300000000, scriptMiner⟩]⟩ [] 10081 500000000
      (fun _ => by simp [scenarioParams])).1 "" (by decide)).1⟩

/-! ## The steps of the primary vote handler -/

theorem UpdateLastVote_record (mnpayments : CMasternodePayments)
    (vote : CMasternodePaymentVote) :
    mapFind vote.masternodeOutpoint (mnpayments.UpdateLastVote vote).2.mapMasternodesLastVote =
        some vote.nBlockHeight ∧
      ∀ x, x ≠ vote.masternodeOutpoint →
        mapFind x (mnpayments.UpdateLastVote vote).2.mapMasternodesLastVote =
          mapFind x mnpayments.mapMasternodesLastVote := by
  unfold CMasternodePayments.UpdateLastVote
  cases hfind : mapFind vote.masternodeOutpoint mnpayments.mapMasternodesLastVote with
  | none =>
    simp only
    constructor
    · rw [mapFind_mapEmplace_self, hfind]
      rfl
    · intro x hx
      exact mapFind_mapEmplace_ne _ _ _ (fun h => hx h.symm) _
  | some second =>
    simp only
    by_cases hs : second = vote.nBlockHeight
    · simp only [hs, if_true]
      exact ⟨by rw [hfind, hs], fun _ _ => trivial⟩
    · simp only [hs, if_false]
      exact ⟨mapFind_mapSet_self _ _ _,
        fun x hx => mapFind_mapSet_ne _ _ _ (fun h => hx h.symm) _⟩

/-- The primary vote handler, step by step. When every check up to the signature
check passes, the engine after the call is the result of
`AddOrUpdatePaymentVote` on the engine in which `UpdateLastVote` has recorded
the vote, or, when `UpdateLastVote` returns false, the engine with an unverified
placeholder; when a check fails, it is the engine as it was or the one with the
placeholder. -/
theorem ProcessMessage_steps (env : NodeEnv) (mnpayments : CMasternodePayments)
    (pfromVersion : Int) (vote : CMasternodePaymentVote) :
    ∃ votes, votes = mapSet (vote.GetHash env)
        ((mapFind (vote.GetHash env)
          mnpayments.mapMasternodePaymentVotesPrimary).getD vote).MarkAsNotVerified
        mnpayments.mapMasternodePaymentVotesPrimary ∧
      ((env.fLiteMode = false ∧ ¬ pfromVersion < env.MIN_MASTERNODE_PAYMENT_PROTO_VERSION ∧
          env.IsMasternodeListSynced = true ∧
          mnpayments.HasVerifiedPaymentVote (vote.GetHash env) = false ∧
          ¬ (vote.nBlockHeight <
              mnpayments.nCachedBlockHeight - CMasternodePayments.GetStorageLimit env ∨
            vote.nBlockHeight > mnpayments.nCachedBlockHeight + 20) ∧
          (vote.IsValid env mnpayments.nCachedBlockHeight).1 = true ∧
          ∃ mnInfo, env.GetMasternodeInfo vote.masternodeOutpoint = some mnInfo ∧
            (vote.CheckSignature env mnInfo.pubKeyMasternode mnpayments.nCachedBlockHeight).1 =
              true) →
        (CMasternodePayments.ProcessMessage env mnpayments pfromVersion vote).1 =
          if (({ mnpayments with mapMasternodePaymentVotesPrimary := votes }).UpdateLastVote
              vote).1 = true then
            (CMasternodePayments.AddOrUpdatePaymentVote env
              (({ mnpayments with mapMasternodePaymentVotesPrimary := votes }).UpdateLastVote
                vote).2 vote).2
          else { mnpayments with mapMasternodePaymentVotesPrimary := votes }) ∧
      (¬ (env.fLiteMode = false ∧ ¬ pfromVersion < env.MIN_MASTERNODE_PAYMENT_PROTO_VERSION ∧
          env.IsMasternodeListSynced = true ∧
          mnpayments.HasVerifiedPaymentVote (vote.GetHash env) = false ∧
          ¬ (vote.nBlockHeight <
              mnpayments.nCachedBlockHeight - CMasternodePayments.GetStorageLimit env ∨
            vote.nBlockHeight > mnpayments.nCachedBlockHeight + 20) ∧
          (vote.IsValid env mnpayments.nCachedBlockHeight).1 = true ∧
          ∃ mnInfo, env.GetMasternodeInfo vote.masternodeOutpoint = some mnInfo ∧
            (vote.CheckSignature env mnInfo.pubKeyMasternode mnpayments.nCachedBlockHeight).1 =
              true) →
        (CMasternodePayments.ProcessMessage env mnpayments pfromVersion vote).1 = mnpayments ∨
          (CMasternodePayments.ProcessMessage env mnpayments pfromVersion vote).1 =
            { mnpayments with mapMasternodePaymentVotesPrimary := votes }) := by
  obtain ⟨votes, hvotes⟩ : ∃ votes, votes = mapSet (vote.GetHash env)
      ((mapFind (vote.GetHash env)
        mnpayments.mapMasternodePaymentVotesPrimary).getD vote).MarkAsNotVerified
      mnpayments.mapMasternodePaymentVotesPrimary := ⟨_, rfl⟩
  have hseen : mnpayments.HasVerifiedPaymentVote (vote.GetHash env) =
      ((mapFind (vote.GetHash env) mnpayments.mapMasternodePaymentVotesPrimary).isSome &&
        ((mapFind (vote.GetHash env)
          mnpayments.mapMasternodePaymentVotesPrimary).getD vote).IsVerified) := by
    unfold CMasternodePayments.HasVerifiedPaymentVote
    cases mapFind (vote.GetHash env) mnpayments.mapMasternodePaymentVotesPrimary <;> rfl
  refine ⟨votes, hvotes, ?_, ?_⟩
  · rintro ⟨p1, p2, p3, p4, p5, p6, mnInfo, p7, p8⟩
    rw [hseen] at p4
    unfold CMasternodePayments.ProcessMessage
    simp only [p1, p2, p3, p4, Bool.false_eq_true, if_false, Bool.not_true]
    rw [← hvotes]
    simp only [p5, if_false, p6, Bool.not_true, Bool.false_eq_true, p7, p8]
    cases c4 : (CMasternodePayments.UpdateLastVote
        { mnpayments with mapMasternodePaymentVotesPrimary := votes } vote).1 with
    | false =>
      simp only [Bool.not_false, if_true, Bool.false_eq_true, if_false]
      exact UpdateLastVote_false _ _ c4
    | true =>
      simp only [Bool.not_true, Bool.false_eq_true, if_false, if_true]
  · intro hn
    unfold CMasternodePayments.ProcessMessage
    by_cases h1 : env.fLiteMode = true
    · exact Or.inl (by simp [h1])
    by_cases h2 : pfromVersion < env.MIN_MASTERNODE_PAYMENT_PROTO_VERSION
    · exact Or.inl (by simp [h1, h2])
    by_cases h3 : env.IsMasternodeListSynced = true
    swap
    · exact Or.inl (by simp [h1, h2, h3])
    by_cases h4 : ((mapFind (vote.GetHash env)
        mnpayments.mapMasternodePaymentVotesPrimary).isSome &&
        ((mapFind (vote.GetHash env)
          mnpayments.mapMasternodePaymentVotesPrimary).getD vote).IsVerified) = true
    · exact Or.inl (by simp [h1, h2, h3, h4])
    right
    simp only [h1, h2, h3, h4, Bool.false_eq_true, if_false, Bool.not_true]
    rw [← hvotes]
    by_cases c1 : vote.nBlockHeight <
        mnpayments.nCachedBlockHeight - CMasternodePayments.GetStorageLimit env ∨
        vote.nBlockHeight > mnpayments.nCachedBlockHeight + 20
    · simp only [c1, if_true]
    simp only [c1, if_false]
    cases c2 : (vote.IsValid env mnpayments.nCachedBlockHeight).1 with
    | false => simp only [Bool.not_false, if_true]
    | true =>
      simp only [Bool.not_true, Bool.false_eq_true, if_false]
      cases hinfo : env.GetMasternodeInfo vote.masternodeOutpoint with
      | none => rfl
      | some mnInfo =>
        simp only
        cases c3 : (vote.CheckSignature env mnInfo.pubKeyMasternode
            mnpayments.nCachedBlockHeight).1 with
        | false => simp only [Bool.not_false, if_true]
        | true =>
          refine absurd ⟨by simpa using h1, h2, h3, ?_, c1, c2, mnInfo, hinfo, c3⟩ hn
          rw [hseen]
          simpa using h4

theorem UpdateLastVote_height (mnpayments : CMasternodePayments)
    (vote : CMasternodePaymentVote) :
    (mnpayments.UpdateLastVote vote).2.nCachedBlockHeight = mnpayments.nCachedBlockHeight := by
  unfold CMasternodePayments.UpdateLastVote
  split
  · split <;> rfl
  · rfl

theorem AddOrUpdatePaymentVote_height (env : NodeEnv) (mnpayments : CMasternodePayments)
    (vote : CMasternodePaymentVote) :
    (CMasternodePayments.AddOrUpdatePaymentVote env mnpayments vote).2.nCachedBlockHeight =
      mnpayments.nCachedBlockHeight := by
  unfold CMasternodePayments.AddOrUpdatePaymentVote
  split
  · rfl
  · simp only
    split <;> rfl

theorem HasVerifiedPaymentVote_congr (a b : CMasternodePayments) (nHash : uint256)
    (h : a.mapMasternodePaymentVotesPrimary = b.mapMasternodePaymentVotesPrimary) :
    a.HasVerifiedPaymentVote nHash = b.HasVerifiedPaymentVote nHash := by
  unfold CMasternodePayments.HasVerifiedPaymentVote
  rw [h]

/-- A vote that the primary vote handler newly verifies has passed every check of
the handler, sits in the store under its hash, and the cached tip is as
before. -/
theorem ProcessMessage_accepted (env : NodeEnv) (mnpayments : CMasternodePayments)
    (pfromVersion : Int) (vote : CMasternodePaymentVote)
    (hbefore : mnpayments.HasVerifiedPaymentVote (vote.GetHash env) = false)
    (hafter : (CMasternodePayments.ProcessMessage env mnpayments pfromVersion
      vote).1.HasVerifiedPaymentVote (vote.GetHash env) = true) :
    ¬ (vote.nBlockHeight <
        mnpayments.nCachedBlockHeight - CMasternodePayments.GetStorageLimit env ∨
      vote.nBlockHeight > mnpayments.nCachedBlockHeight + 20) ∧
      mapFind (vote.GetHash env) (CMasternodePayments.ProcessMessage env mnpayments pfromVersion
        vote).1.mapMasternodePaymentVotesPrimary = some vote ∧
      (CMasternodePayments.ProcessMessage env mnpayments pfromVersion
        vote).1.nCachedBlockHeight = mnpayments.nCachedBlockHeight := by
  obtain ⟨votes, hvotes, hpass, hfail⟩ := ProcessMessage_steps env mnpayments pfromVersion vote
  have hph := HasVerifiedPaymentVote_placeholder mnpayments (vote.GetHash env)
    ((mapFind (vote.GetHash env) mnpayments.mapMasternodePaymentVotesPrimary).getD vote) votes
    hvotes
  by_cases hp : env.fLiteMode = false ∧
      ¬ pfromVersion < env.MIN_MASTERNODE_PAYMENT_PROTO_VERSION ∧
      env.IsMasternodeListSynced = true ∧
      mnpayments.HasVerifiedPaymentVote (vote.GetHash env) = false ∧
      ¬ (vote.nBlockHeight <
          mnpayments.nCachedBlockHeight - CMasternodePayments.GetStorageLimit env ∨
        vote.nBlockHeight > mnpayments.nCachedBlockHeight + 20) ∧
      (vote.IsValid env mnpayments.nCachedBlockHeight).1 = true ∧
      ∃ mnInfo, env.GetMasternodeInfo vote.masternodeOutpoint = some mnInfo ∧
        (vote.CheckSignature env mnInfo.pubKeyMasternode mnpayments.nCachedBlockHeight).1 = true
  · have hres := hpass hp
    refine ⟨hp.2.2.2.2.1, ?_⟩
    cases c4 : (CMasternodePayments.UpdateLastVote
        { mnpayments with mapMasternodePaymentVotesPrimary := votes } vote).1 with
    | false =>
      rw [c4] at hres
      simp only [Bool.false_eq_true, if_false] at hres
      rw [hres, hph] at hafter
      exact absurd hafter (by decide)
    | true =>
      rw [c4] at hres
      simp only [if_true] at hres
      rw [hres] at hafter ⊢
      rw [AddOrUpdatePaymentVote_height, UpdateLastVote_height]
      rcases AddOrUpdatePaymentVote_eq env (CMasternodePayments.UpdateLastVote
          { mnpayments with mapMasternodePaymentVotesPrimary := votes } vote).2 vote with h | h
      · rw [h, HasVerifiedPaymentVote_congr _
          { mnpayments with mapMasternodePaymentVotesPrimary := votes } _
          (UpdateLastVote_votes _ vote), hph] at hafter
        exact absurd hafter (by decide)
      · rw [h.1]
        exact ⟨mapFind_mapSet_self _ _ _, rfl⟩
  · rcases hfail hp with h | h
    · rw [h, hbefore] at hafter
      exact absurd hafter (by decide)
    · rw [h, hph] at hafter
      exact absurd hafter (by decide)

/-! ## The double-vote record and the storage window -/

/-- C29, the claim as stated fails: on a node whose chain has no block hash at
height 899, the handler takes the vote of X for height 1000 through every
check, `AddOrUpdatePaymentVote` returns false, the vote is neither verified in
the store nor in a tally, and the last-vote record of X, empty before, is 1000
after the call. -/
theorem ProcessMessage_records_vote_that_is_not_stored :
    (CMasternodePayments.empty 990).mapMasternodesLastVote = [] ∧
      noBlockHashEnv.GetBlockHash (voteFirst.nBlockHeight - 101) = none ∧
      (CMasternodePayments.ProcessMessage noBlockHashEnv (CMasternodePayments.empty 990) 70000
        voteFirst).1.HasVerifiedPaymentVote (voteFirst.GetHash noBlockHashEnv) = false ∧
      (CMasternodePayments.ProcessMessage noBlockHashEnv (CMasternodePayments.empty 990) 70000
        voteFirst).1.mapMasternodeBlocksPrimary = [] ∧
      (CMasternodePayments.ProcessMessage noBlockHashEnv (CMasternodePayments.empty 990) 70000
        voteFirst).1.mapMasternodesLastVote = [(voterX, 1000)] := by
  decide

/-- C29, amended: the last-vote record changes exactly with the checks of the
handler, not with the outcome of `AddOrUpdatePaymentVote`. When a check before
the double-vote test fails (lite mode, obsolete peer, list not synced, vote
already verified, height out of range, `IsValid`, unknown masternode,
signature), `mapMasternodesLastVote` is the same as before. When all of them
pass, the record of the voter is the height of the vote after the call and the
records of the other voters are unchanged, whether or not the vote is then
added to the store and the tally. -/
theorem ProcessMessage_last_vote_record (env : NodeEnv) (mnpayments : CMasternodePayments)
    (pfromVersion : Int) (vote : CMasternodePaymentVote) :
    ((env.fLiteMode = false ∧ ¬ pfromVersion < env.MIN_MASTERNODE_PAYMENT_PROTO_VERSION ∧
        env.IsMasternodeListSynced = true ∧
        mnpayments.HasVerifiedPaymentVote (vote.GetHash env) = false ∧
        ¬ (vote.nBlockHeight <
            mnpayments.nCachedBlockHeight - CMasternodePayments.GetStorageLimit env ∨
          vote.nBlockHeight > mnpayments.nCachedBlockHeight + 20) ∧
        (vote.IsValid env mnpayments.nCachedBlockHeight).1 = true ∧
        ∃ mnInfo, env.GetMasternodeInfo vote.masternodeOutpoint = some mnInfo ∧
          (vote.CheckSignature env mnInfo.pubKeyMasternode mnpayments.nCachedBlockHeight).1 =
            true) →
      mapFind vote.masternodeOutpoint (CMasternodePayments.ProcessMessage env mnpayments
          pfromVersion vote).1.mapMasternodesLastVote = some vote.nBlockHeight ∧
        ∀ x, x ≠ vote.masternodeOutpoint →
          mapFind x (CMasternodePayments.ProcessMessage env mnpayments pfromVersion
            vote).1.mapMasternodesLastVote = mapFind x mnpayments.mapMasternodesLastVote) ∧
      (¬ (env.fLiteMode = false ∧ ¬ pfromVersion < env.MIN_MASTERNODE_PAYMENT_PROTO_VERSION ∧
        env.IsMasternodeListSynced = true ∧
        mnpayments.HasVerifiedPaymentVote (vote.GetHash env) = false ∧
        ¬ (vote.nBlockHeight <
            mnpayments.nCachedBlockHeight - CMasternodePayments.GetStorageLimit env ∨
          vote.nBlockHeight > mnpayments.nCachedBlockHeight + 20) ∧
        (vote.IsValid env mnpayments.nCachedBlockHeight).1 = true ∧
        ∃ mnInfo, env.GetMasternodeInfo vote.masternodeOutpoint = some mnInfo ∧
          (vote.CheckSignature env mnInfo.pubKeyMasternode mnpayments.nCachedBlockHeight).1 =
            true) →
        (CMasternodePayments.ProcessMessage env mnpayments pfromVersion
          vote).1.mapMasternodesLastVote = mnpayments.mapMasternodesLastVote) := by
  obtain ⟨votes, _, hpass, hfail⟩ := ProcessMessage_steps env mnpayments pfromVersion vote
  constructor
  · intro hp
    have hrec := UpdateLastVote_record
      { mnpayments with mapMasternodePaymentVotesPrimary := votes } vote
    rw [hpass hp]
    cases c4 : (CMasternodePayments.UpdateLastVote
        { mnpayments with mapMasternodePaymentVotesPrimary := votes } vote).1 with
    | false =>
      rw [if_neg (by decide)]
      rw [UpdateLastVote_false _ _ c4] at hrec
      exact hrec
    | true =>
      rw [if_pos rfl, AddOrUpdatePaymentVote_last]
      exact hrec
  · intro hn
    rcases hfail hn with h | h <;> rw [h]

/-- Pruning within the 32-bit range: after `CheckAndRemove` on a node whose
blockchain is synced, with cached tip `T` and storage limit `L`, when the
distance of every stored vote to the tip fits a 32-bit `int` the store holds
exactly the votes it held before whose height is at least `T - L`. -/
theorem CheckAndRemove_votes_in_range (env : NodeEnv) (mnpayments : CMasternodePayments)
    (hsync : env.IsBlockchainSynced = true)
    (hrange : ∀ e ∈ mnpayments.mapMasternodePaymentVotesPrimary,
      -2147483648 ≤ mnpayments.nCachedBlockHeight - e.2.nBlockHeight ∧
        mnpayments.nCachedBlockHeight - e.2.nBlockHeight ≤ 2147483647) :
    (∀ e : uint256 × CMasternodePaymentVote,
      e ∈ (mnpayments.CheckAndRemove env).mapMasternodePaymentVotesPrimary ↔
        e ∈ mnpayments.mapMasternodePaymentVotesPrimary ∧
          e.2.nBlockHeight ≥
            mnpayments.nCachedBlockHeight - CMasternodePayments.GetStorageLimit env) ∧
      ∀ (nHash : uint256) (vote : CMasternodePaymentVote),
        mapFind nHash mnpayments.mapMasternodePaymentVotesPrimary = some vote →
        vote.nBlockHeight ≥
          mnpayments.nCachedBlockHeight - CMasternodePayments.GetStorageLimit env →
        mapFind nHash (mnpayments.CheckAndRemove env).mapMasternodePaymentVotesPrimary =
          some vote := by
  unfold CMasternodePayments.CheckAndRemove
  simp only [hsync, Bool.not_true, Bool.false_eq_true, if_false, checkLoop_votes]
  constructor
  · intro e
    rw [List.mem_filter]
    simp only [gt_iff_lt, not_lt, decide_eq_true_eq, ge_iff_le]
    constructor
    · rintro ⟨h1, h2⟩
      rw [int32_of_range _ (hrange e h1).1 (hrange e h1).2] at h2
      exact ⟨h1, by omega⟩
    · rintro ⟨h1, h2⟩
      rw [int32_of_range _ (hrange e h1).1 (hrange e h1).2]
      exact ⟨h1, by omega⟩
  · intro nHash vote hfind hge
    apply mapFind_filter_keep _ _ _ _ hfind
    simp only [gt_iff_lt, not_lt, decide_eq_true_eq]
    have hr : -2147483648 ≤ mnpayments.nCachedBlockHeight - vote.nBlockHeight ∧
        mnpayments.nCachedBlockHeight - vote.nBlockHeight ≤ 2147483647 :=
      hrange (nHash, vote) (mapFind_mem _ _ _ hfind)
    rw [int32_of_range _ hr.1 hr.2]
    omega

/-- The ingest window and the retention window within the 32-bit range: with the
blockchain synced, for a vote of height `h ≤ T + 20` whose distance `T - h` to
the cached tip fits a 32-bit `int`, `CheckAndRemove` retains a stored vote of
height `h` exactly when `h` passes the range test of the vote handler; and a
vote that the handler newly verifies at tip `T` is still in the store after a
pruning pass at the same tip. -/
theorem ingest_window_matches_retention_in_range (env : NodeEnv)
    (mnpayments : CMasternodePayments) (pfromVersion : Int) (vote : CMasternodePaymentVote)
    (hsync : env.IsBlockchainSynced = true)
    (hupper : vote.nBlockHeight ≤ mnpayments.nCachedBlockHeight + 20)
    (hfits : mnpayments.nCachedBlockHeight - vote.nBlockHeight ≤ 2147483647) :
    (∀ (nHash : uint256) (votes : List (uint256 × CMasternodePaymentVote)),
        votes = [(nHash, vote)] →
        (mapFind nHash (CMasternodePayments.CheckAndRemove env
            { mnpayments with
              mapMasternodePaymentVotesPrimary := votes }).mapMasternodePaymentVotesPrimary =
            some vote ↔
          ¬ (vote.nBlockHeight <
              mnpayments.nCachedBlockHeight - CMasternodePayments.GetStorageLimit env ∨
            vote.nBlockHeight > mnpayments.nCachedBlockHeight + 20))) ∧
      (mnpayments.HasVerifiedPaymentVote (vote.GetHash env) = false →
        (CMasternodePayments.ProcessMessage env mnpayments pfromVersion
          vote).1.HasVerifiedPaymentVote (vote.GetHash env) = true →
        mapFind (vote.GetHash env) (CMasternodePayments.CheckAndRemove env
          (CMasternodePayments.ProcessMessage env mnpayments pfromVersion
            vote).1).mapMasternodePaymentVotesPrimary = some vote) := by
  have hwrap : int32 (mnpayments.nCachedBlockHeight - vote.nBlockHeight) =
      mnpayments.nCachedBlockHeight - vote.nBlockHeight :=
    int32_of_range _ (by omega) hfits
  refine ⟨?_, ?_⟩
  · intro nHash votes hv
    subst hv
    unfold CMasternodePayments.CheckAndRemove
    simp only [hsync, Bool.not_true, Bool.false_eq_true, if_false, checkLoop_votes]
    by_cases hk : int32 (mnpayments.nCachedBlockHeight - vote.nBlockHeight) >
        CMasternodePayments.GetStorageLimit env
    · rw [List.filter_cons_of_neg (by simp only [decide_eq_true_eq, not_not]; exact hk),
        List.filter_nil]
      rw [hwrap] at hk
      exact ⟨fun h => by simp [mapFind] at h, fun h => absurd (Or.inl (by omega)) h⟩
    · rw [List.filter_cons_of_pos (by simp only [decide_eq_true_eq]; exact hk), List.filter_nil]
      rw [hwrap] at hk
      refine ⟨fun _ h => ?_, fun _ => by simp [mapFind]⟩
      rcases h with h | h
      · exact hk (by omega)
      · omega
  · intro hbefore hafter
    obtain ⟨hrange, hfind, hheight⟩ :=
      ProcessMessage_accepted env mnpayments pfromVersion vote hbefore hafter
    unfold CMasternodePayments.CheckAndRemove
    simp only [hsync, Bool.not_true, Bool.false_eq_true, if_false, checkLoop_votes]
    apply mapFind_filter_keep _ _ _ _ hfind
    simp only [gt_iff_lt, not_lt, decide_eq_true_eq, hheight]
    rw [hwrap]
    omega

/-- C30: evaluation at cached tip 990 with storage limit 6000 for a vote of height
-2147483000. The height is below 990 + 20 and fails the range test of the vote
handler, being below 990 - 6000, so the handler does not accept the vote, while
it accepts the same vote with height 1001. `CheckAndRemove` at the same tip and
limit retains a stored vote of that height, because the 32-bit difference
990 - (-2147483000) wraps around to -2147483306, which is not above 6000. So
the ingest window and the retention window disagree on this height. -/
theorem CheckAndRemove_retains_vote_that_ingest_rejects :
    voteWrapped.nBlockHeight ≤ 990 + 20 ∧
      (voteWrapped.nBlockHeight < 990 - CMasternodePayments.GetStorageLimit scenarioEnv ∨
        voteWrapped.nBlockHeight > 990 + 20) ∧
      (CMasternodePayments.ProcessMessage scenarioEnv (CMasternodePayments.empty 990) 70000
        voteWrapped).1.HasVerifiedPaymentVote (voteWrapped.GetHash scenarioEnv) = false ∧
      (CMasternodePayments.ProcessMessage scenarioEnv (CMasternodePayments.empty 990) 70000
        voteOther).1.HasVerifiedPaymentVote (voteOther.GetHash scenarioEnv) = true ∧
      scenarioEnv.IsBlockchainSynced = true ∧
      int32 (990 - voteWrapped.nBlockHeight) = -2147483306 ∧
      (CMasternodePayments.CheckAndRemove scenarioEnv
        ⟨990, [(2, voteWrapped)], [], [], []⟩).mapMasternodePaymentVotesPrimary =
        [(2, voteWrapped)] := by
  decide

/-! ## Creating a trigger -/

theorem fromHash_ok_iff (layer : GovernanceLayer) (codec : AddressCodec)
    (governance : CGovernanceManager) (nHash : uint256) (g : CGovernanceBlock) :
    CGovernanceBlock.fromHash layer codec governance nHash = .ok g ↔
      ∃ (pObj : CGovernanceObject) (nBlockHeight : Int) (strAddresses strAmounts : List Char)
        (vecPayments : List CGovernancePayment),
        governance.FindGovernanceObject nHash = some pObj ∧
        pObj.nObjectType = layer.GOVERNANCE_OBJECT_TRIGGER ∧
        (layer.GetJSONObject nHash).event_block_height = some nBlockHeight ∧
        (layer.GetJSONObject nHash).payment_addresses = some strAddresses ∧
        (layer.GetJSONObject nHash).payment_amounts = some strAmounts ∧
        CGovernanceBlock.ParsePaymentSchedule codec strAddresses strAmounts = .ok vecPayments ∧
        g = ⟨nHash, nBlockHeight, SeenObject.SEEN_OBJECT_UNKNOWN, vecPayments⟩ := by
  constructor
  · intro h
    unfold CGovernanceBlock.fromHash at h
    cases hobj : governance.FindGovernanceObject nHash with
    | none =>
      rw [hobj] at h
      exact absurd h (by simp)
    | some pObj =>
      rw [hobj] at h
      simp only at h
      by_cases htype : pObj.nObjectType = layer.GOVERNANCE_OBJECT_TRIGGER
      swap
      · rw [if_pos htype] at h
        exact absurd h (by simp)
      rw [if_neg (not_not.2 htype)] at h
      cases hh : (layer.GetJSONObject nHash).event_block_height with
      | none =>
        rw [hh] at h
        exact absurd h (by simp)
      | some nBlockHeight =>
        cases ha : (layer.GetJSONObject nHash).payment_addresses with
        | none =>
          rw [hh, ha] at h
          exact absurd h (by simp)
        | some strAddresses =>
          cases hm : (layer.GetJSONObject nHash).payment_amounts with
          | none =>
            rw [hh, ha, hm] at h
            exact absurd h (by simp)
          | some strAmounts =>
            rw [hh, ha, hm] at h
            simp only at h
            cases hparse : CGovernanceBlock.ParsePaymentSchedule codec strAddresses
                strAmounts with
            | error e =>
              rw [hparse] at h
              exact absurd h (by simp)
            | ok vecPayments =>
              rw [hparse] at h
              simp only [Except.ok.injEq] at h
              exact ⟨pObj, nBlockHeight, strAddresses, strAmounts, vecPayments, rfl, htype, rfl,
                rfl, rfl, hparse, h.symm⟩
  · rintro ⟨pObj, nBlockHeight, strAddresses, strAmounts, vecPayments, h1, h2, h3, h4, h5, h6,
      h7⟩
    unfold CGovernanceBlock.fromHash
    simp only [h1, h2, h3, h4, h5, h6, h7, ne_eq, not_true_eq_false, if_false]

/-- C23: `CGovernanceTriggerManager::AddNewTrigger(nHash)` returns true iff the
hash is not yet a key of the trigger set and the backing governance object
exists, is of trigger type, and its payload parses (event height, addresses
and amounts are present and the payment schedule is accepted). On true the set
gains exactly one entry, under the hash, whose trigger has status
`SEEN_OBJECT_IS_VALID`, and every other entry is unchanged; on false the set is
unchanged. -/
theorem AddNewTrigger_spec (layer : GovernanceLayer) (codec : AddressCodec)
    (governance : CGovernanceManager) (triggerman : CGovernanceTriggerManager)
    (nHash : uint256) :
    ((triggerman.AddNewTrigger layer codec governance nHash).1 = true ↔
      mapFind nHash triggerman.mapTrigger = none ∧
        ∃ (pObj : CGovernanceObject) (nBlockHeight : Int) (strAddresses strAmounts : List Char)
          (vecPayments : List CGovernancePayment),
          governance.FindGovernanceObject nHash = some pObj ∧
          pObj.nObjectType = layer.GOVERNANCE_OBJECT_TRIGGER ∧
          (layer.GetJSONObject nHash).event_block_height = some nBlockHeight ∧
          (layer.GetJSONObject nHash).payment_addresses = some strAddresses ∧
          (layer.GetJSONObject nHash).payment_amounts = some strAmounts ∧
          CGovernanceBlock.ParsePaymentSchedule codec strAddresses strAmounts =
            .ok vecPayments) ∧
      ((triggerman.AddNewTrigger layer codec governance nHash).1 = true →
        ∃ trigger : CGovernanceBlock,
          trigger.nStatus = SeenObject.SEEN_OBJECT_IS_VALID ∧ trigger.nGovObjHash = nHash ∧
          mapFind nHash (triggerman.AddNewTrigger layer codec governance nHash).2.mapTrigger =
            some (some trigger) ∧
          (∀ k, k ≠ nHash →
            mapFind k (triggerman.AddNewTrigger layer codec governance nHash).2.mapTrigger =
              mapFind k triggerman.mapTrigger) ∧
          (∀ e, e ∈ (triggerman.AddNewTrigger layer codec governance nHash).2.mapTrigger ↔
            e = (nHash, some trigger) ∨ e ∈ triggerman.mapTrigger) ∧
          (triggerman.AddNewTrigger layer codec governance nHash).2.mapTrigger.length =
            triggerman.mapTrigger.length + 1) ∧
      ((triggerman.AddNewTrigger layer codec governance nHash).1 = false →
        (triggerman.AddNewTrigger layer codec governance nHash).2 = triggerman) := by
  unfold CGovernanceTriggerManager.AddNewTrigger
  cases hkey : mapFind nHash triggerman.mapTrigger with
  | some present => simp
  | none =>
    simp only [Option.isSome_none, Bool.false_eq_true, if_false, true_and]
    cases hnew : CGovernanceBlock.fromHash layer codec governance nHash with
    | error e =>
      simp only [Bool.false_eq_true, false_iff, false_implies, implies_true, and_true, not_exists,
        not_and]
      intro pObj nBlockHeight strAddresses strAmounts vecPayments h1 h2 h3 h4 h5 h6
      have hok := (fromHash_ok_iff layer codec governance nHash
        ⟨nHash, nBlockHeight, SeenObject.SEEN_OBJECT_UNKNOWN, vecPayments⟩).2
        ⟨pObj, nBlockHeight, strAddresses, strAmounts, vecPayments, h1, h2, h3, h4, h5, h6, rfl⟩
      rw [hnew] at hok
      exact absurd hok (by simp)
    | ok g =>
      obtain ⟨pObj, nBlockHeight, strAddresses, strAmounts, vecPayments, h1, h2, h3, h4, h5, h6,
        h7⟩ := (fromHash_ok_iff layer codec governance nHash g).1 hnew
      simp only [true_iff, forall_true_left, Bool.true_eq_false, false_implies, and_true]
      refine ⟨⟨pObj, nBlockHeight, strAddresses, strAmounts, vecPayments, h1, h2, h3, h4, h5, h6⟩,
        { g with nStatus := SeenObject.SEEN_OBJECT_IS_VALID }, rfl, ?_, ?_, ?_, ?_, ?_⟩
      · rw [h7]
      · rw [mapFind_mapEmplace_self, hkey]
        rfl
      · intro k hk
        exact mapFind_mapEmplace_ne _ _ _ (fun h => hk h.symm) _
      · intro e
        unfold mapEmplace
        rw [hkey]
        exact mem_mapInsert _ _ _ _
      · unfold mapEmplace
        rw [hkey]
        simp only [Option.isSome_none, Bool.false_eq_true, if_false]
        generalize triggerman.mapTrigger = m
        induction m with
        | nil => rfl
        | cons x rest ih =>
          rw [mapInsert]
          split
          · rfl
          · simp only [List.length_cons, ih]

/-! ## Sweeping the trigger set -/

theorem mapFind_mapReplace {κ ν : Type} [DecidableEq κ] (k k2 : κ) (v : ν) :
    ∀ m : List (κ × ν), mapFind k2 (mapReplace k v m) =
      if k2 = k then (mapFind k m).map (fun _ => v) else mapFind k2 m := by
  intro m
  induction m with
  | nil => simp [mapReplace, mapFind]
  | cons x rest ih =>
    obtain ⟨k', v'⟩ := x
    rw [mapReplace]
    by_cases h1 : k' = k
    · subst h1
      rw [if_pos rfl]
      by_cases h2 : k2 = k'
      · subst h2
        simp [mapFind]
      · have h3 : ¬ k' = k2 := fun h => h2 h.symm
        simp [mapFind, h2, h3]
    · rw [if_neg h1]
      by_cases h2 : k2 = k
      · subst h2
        simp [mapFind, h1, ih]
      · by_cases h3 : k' = k2
        · simp [mapFind, h3, h2]
        · simp [mapFind, h3, h2, ih]

theorem setObject_find (governance : CGovernanceManager) (k k2 : uint256)
    (o : CGovernanceObject) :
    (governance.setObject k o).FindGovernanceObject k2 =
      if k2 = k then (governance.FindGovernanceObject k).map (fun _ => o)
      else governance.FindGovernanceObject k2 := by
  unfold CGovernanceManager.setObject CGovernanceManager.FindGovernanceObject
  exact mapFind_mapReplace k k2 o _

/-- A write to the object under a key that keeps its type, and keeps it marked
for deletion if it was, leaves the cached height, the types of all objects and
the marks of all objects as they were. -/
theorem setObject_keeps (governance : CGovernanceManager) (k : uint256)
    (o o2 : CGovernanceObject) (hfind : governance.FindGovernanceObject k = some o)
    (htype : o2.nObjectType = o.nObjectType)
    (hmark : o.fCachedDelete = true ∧ o.nDeletionTime ≠ 0 →
      o2.fCachedDelete = true ∧ o2.nDeletionTime ≠ 0) :
    (governance.setObject k o2).nCachedBlockHeight = governance.nCachedBlockHeight ∧
      (∀ k2, ((governance.setObject k o2).FindGovernanceObject k2).map
          CGovernanceObject.nObjectType =
        (governance.FindGovernanceObject k2).map CGovernanceObject.nObjectType) ∧
      ∀ k2, (∃ a, governance.FindGovernanceObject k2 = some a ∧ a.fCachedDelete = true ∧
          a.nDeletionTime ≠ 0) →
        ∃ a, (governance.setObject k o2).FindGovernanceObject k2 = some a ∧
          a.fCachedDelete = true ∧ a.nDeletionTime ≠ 0 := by
  refine ⟨rfl, ?_, ?_⟩
  · intro k2
    rw [setObject_find]
    by_cases h : k2 = k
    · subst h
      rw [if_pos rfl, hfind]
      simp [htype]
    · rw [if_neg h]
  · rintro k2 ⟨a, ha, hd, ht⟩
    rw [setObject_find]
    by_cases h : k2 = k
    · subst h
      rw [if_pos rfl, hfind]
      rw [hfind, Option.some.injEq] at ha
      subst ha
      exact ⟨o2, rfl, hmark ⟨hd, ht⟩⟩
    · rw [if_neg h]
      exact ⟨a, ha, hd, ht⟩

theorem IsExpired_keeps (P : ConsensusParams) (layer : GovernanceLayer)
    (governance : CGovernanceManager) (g : CGovernanceBlock)
    (htime : layer.GetAdjustedTime ≠ 0) :
    (g.IsExpired P layer governance).2.nCachedBlockHeight = governance.nCachedBlockHeight ∧
      (∀ k2, ((g.IsExpired P layer governance).2.FindGovernanceObject k2).map
          CGovernanceObject.nObjectType =
        (governance.FindGovernanceObject k2).map CGovernanceObject.nObjectType) ∧
      ∀ k2, (∃ a, governance.FindGovernanceObject k2 = some a ∧ a.fCachedDelete = true ∧
          a.nDeletionTime ≠ 0) →
        ∃ a, (g.IsExpired P layer governance).2.FindGovernanceObject k2 = some a ∧
          a.fCachedDelete = true ∧ a.nDeletionTime ≠ 0 := by
  unfold CGovernanceBlock.IsExpired
  simp only
  split
  · cases hobj : g.GetGovernanceObject governance with
    | none => exact ⟨rfl, fun _ => rfl, fun _ h => h⟩
    | some pgovobj =>
      exact setObject_keeps governance g.nGovObjHash pgovobj _ hobj rfl
        (fun h => ⟨h.1, htime⟩)
  · exact ⟨rfl, fun _ => rfl, fun _ h => h⟩

theorem IsExpired_result (P : ConsensusParams) (layer : GovernanceLayer)
    (governance : CGovernanceManager) (g : CGovernanceBlock) :
    (g.IsExpired P layer governance).1 =
      decide (governance.nCachedBlockHeight > int32 (g.nBlockHeight +
        (if g.nStatus = SeenObject.SEEN_OBJECT_EXECUTED then P.megaBlockInterval
          else if g.nStatus = SeenObject.SEEN_OBJECT_IS_VALID then P.superBlockInterval
          else P.bonusBlockInterval))) := by
  unfold CGovernanceBlock.IsExpired
  cases hs : g.nStatus <;> simp only [reduceCtorEq, if_false, if_true] <;> split <;>
    first
      | (split <;> simp_all)
      | simp_all

theorem markDeleted_keeps (layer : GovernanceLayer) (governance : CGovernanceManager)
    (first : uint256) (htime : layer.GetAdjustedTime ≠ 0) :
    (CGovernanceTriggerManager.markDeleted layer governance first).nCachedBlockHeight =
        governance.nCachedBlockHeight ∧
      (∀ k2, ((CGovernanceTriggerManager.markDeleted layer governance
          first).FindGovernanceObject k2).map CGovernanceObject.nObjectType =
        (governance.FindGovernanceObject k2).map CGovernanceObject.nObjectType) ∧
      (∀ k2, (∃ a, governance.FindGovernanceObject k2 = some a ∧ a.fCachedDelete = true ∧
          a.nDeletionTime ≠ 0) →
        ∃ a, (CGovernanceTriggerManager.markDeleted layer governance
            first).FindGovernanceObject k2 = some a ∧
          a.fCachedDelete = true ∧ a.nDeletionTime ≠ 0) ∧
      ((governance.FindGovernanceObject first).isSome = true →
        ∃ a, (CGovernanceTriggerManager.markDeleted layer governance
            first).FindGovernanceObject first = some a ∧
          a.fCachedDelete = true ∧ a.nDeletionTime ≠ 0) := by
  unfold CGovernanceTriggerManager.markDeleted
  cases hobj : governance.FindGovernanceObject first with
  | none => exact ⟨rfl, fun _ => rfl, fun _ h => h, fun h => absurd h (by simp)⟩
  | some pObj =>
    simp only
    have hnz : (if pObj.nDeletionTime = 0 then layer.GetAdjustedTime else pObj.nDeletionTime) ≠
        0 := by
      split
      · exact htime
      · assumption
    obtain ⟨h1, h2, h3⟩ := setObject_keeps governance first pObj
      { pObj with
        fCachedDelete := true
        nDeletionTime :=
          if pObj.nDeletionTime = 0 then layer.GetAdjustedTime else pObj.nDeletionTime }
      hobj rfl (fun _ => ⟨rfl, hnz⟩)
    refine ⟨h1, h2, h3, fun _ => ?_⟩
    rw [setObject_find, if_pos rfl, hobj]
    exact ⟨_, rfl, rfl, hnz⟩

theorem cleanStep_keeps (P : ConsensusParams) (layer : GovernanceLayer)
    (governance : CGovernanceManager) (first : uint256) (g : CGovernanceBlock)
    (htime : layer.GetAdjustedTime ≠ 0) :
    (CGovernanceTriggerManager.cleanStep P layer governance first g).2.2.nCachedBlockHeight =
        governance.nCachedBlockHeight ∧
      (∀ k2, ((CGovernanceTriggerManager.cleanStep P layer governance first
          g).2.2.FindGovernanceObject k2).map CGovernanceObject.nObjectType =
        (governance.FindGovernanceObject k2).map CGovernanceObject.nObjectType) ∧
      ∀ k2, (∃ a, governance.FindGovernanceObject k2 = some a ∧ a.fCachedDelete = true ∧
          a.nDeletionTime ≠ 0) →
        ∃ a, (CGovernanceTriggerManager.cleanStep P layer governance first
            g).2.2.FindGovernanceObject k2 = some a ∧
          a.fCachedDelete = true ∧ a.nDeletionTime ≠ 0 := by
  unfold CGovernanceTriggerManager.cleanStep
  simp only
  split
  · exact ⟨rfl, fun _ => rfl, fun _ h => h⟩
  · exact ⟨rfl, fun _ => rfl, fun _ h => h⟩
  · exact IsExpired_keeps P layer governance _ htime
  · exact IsExpired_keeps P layer governance _ htime
  · exact ⟨rfl, fun _ => rfl, fun _ h => h⟩

/-- The decision of one step of the sweep: the trigger stays exactly when its
backing object resolves with trigger type and the trigger is valid and no older
than a super-block interval, or executed and no older than a mega interval, or
of a status that the switch does not name; a trigger that stays is unchanged. -/
theorem cleanStep_decision (P : ConsensusParams) (layer : GovernanceLayer)
    (governance : CGovernanceManager) (first : uint256) (g : CGovernanceBlock) :
    ((CGovernanceTriggerManager.cleanStep P layer governance first g).2.1 = false ↔
      (governance.FindGovernanceObject first).map CGovernanceObject.nObjectType =
          some layer.GOVERNANCE_OBJECT_TRIGGER ∧
        (g.nStatus = SeenObject.SEEN_OBJECT_IS_VALID ∧
            ¬ governance.nCachedBlockHeight > int32 (g.nBlockHeight + P.superBlockInterval) ∨
          g.nStatus = SeenObject.SEEN_OBJECT_EXECUTED ∧
            ¬ governance.nCachedBlockHeight > int32 (g.nBlockHeight + P.megaBlockInterval) ∨
          g.nStatus = SeenObject.SEEN_OBJECT_OTHER)) ∧
      ((CGovernanceTriggerManager.cleanStep P layer governance first g).2.1 = false →
        (CGovernanceTriggerManager.cleanStep P layer governance first g).1 = g) := by
  unfold CGovernanceTriggerManager.cleanStep
  simp only
  by_cases hobj : (governance.FindGovernanceObject first).map CGovernanceObject.nObjectType =
      some layer.GOVERNANCE_OBJECT_TRIGGER
  · have hall : (governance.FindGovernanceObject first).all
        (fun o => decide (o.nObjectType ≠ layer.GOVERNANCE_OBJECT_TRIGGER)) = false := by
      cases hf : governance.FindGovernanceObject first with
      | none => rw [hf] at hobj; simp at hobj
      | some o =>
        rw [hf] at hobj
        simp only [Option.map_some', Option.some.injEq] at hobj
        simp [hobj]
    simp only [hall, Bool.false_eq_true, if_false, hobj, true_and]
    cases hs : g.nStatus <;> simp [IsExpired_result, hs]
  · have hall : (governance.FindGovernanceObject first).all
        (fun o => decide (o.nObjectType ≠ layer.GOVERNANCE_OBJECT_TRIGGER)) = true := by
      cases hf : governance.FindGovernanceObject first with
      | none => rfl
      | some o =>
        rw [hf] at hobj
        simp only [Option.map_some', Option.some.injEq] at hobj
        simp [hobj]
    simp only [hall, if_true, hobj, false_and, iff_false]
    exact ⟨by decide, fun h => absurd h (by decide)⟩

/-- The sweep over a list of entries: the store keeps its cached height, the
types of its objects and the marks of deletion; an entry stays exactly when it
holds a trigger for which the step decides to keep it; and the object of every
trigger that goes, if it resolves, is marked for deletion with a non-zero
deletion time. -/
theorem cleanLoop_spec (P : ConsensusParams) (layer : GovernanceLayer)
    (htime : layer.GetAdjustedTime ≠ 0) :
    ∀ (entries : List (uint256 × Option CGovernanceBlock)) (governance : CGovernanceManager),
      ((CGovernanceTriggerManager.cleanLoop P layer entries governance).2.nCachedBlockHeight =
          governance.nCachedBlockHeight ∧
        (∀ k2, ((CGovernanceTriggerManager.cleanLoop P layer entries
            governance).2.FindGovernanceObject k2).map CGovernanceObject.nObjectType =
          (governance.FindGovernanceObject k2).map CGovernanceObject.nObjectType) ∧
        ∀ k2, (∃ a, governance.FindGovernanceObject k2 = some a ∧ a.fCachedDelete = true ∧
            a.nDeletionTime ≠ 0) →
          ∃ a, (CGovernanceTriggerManager.cleanLoop P layer entries
              governance).2.FindGovernanceObject k2 = some a ∧
            a.fCachedDelete = true ∧ a.nDeletionTime ≠ 0) ∧
      (∀ e, e ∈ (CGovernanceTriggerManager.cleanLoop P layer entries governance).1 ↔
        e ∈ entries ∧ ∃ g : CGovernanceBlock, e.2 = some g ∧
          (governance.FindGovernanceObject e.1).map CGovernanceObject.nObjectType =
            some layer.GOVERNANCE_OBJECT_TRIGGER ∧
          (g.nStatus = SeenObject.SEEN_OBJECT_IS_VALID ∧
              ¬ governance.nCachedBlockHeight > int32 (g.nBlockHeight + P.superBlockInterval) ∨
            g.nStatus = SeenObject.SEEN_OBJECT_EXECUTED ∧
              ¬ governance.nCachedBlockHeight > int32 (g.nBlockHeight + P.megaBlockInterval) ∨
            g.nStatus = SeenObject.SEEN_OBJECT_OTHER)) ∧
      ∀ (k : uint256) (g : CGovernanceBlock), (k, some g) ∈ entries →
        (k, some g) ∉ (CGovernanceTriggerManager.cleanLoop P layer entries governance).1 →
        (governance.FindGovernanceObject k).isSome = true →
        ∃ a, (CGovernanceTriggerManager.cleanLoop P layer entries
            governance).2.FindGovernanceObject k = some a ∧
          a.fCachedDelete = true ∧ a.nDeletionTime ≠ 0 := by
  intro entries
  induction entries with
  | nil =>
    intro governance
    refine ⟨⟨rfl, fun _ => rfl, fun _ h => h⟩, fun e => ?_, fun k g h => ?_⟩
    · simp [CGovernanceTriggerManager.cleanLoop]
    · simp at h
  | cons x rest ih =>
    intro governance
    obtain ⟨first, ob⟩ := x
    cases ob with
    | none =>
      rw [CGovernanceTriggerManager.cleanLoop]
      obtain ⟨hk, hm, hd⟩ := ih governance
      refine ⟨hk, fun e => ?_, fun k g hin hout hres => ?_⟩
      · rw [hm e, List.mem_cons]
        constructor
        · rintro ⟨h1, h2⟩
          exact ⟨Or.inr h1, h2⟩
        · rintro ⟨h1 | h1, g, h2, h3⟩
          · rw [h1] at h2
            exact absurd h2 (by simp)
          · exact ⟨h1, g, h2, h3⟩
      · rcases List.mem_cons.1 hin with h | h
        · exact absurd h (by simp)
        · exact hd k g h hout hres
    | some blk =>
      rw [CGovernanceTriggerManager.cleanLoop]
      obtain ⟨sh, st, sm⟩ := cleanStep_keeps P layer governance first blk htime
      obtain ⟨sd, su⟩ := cleanStep_decision P layer governance first blk
      simp only
      cases hrem : (CGovernanceTriggerManager.cleanStep P layer governance first blk).2.1 with
      | true =>
        simp only [if_true]
        have hnot := mt sd.2 (by rw [hrem]; decide)
        obtain ⟨mh, mt2, mm, mf⟩ := markDeleted_keeps layer
          (CGovernanceTriggerManager.cleanStep P layer governance first blk).2.2 first htime
        obtain ⟨⟨ih1, ih2, ih3⟩, hm, hd⟩ := ih (CGovernanceTriggerManager.markDeleted layer
          (CGovernanceTriggerManager.cleanStep P layer governance first blk).2.2 first)
        have htypes : ∀ k2, ((CGovernanceTriggerManager.markDeleted layer
            (CGovernanceTriggerManager.cleanStep P layer governance first
              blk).2.2 first).FindGovernanceObject k2).map CGovernanceObject.nObjectType =
            (governance.FindGovernanceObject k2).map CGovernanceObject.nObjectType :=
          fun k2 => (mt2 k2).trans (st k2)
        have hheight : (CGovernanceTriggerManager.markDeleted layer
            (CGovernanceTriggerManager.cleanStep P layer governance first
              blk).2.2 first).nCachedBlockHeight = governance.nCachedBlockHeight :=
          mh.trans sh
        have hmem : ∀ e, e ∈ (CGovernanceTriggerManager.cleanLoop P layer rest
            (CGovernanceTriggerManager.markDeleted layer
              (CGovernanceTriggerManager.cleanStep P layer governance first
                blk).2.2 first)).1 ↔
            e ∈ (first, some blk) :: rest ∧ ∃ g : CGovernanceBlock, e.2 = some g ∧
              (governance.FindGovernanceObject e.1).map CGovernanceObject.nObjectType =
                some layer.GOVERNANCE_OBJECT_TRIGGER ∧
              (g.nStatus = SeenObject.SEEN_OBJECT_IS_VALID ∧
                  ¬ governance.nCachedBlockHeight > int32 (g.nBlockHeight + P.superBlockInterval) ∨
                g.nStatus = SeenObject.SEEN_OBJECT_EXECUTED ∧
                  ¬ governance.nCachedBlockHeight > int32 (g.nBlockHeight + P.megaBlockInterval) ∨
                g.nStatus = SeenObject.SEEN_OBJECT_OTHER) := by
          intro e
          rw [hm e, htypes, hheight, List.mem_cons]
          constructor
          · rintro ⟨h1, h2⟩
            exact ⟨Or.inr h1, h2⟩
          · rintro ⟨h1 | h1, g, h2, h3⟩
            · rw [h1] at h2 h3
              simp only [Option.some.injEq] at h2
              subst h2
              exact absurd h3 hnot
            · exact ⟨h1, g, h2, h3⟩
        refine ⟨⟨ih1.trans hheight, fun k2 => (ih2 k2).trans (htypes k2),
          fun k2 h => ih3 k2 (mm k2 (sm k2 h))⟩, hmem, fun k g hin hout hres => ?_⟩
        rcases List.mem_cons.1 hin with h | h
        · simp only [Prod.mk.injEq, Option.some.injEq] at h
          obtain ⟨h1, h2⟩ := h
          subst h1 h2
          apply ih3
          apply mf
          have := st k
          cases hf : governance.FindGovernanceObject k with
          | none => rw [hf] at hres; exact absurd hres (by simp)
          | some o =>
            rw [hf] at this
            cases hf2 : (CGovernanceTriggerManager.cleanStep P layer governance k
                g).2.2.FindGovernanceObject k with
            | none => rw [hf2] at this; simp at this
            | some o2 => rfl
        · apply hd k g h hout
          have := htypes k
          cases hf : governance.FindGovernanceObject k with
          | none => rw [hf] at hres; exact absurd hres (by simp)
          | some o =>
            rw [hf] at this
            cases hf2 : (CGovernanceTriggerManager.markDeleted layer
                (CGovernanceTriggerManager.cleanStep P layer governance first
                  blk).2.2 first).FindGovernanceObject k with
            | none => rw [hf2] at this; simp at this
            | some o2 => rfl
      | false =>
        simp only [Bool.false_eq_true, if_false]
        have hyes := sd.1 hrem
        have hsame := su hrem
        obtain ⟨⟨ih1, ih2, ih3⟩, hm, hd⟩ := ih
          (CGovernanceTriggerManager.cleanStep P layer governance first blk).2.2
        have hmem : ∀ e, e ∈ (first, some (CGovernanceTriggerManager.cleanStep P layer governance
              first blk).1) :: (CGovernanceTriggerManager.cleanLoop P layer rest
            (CGovernanceTriggerManager.cleanStep P layer governance first blk).2.2).1 ↔
            e ∈ (first, some blk) :: rest ∧ ∃ g : CGovernanceBlock, e.2 = some g ∧
              (governance.FindGovernanceObject e.1).map CGovernanceObject.nObjectType =
                some layer.GOVERNANCE_OBJECT_TRIGGER ∧
              (g.nStatus = SeenObject.SEEN_OBJECT_IS_VALID ∧
                  ¬ governance.nCachedBlockHeight > int32 (g.nBlockHeight + P.superBlockInterval) ∨
                g.nStatus = SeenObject.SEEN_OBJECT_EXECUTED ∧
                  ¬ governance.nCachedBlockHeight > int32 (g.nBlockHeight + P.megaBlockInterval) ∨
                g.nStatus = SeenObject.SEEN_OBJECT_OTHER) := by
          intro e
          rw [hsame, List.mem_cons, hm e, st, sh, List.mem_cons]
          constructor
          · rintro (h1 | ⟨h1, h2⟩)
            · subst h1
              exact ⟨Or.inl rfl, blk, rfl, hyes⟩
            · exact ⟨Or.inr h1, h2⟩
          · rintro ⟨h1 | h1, h2⟩
            · exact Or.inl h1
            · exact Or.inr ⟨h1, h2⟩
        refine ⟨⟨ih1.trans sh, fun k2 => (ih2 k2).trans (st k2), fun k2 h => ih3 k2 (sm k2 h)⟩,
          hmem, fun k g hin hout hres => ?_⟩
        rcases List.mem_cons.1 hin with h | h
        · exact absurd ((hmem (k, some g)).2 ⟨hin, g, rfl, by
            simp only [Prod.mk.injEq, Option.some.injEq] at h
            obtain ⟨h1, h2⟩ := h
            subst h1 h2
            exact hyes⟩) hout
        · apply hd k g h
          · intro hx
            exact hout (List.mem_cons_of_mem _ hx)
          · have := st k
            cases hf : governance.FindGovernanceObject k with
            | none => rw [hf] at hres; exact absurd hres (by simp)
            | some o =>
              rw [hf] at this
              cases hf2 : (CGovernanceTriggerManager.cleanStep P layer governance first
                  blk).2.2.FindGovernanceObject k with
              | none => rw [hf2] at this; simp at this
              | some o2 => rfl

/-- The sweep, with the expiry test as the compiled code computes it: after
`CGovernanceTriggerManager::CleanAndRemove`, on a trigger set whose triggers are
not null and have one of the statuses named in these sources (unknown, valid,
executed, invalid), with a non-zero adjusted time, a trigger of the set remains
if and only if the governance object under its key resolves and is of trigger
type, its status is valid or executed, and the cached chain height does not
exceed the 32-bit sum of its event height and one super-block interval (valid)
or one mega interval (executed); no entry is added; and the object of every
removed trigger, if it resolves, is marked for deletion (`fCachedDelete`) with
a non-zero deletion time. -/
theorem CleanAndRemove_sweep (P : ConsensusParams) (layer : GovernanceLayer)
    (governance : CGovernanceManager) (triggerman : CGovernanceTriggerManager)
    (hstatus : ∀ e ∈ triggerman.mapTrigger, ∃ g : CGovernanceBlock, e.2 = some g ∧
      g.nStatus ≠ SeenObject.SEEN_OBJECT_OTHER)
    (htime : layer.GetAdjustedTime ≠ 0) :
    (∀ (k : uint256) (g : CGovernanceBlock), (k, some g) ∈ triggerman.mapTrigger →
      ((k, some g) ∈ (triggerman.CleanAndRemove P layer governance).1.mapTrigger ↔
        ∃ pObj : CGovernanceObject, governance.FindGovernanceObject k = some pObj ∧
          pObj.nObjectType = layer.GOVERNANCE_OBJECT_TRIGGER ∧
          (g.nStatus = SeenObject.SEEN_OBJECT_IS_VALID ∧
              governance.nCachedBlockHeight ≤ int32 (g.nBlockHeight + P.superBlockInterval) ∨
            g.nStatus = SeenObject.SEEN_OBJECT_EXECUTED ∧
              governance.nCachedBlockHeight ≤ int32 (g.nBlockHeight + P.megaBlockInterval)))) ∧
      (∀ e, e ∈ (triggerman.CleanAndRemove P layer governance).1.mapTrigger →
        e ∈ triggerman.mapTrigger) ∧
      ∀ (k : uint256) (g : CGovernanceBlock), (k, some g) ∈ triggerman.mapTrigger →
        (k, some g) ∉ (triggerman.CleanAndRemove P layer governance).1.mapTrigger →
        ∀ pObj : CGovernanceObject, governance.FindGovernanceObject k = some pObj →
          ∃ a, (triggerman.CleanAndRemove P layer governance).2.FindGovernanceObject k =
              some a ∧
            a.fCachedDelete = true ∧ a.nDeletionTime ≠ 0 := by
  obtain ⟨_, hm, hd⟩ := cleanLoop_spec P layer htime triggerman.mapTrigger governance
  unfold CGovernanceTriggerManager.CleanAndRemove
  simp only
  refine ⟨fun k g hin => ?_, fun e he => ((hm e).1 he).1, fun k g hin hout pObj hres => ?_⟩
  · rw [hm (k, some g)]
    obtain ⟨g2, hg2, hother⟩ := hstatus (k, some g) hin
    simp only [Option.some.injEq] at hg2
    subst hg2
    constructor
    · rintro ⟨_, g2, h2, h3, h4⟩
      simp only [Option.some.injEq] at h2
      subst h2
      cases hf : governance.FindGovernanceObject k with
      | none => rw [hf] at h3; simp at h3
      | some pObj =>
        rw [hf] at h3
        simp only [Option.map_some', Option.some.injEq] at h3
        refine ⟨pObj, rfl, h3, ?_⟩
        rcases h4 with ⟨h5, h6⟩ | ⟨h5, h6⟩ | h5
        · exact Or.inl ⟨h5, by omega⟩
        · exact Or.inr ⟨h5, by omega⟩
        · exact absurd h5 hother
    · rintro ⟨pObj, h1, h2, h3⟩
      refine ⟨hin, g, rfl, by rw [h1]; simp [h2], ?_⟩
      rcases h3 with ⟨h5, h6⟩ | ⟨h5, h6⟩
      · exact Or.inl ⟨h5, by omega⟩
      · exact Or.inr (Or.inl ⟨h5, by omega⟩)
  · exact hd k g hin hout (by rw [hres]; rfl)

/-- C24: evaluation of the sweep on a trigger whose event height is 2147483647,
the largest 32-bit `int`. `AddNewTrigger` creates the trigger from the
governance object of hash 7 with status valid; the object resolves and is of
trigger type, and the cached chain height 10080 does not exceed the event
height plus one super-block interval of 1440. The 32-bit sum
2147483647 + 1440 wraps around to -2147482209, below the cached height, so
`IsExpired` is true and `CleanAndRemove` removes the trigger and marks its
object as expired and for deletion. -/
theorem CleanAndRemove_removes_trigger_of_far_event_height :
    CGovernanceTriggerManager.AddNewTrigger farLayer scenarioCodec scenarioGovernance ⟨[]⟩ 7 =
        (true, ⟨[(7, some ⟨7, 2147483647, SeenObject.SEEN_OBJECT_IS_VALID,
          [⟨true, [65, 49], 1000000000⟩]⟩)]⟩) ∧
      (scenarioGovernance.FindGovernanceObject 7).map CGovernanceObject.nObjectType =
        some farLayer.GOVERNANCE_OBJECT_TRIGGER ∧
      scenarioGovernance.nCachedBlockHeight ≤ 2147483647 + scenarioParams.superBlockInterval ∧
      int32 (2147483647 + scenarioParams.superBlockInterval) = -2147482209 ∧
      ((CGovernanceTriggerManager.AddNewTrigger farLayer scenarioCodec scenarioGovernance ⟨[]⟩
        7).2.CleanAndRemove scenarioParams farLayer scenarioGovernance).1.mapTrigger = [] ∧
      ((CGovernanceTriggerManager.AddNewTrigger farLayer scenarioCodec scenarioGovernance ⟨[]⟩
        7).2.CleanAndRemove scenarioParams farLayer scenarioGovernance).2.FindGovernanceObject 7 =
        some ⟨2, true, true, true, 1540000000, 12⟩ := by
  decide

end GenesisRoot
